import Mathlib

/-!
# Verification development for the azadi literate-programming tool

This file shallowly embeds the core of the azadi repository (a macro
processor plus a noweb-style tangler, written in Rust) and proves or
refutes a list of specification claims against that embedding.

Modelling conventions, used throughout:

* Rust byte strings (`&[u8]`, `Vec<u8>`, and `String`/`&str` wherever byte
  positions matter) are modelled as `List Nat`, abbreviated `Bytes`.
* Rust `HashMap`/`HashSet` are modelled as association lists / lists with
  the same lookup, insert-replace and membership semantics.  Iteration
  order of hash maps is unspecified in Rust; the model iterates in list
  order, and no claim below depends on that order.
* The filesystem is modelled as an association list from paths to file
  contents (`FS`).  Directories and directory creation are not modelled;
  `create_dir_all` calls are no-ops.
* Unicode character classification (`char::is_whitespace`, `str::trim`)
  is modelled for the ASCII range; all inputs appearing in the claims are
  ASCII.
* Diagnostic-only data (line/column fields of lexer errors, chunk
  reference counters used solely for unused-chunk warnings) is omitted
  where noted in doc comments; no claim depends on it.
* Error message texts are reproduced from the source except that quote
  punctuation is dropped.
-/

namespace Azadi

/-- Bytes of a Rust byte string. -/
abbrev Bytes := List Nat

/-- Bytes of an ASCII string literal (for ASCII text this equals its UTF-8). -/
def str2b (s : String) : Bytes := s.data.map Char.toNat

/-- Rust `str::contains` for a byte-string pattern: `n` occurs as a
contiguous substring of `h`. -/
def isInfixB (n : Bytes) : Bytes → Bool
  | [] => n.isPrefixOf []
  | b :: r => n.isPrefixOf (b :: r) || isInfixB n r

/-- ASCII whitespace, the ASCII fragment of Rust `char::is_whitespace` /
regex `\s` (space, tab, newline, carriage return, vertical tab, form feed). -/
def isSpaceB (b : Nat) : Bool :=
  b = 32 || b = 9 || b = 10 || b = 13 || b = 11 || b = 12

/-- Strip leading ASCII whitespace. -/
def trimLeftB : Bytes → Bytes
  | [] => []
  | b :: r => if isSpaceB b then trimLeftB r else b :: r

/-- Rust `str::trim`, modelled for ASCII whitespace. -/
def trimB (s : Bytes) : Bytes :=
  ((trimLeftB ((trimLeftB s).reverse)).reverse)

/-! ## Filesystem model

An association list from file paths to file contents.  `fsWrite` replaces
any existing entry (truncating write); `fsRemove` deletes. -/

abbrev FS := List (Bytes × Bytes)

/-- Read a file's contents, `none` if absent. -/
def fsRead (fs : FS) (p : Bytes) : Option Bytes :=
  (fs.find? (fun e => e.1 == p)).map (·.2)

/-- Write (create or truncate) a file. -/
def fsWrite (fs : FS) (p c : Bytes) : FS :=
  (p, c) :: fs.filter (fun e => !(e.1 == p))

/-- Delete a file. -/
def fsRemove (fs : FS) (p : Bytes) : FS :=
  fs.filter (fun e => !(e.1 == p))

/-- Whether a file exists (`Path::is_file` / `Path::exists` of the model). -/
def fsExists (fs : FS) (p : Bytes) : Bool :=
  (fsRead fs p).isSome

/-- Rust `Path::join` on Unix: an absolute right side replaces the left,
otherwise the sides are joined with a `/` separator. -/
def pjoin (a b : Bytes) : Bytes :=
  if b.head? = some 47 then b
  else if a = [] then b
  else if a.getLast? = some 47 then a ++ b
  else a ++ [47] ++ b

/-! ## azadi-noweb error type (`src/crates/azadi-noweb/src/lib.rs`) -/

/-- `AzadiError` from azadi-noweb `lib.rs`.  The `IoError` payload keeps
only a message. -/
inductive AzadiError
  | recursionLimit (chunk fileName : Bytes) (line : Nat)
  | recursiveReference (chunk fileName : Bytes) (line : Nat)
  | undefinedChunk (chunk fileName : Bytes) (line : Nat)
  | fileChunkRedefinition (fileChunk fileName : Bytes) (line : Nat)
  | ioError (msg : String)
  | securityViolation (msg : String)
  | modifiedExternally (msg : Bytes)
  deriving Repr, DecidableEq

/-! ## Safe writer (`src/crates/azadi-noweb/src/safe_writer.rs`)

The hash function (BLAKE3 in the source, producing a hex string) is a
parameter `hash : Bytes → Bytes` of every operation; files and sidecars
live in the `FS` model above.  Each operation returns the (possibly
updated) filesystem together with its result. -/

/-- `SafeFileWriter` fields. -/
structure SafeFileWriter where
  gen_dir : Bytes
  priv_dir : Bytes
  old_dir : Bytes
  safe : Bool
  deriving Repr, DecidableEq

/-- `SafeFileWriter::new` (directory creation is not modelled). -/
def SafeFileWriter.new (gen_base private_dir : Bytes) (safe : Bool) : SafeFileWriter :=
  { gen_dir := gen_base
    priv_dir := private_dir
    old_dir := pjoin private_dir (str2b "__old__")
    safe := safe }

/-- `SafeFileWriter::check_path`: reject absolute paths, paths containing
a colon, and paths whose string form contains the two-byte substring
`..` anywhere. -/
def check_path (f : Bytes) : Except AzadiError Unit :=
  if f.head? = some 47 then
    .error (.securityViolation "Absolute paths not allowed")
  else if f.contains 58 then
    .error (.securityViolation "Windows-style paths not allowed")
  else if isInfixB (str2b "..") f then
    .error (.securityViolation "Path traversal not allowed")
  else
    .ok ()

/-- `SafeFileWriter::compute_hash`: hash the whole file contents
(the source reads the file in 8192-byte chunks; the model hashes the
contents directly). -/
def compute_hash (hash : Bytes → Bytes) (fs : FS) (f : Bytes) : Except AzadiError Bytes :=
  match fsRead fs f with
  | some c => .ok (hash c)
  | none => .error (.ioError "open failed")

/-- `SafeFileWriter::sidecar_path`: the file name gets a `.hash` suffix.
All paths reaching it have a non-empty final component, for which
`set_file_name` appends to the whole path. -/
def sidecar_path (old_path : Bytes) : Bytes :=
  old_path ++ str2b ".hash"

/-- `SafeFileWriter::read_or_write_old_hash`. -/
def read_or_write_old_hash (hash : Bytes → Bytes) (fs : FS) (old_file : Bytes) :
    FS × Except AzadiError Bytes :=
  let sc := sidecar_path old_file
  match fsRead fs sc with
  | some c =>
      let t := trimB c
      if t = [] then
        match fsRead fs old_file with
        | some oc => (fsWrite fs sc (hash oc), .ok (hash oc))
        | none => (fs, .error (.ioError "open failed"))
      else (fs, .ok t)
  | none =>
      match fsRead fs old_file with
      | some oc => (fsWrite fs sc (hash oc), .ok (hash oc))
      | none => (fs, .error (.ioError "open failed"))

/-- `SafeFileWriter::before_write`. -/
def before_write (hash : Bytes → Bytes) (sw : SafeFileWriter) (fs : FS) (f : Bytes) :
    FS × Except AzadiError Bytes :=
  match check_path f with
  | .error e => (fs, .error e)
  | .ok _ =>
    if !sw.safe then
      (fs, .ok (pjoin sw.gen_dir f))
    else
      let final_file := pjoin sw.gen_dir f
      let old_file := pjoin sw.old_dir f
      if fsExists fs final_file && fsExists fs old_file then
        match compute_hash hash fs final_file with
        | .error e => (fs, .error e)
        | .ok final_hash =>
          match read_or_write_old_hash hash fs old_file with
          | (fs1, .error e) => (fs1, .error e)
          | (fs1, .ok old_hash) =>
            if final_hash ≠ old_hash then
              (fs1, .error (.modifiedExternally
                (final_file ++ str2b " was modified externally")))
            else
              (fs1, .ok (pjoin sw.priv_dir f))
      else
        (fs, .ok (pjoin sw.priv_dir f))

/-- `SafeFileWriter::after_write`. -/
def after_write (hash : Bytes → Bytes) (sw : SafeFileWriter) (fs : FS) (f : Bytes) :
    FS × Except AzadiError Unit :=
  match check_path f with
  | .error e => (fs, .error e)
  | .ok _ =>
    if !sw.safe then
      (fs, .ok ())
    else
      let priv_file := pjoin sw.priv_dir f
      let old_file := pjoin sw.old_dir f
      let final_file := pjoin sw.gen_dir f
      -- backup: if the published file exists, copy it to old and remove it
      let step1 : FS × Except AzadiError Unit :=
        if fsExists fs final_file then
          match fsRead fs final_file with
          | some c0 => (fsRemove (fsWrite fs old_file c0) final_file, .ok ())
          | none => (fs, .error (.ioError "backup failed"))
        else (fs, .ok ())
      match step1 with
      | (_, .error e) => (fs, .error e)
      | (fs1, .ok _) =>
        -- rename staging to published
        match fsRead fs1 priv_file with
        | none => (fs1, .error (.ioError "rename failed"))
        | some c =>
          let fs2 := fsRemove (fsWrite fs1 final_file c) priv_file
          if fsExists fs2 old_file then
            match fsRead fs2 old_file with
            | some oc => (fsWrite fs2 (sidecar_path old_file) (hash oc), .ok ())
            | none => (fs2, .error (.ioError "open failed"))
          else
            match fsRead fs2 final_file with
            | some c2 =>
              let fs3 := fsWrite fs2 old_file c2
              (fsWrite fs3 (sidecar_path old_file) (hash c2), .ok ())
            | none => (fs2, .error (.ioError "copy failed"))

/-! ### Filesystem lemmas -/

theorem find?_filter_ne (l : List (Bytes × Bytes)) (p q : Bytes) (h : q ≠ p) :
    List.find? (fun e => e.1 == q) (l.filter (fun e => !(e.1 == p)))
      = List.find? (fun e => e.1 == q) l := by
  induction l with
  | nil => rfl
  | cons e rest ih =>
    cases hpe : (e.1 == p) with
    | true =>
      have hp : e.1 = p := by simpa using hpe
      have hqe : (e.1 == q) = false := by
        simp only [beq_eq_false_iff_ne, ne_eq, hp]
        exact fun hh => h hh.symm
      rw [List.filter_cons, hpe]
      simp only [Bool.not_true, if_false]
      rw [List.find?_cons, hqe]
      simpa using ih
    | false =>
      rw [List.filter_cons, hpe]
      simp only [Bool.not_false, if_true]
      cases hqe : (e.1 == q) with
      | true =>
        rw [List.find?_cons, List.find?_cons, hqe]
      | false =>
        rw [List.find?_cons, List.find?_cons, hqe]
        simpa using ih

theorem fsRead_filter_ne (fs : FS) (p q : Bytes) (h : q ≠ p) :
    fsRead (fs.filter (fun e => !(e.1 == p))) q = fsRead fs q := by
  unfold fsRead
  rw [find?_filter_ne fs p q h]

theorem fsRead_fsWrite_same (fs : FS) (p c : Bytes) :
    fsRead (fsWrite fs p c) p = some c := by
  simp [fsRead, fsWrite, List.find?]

theorem fsRead_fsWrite_other (fs : FS) (p q c : Bytes) (h : q ≠ p) :
    fsRead (fsWrite fs p c) q = fsRead fs q := by
  have hq : (p == q) = false := by
    simp
    exact fun hh => h hh.symm
  simp only [fsRead, fsWrite, List.find?, hq]
  exact fsRead_filter_ne fs p q h

theorem fsRead_fsRemove_other (fs : FS) (p q : Bytes) (h : q ≠ p) :
    fsRead (fsRemove fs p) q = fsRead fs q :=
  fsRead_filter_ne fs p q h

theorem sidecar_path_ne (p : Bytes) : sidecar_path p ≠ p := by
  intro h
  have := congrArg List.length h
  simp [sidecar_path, str2b] at this

/-! ### Claim C10 -/

/-- C10: `before_write` and `after_write` reject every path whose byte
string contains the substring `..` anywhere (including names like
`a..b`), every absolute path, and every path containing `:`, with a
`SecurityViolation` error, before any filesystem effect (the filesystem
is returned unchanged). -/
theorem safe_writer_rejects_unsafe_paths
    (hash : Bytes → Bytes) (sw : SafeFileWriter) (fs : FS) (f : Bytes)
    (h : isInfixB (str2b "..") f = true ∨ f.head? = some 47 ∨ (58 : Nat) ∈ f) :
    (∃ m, before_write hash sw fs f = (fs, .error (.securityViolation m))) ∧
    (∃ m, after_write hash sw fs f = (fs, .error (.securityViolation m))) := by
  have hcp : ∃ m, check_path f = .error (.securityViolation m) := by
    by_cases h1 : f.head? = some 47
    · exact ⟨"Absolute paths not allowed", by unfold check_path; simp [h1]⟩
    · by_cases h2 : (58 : Nat) ∈ f
      · exact ⟨"Windows-style paths not allowed", by unfold check_path; simp [h1, h2]⟩
      · have h3 : isInfixB (str2b "..") f = true := by
          rcases h with h | h | h
          · exact h
          · exact absurd h h1
          · exact absurd h h2
        exact ⟨"Path traversal not allowed", by unfold check_path; simp [h1, h2, h3]⟩
  obtain ⟨m, hm⟩ := hcp
  refine ⟨⟨m, ?_⟩, ⟨m, ?_⟩⟩
  · unfold before_write
    rw [hm]
  · unfold after_write
    rw [hm]

/-- Witness for C10 at the concrete path `a..b` (no parent-directory
component, yet rejected). -/
theorem safe_writer_rejects_unsafe_paths_witness :
    (isInfixB (str2b "..") (str2b "a..b") = true ∨
      (str2b "a..b").head? = some 47 ∨ (58 : Nat) ∈ str2b "a..b") ∧
    ((∃ m, before_write (fun _ => [104])
        (SafeFileWriter.new (str2b "gen") (str2b "work") true) []
        (str2b "a..b") = ([], .error (.securityViolation m))) ∧
     (∃ m, after_write (fun _ => [104])
        (SafeFileWriter.new (str2b "gen") (str2b "work") true) []
        (str2b "a..b") = ([], .error (.securityViolation m)))) :=
  ⟨by decide,
   safe_writer_rejects_unsafe_paths (fun _ => [104])
     (SafeFileWriter.new (str2b "gen") (str2b "work") true) [] (str2b "a..b")
     (by decide)⟩

/-! ### Claim C3 -/

/-- Pairwise distinctness of the four per-file paths a `SafeFileWriter`
touches; holds for any layout with distinct `gen`, staging and old
directories. -/
def distinctLayout (sw : SafeFileWriter) (f : Bytes) : Prop :=
  pjoin sw.priv_dir f ≠ pjoin sw.old_dir f ∧
  pjoin sw.priv_dir f ≠ pjoin sw.gen_dir f ∧
  pjoin sw.old_dir f ≠ pjoin sw.gen_dir f ∧
  sidecar_path (pjoin sw.old_dir f) ≠ pjoin sw.priv_dir f ∧
  sidecar_path (pjoin sw.old_dir f) ≠ pjoin sw.gen_dir f

/-- Post-condition of a committed `after_write` in safe mode: the staged
content is published in `gen`, a previous copy sits in `old`, and the
sidecar records exactly the hash of that previous copy. -/
theorem after_write_commit
    (hash : Bytes → Bytes) (sw : SafeFileWriter) (fs : FS) (f c : Bytes)
    (hsafe : sw.safe = true)
    (hcp : check_path f = .ok ())
    (hstaged : fsRead fs (pjoin sw.priv_dir f) = some c)
    (hdist : distinctLayout sw f) :
    ∃ fs2 o,
      after_write hash sw fs f = (fs2, .ok ()) ∧
      fsRead fs2 (pjoin sw.gen_dir f) = some c ∧
      fsRead fs2 (pjoin sw.old_dir f) = some o ∧
      fsRead fs2 (sidecar_path (pjoin sw.old_dir f)) = some (hash o) := by
  obtain ⟨hPO, hPG, hOG, hSP, hSG⟩ := hdist
  have hSO : sidecar_path (pjoin sw.old_dir f) ≠ pjoin sw.old_dir f :=
    sidecar_path_ne _
  unfold after_write
  simp only [hcp, hsafe, Bool.not_true, Bool.false_eq_true, if_false]
  by_cases hgen : fsExists fs (pjoin sw.gen_dir f) = true
  · -- a previous published copy exists; it is backed up to old
    obtain ⟨c0, hc0⟩ : ∃ c0, fsRead fs (pjoin sw.gen_dir f) = some c0 := by
      unfold fsExists at hgen
      cases hread : fsRead fs (pjoin sw.gen_dir f) with
      | none => rw [hread] at hgen; simp at hgen
      | some v => exact ⟨v, rfl⟩
    have hA_priv : fsRead (fsRemove (fsWrite fs (pjoin sw.old_dir f) c0) (pjoin sw.gen_dir f))
        (pjoin sw.priv_dir f) = some c := by
      rw [fsRead_fsRemove_other _ _ _ hPG, fsRead_fsWrite_other _ _ _ _ hPO]
      exact hstaged
    have hold2 : fsRead (fsRemove (fsWrite
          (fsRemove (fsWrite fs (pjoin sw.old_dir f) c0) (pjoin sw.gen_dir f))
          (pjoin sw.gen_dir f) c) (pjoin sw.priv_dir f)) (pjoin sw.old_dir f) = some c0 := by
      rw [fsRead_fsRemove_other _ _ _ hPO.symm,
        fsRead_fsWrite_other _ _ _ _ hOG,
        fsRead_fsRemove_other _ _ _ hOG, fsRead_fsWrite_same]
    have hex2 : fsExists (fsRemove (fsWrite
          (fsRemove (fsWrite fs (pjoin sw.old_dir f) c0) (pjoin sw.gen_dir f))
          (pjoin sw.gen_dir f) c) (pjoin sw.priv_dir f)) (pjoin sw.old_dir f) = true := by
      unfold fsExists
      rw [hold2]
      rfl
    simp only [hgen, hc0, hA_priv, hex2, hold2, eq_self_iff_true, if_true,
      Bool.false_eq_true, if_false]
    refine ⟨_, c0, rfl, ?_, ?_, ?_⟩
    · rw [fsRead_fsWrite_other _ _ _ _ hSG.symm,
        fsRead_fsRemove_other _ _ _ hPG.symm, fsRead_fsWrite_same]
    · rw [fsRead_fsWrite_other _ _ _ _ hSO.symm]
      exact hold2
    · rw [fsRead_fsWrite_same]
  · -- no previous published copy
    have hgen2 : fsRead (fsRemove (fsWrite fs (pjoin sw.gen_dir f) c) (pjoin sw.priv_dir f))
        (pjoin sw.gen_dir f) = some c := by
      rw [fsRead_fsRemove_other _ _ _ hPG.symm, fsRead_fsWrite_same]
    simp only [hgen, hstaged, eq_self_iff_true, if_true, Bool.false_eq_true,
      if_false, eq_false_intro hgen]
    by_cases hold : fsExists (fsRemove (fsWrite fs (pjoin sw.gen_dir f) c) (pjoin sw.priv_dir f))
        (pjoin sw.old_dir f) = true
    · obtain ⟨o0, ho0⟩ : ∃ o0, fsRead (fsRemove (fsWrite fs (pjoin sw.gen_dir f) c)
          (pjoin sw.priv_dir f)) (pjoin sw.old_dir f) = some o0 := by
        unfold fsExists at hold
        cases hread : fsRead (fsRemove (fsWrite fs (pjoin sw.gen_dir f) c)
            (pjoin sw.priv_dir f)) (pjoin sw.old_dir f) with
        | none => rw [hread] at hold; simp at hold
        | some v => exact ⟨v, rfl⟩
      rw [if_pos hold, ho0]
      refine ⟨_, o0, rfl, ?_, ?_, ?_⟩
      · rw [fsRead_fsWrite_other _ _ _ _ hSG.symm]
        exact hgen2
      · rw [fsRead_fsWrite_other _ _ _ _ hSO.symm]
        exact ho0
      · rw [fsRead_fsWrite_same]
    · rw [if_neg hold, hgen2]
      refine ⟨_, c, rfl, ?_, ?_, ?_⟩
      · rw [fsRead_fsWrite_other _ _ _ _ hSG.symm,
          fsRead_fsWrite_other _ _ _ _ hOG.symm]
        exact hgen2
      · rw [fsRead_fsWrite_other _ _ _ _ hSO.symm, fsRead_fsWrite_same]
      · rw [fsRead_fsWrite_same]

/-- C3: with safe mode enabled, after a committed
`before_write`/`after_write` cycle for a path `f`, an out-of-band
rewrite of `gen_dir/f` with content `x` makes the next `before_write f`
fail with `ModifiedExternally` exactly when the hash of `x` differs from
the recorded hash of the old copy, and the filesystem (in particular
`gen_dir/f`) is left unchanged either way. -/
theorem before_write_detects_external_modification
    (hash : Bytes → Bytes) (sw : SafeFileWriter) (fs : FS) (f c x : Bytes)
    (hsafe : sw.safe = true)
    (hcp : check_path f = .ok ())
    (hstaged : fsRead fs (pjoin sw.priv_dir f) = some c)
    (hdist : distinctLayout sw f)
    (htrim : ∀ b, trimB (hash b) = hash b)
    (hne : ∀ b, hash b ≠ []) :
    ∃ fs2 o,
      after_write hash sw fs f = (fs2, .ok ()) ∧
      fsRead fs2 (pjoin sw.old_dir f) = some o ∧
      (hash x ≠ hash o →
        before_write hash sw (fsWrite fs2 (pjoin sw.gen_dir f) x) f =
          (fsWrite fs2 (pjoin sw.gen_dir f) x,
           .error (.modifiedExternally
             (pjoin sw.gen_dir f ++ str2b " was modified externally")))) ∧
      (hash x = hash o →
        before_write hash sw (fsWrite fs2 (pjoin sw.gen_dir f) x) f =
          (fsWrite fs2 (pjoin sw.gen_dir f) x, .ok (pjoin sw.priv_dir f))) := by
  obtain ⟨fs2, o, hrun, hgen2, hold2, hsc2⟩ :=
    after_write_commit hash sw fs f c hsafe hcp hstaged hdist
  obtain ⟨hPO, hPG, hOG, hSP, hSG⟩ := hdist
  refine ⟨fs2, o, hrun, hold2, ?_⟩
  have hgen3 : fsRead (fsWrite fs2 (pjoin sw.gen_dir f) x) (pjoin sw.gen_dir f) = some x :=
    fsRead_fsWrite_same _ _ _
  have hold3 : fsRead (fsWrite fs2 (pjoin sw.gen_dir f) x) (pjoin sw.old_dir f) = some o := by
    rw [fsRead_fsWrite_other _ _ _ _ hOG]
    exact hold2
  have hsc3 : fsRead (fsWrite fs2 (pjoin sw.gen_dir f) x)
      (sidecar_path (pjoin sw.old_dir f)) = some (hash o) := by
    rw [fsRead_fsWrite_other _ _ _ _ hSG]
    exact hsc2
  have hexg : fsExists (fsWrite fs2 (pjoin sw.gen_dir f) x) (pjoin sw.gen_dir f) = true := by
    unfold fsExists
    rw [hgen3]
    rfl
  have hexo : fsExists (fsWrite fs2 (pjoin sw.gen_dir f) x) (pjoin sw.old_dir f) = true := by
    unfold fsExists
    rw [hold3]
    rfl
  have hrow : read_or_write_old_hash hash (fsWrite fs2 (pjoin sw.gen_dir f) x)
      (pjoin sw.old_dir f) = (fsWrite fs2 (pjoin sw.gen_dir f) x, .ok (hash o)) := by
    have hnil : ¬(trimB (hash o) = []) := by
      rw [htrim o]
      exact hne o
    unfold read_or_write_old_hash
    simp only [hsc3, htrim o, hnil, if_false]
    rw [if_neg (hne o)]
  have hch : compute_hash hash (fsWrite fs2 (pjoin sw.gen_dir f) x) (pjoin sw.gen_dir f)
      = .ok (hash x) := by
    unfold compute_hash
    rw [hgen3]
  have hbw : before_write hash sw (fsWrite fs2 (pjoin sw.gen_dir f) x) f =
      (fsWrite fs2 (pjoin sw.gen_dir f) x,
       if hash x ≠ hash o then
         .error (.modifiedExternally (pjoin sw.gen_dir f ++ str2b " was modified externally"))
       else .ok (pjoin sw.priv_dir f)) := by
    unfold before_write
    simp only [hcp, hsafe, Bool.not_true, Bool.false_eq_true, if_false,
      hexg, hexo, Bool.and_self, eq_self_iff_true, if_true, hch, hrow]
    split <;> rfl
  constructor
  · intro hx
    rw [hbw, if_pos hx]
  · intro hx
    rw [hbw, if_neg (by simpa using hx)]

/-- Witness for C3: a concrete committed cycle for path `a` under the
standard `gen`/`work` layout, with a constant (hence trim-invariant,
non-empty) hash function. -/
theorem before_write_detects_external_modification_witness :
    ((SafeFileWriter.new (str2b "gen") (str2b "work") true).safe = true) ∧
    (check_path (str2b "a") = .ok ()) ∧
    (fsRead [(pjoin (str2b "work") (str2b "a"), str2b "A")]
      (pjoin (SafeFileWriter.new (str2b "gen") (str2b "work") true).priv_dir (str2b "a"))
        = some (str2b "A")) ∧
    distinctLayout (SafeFileWriter.new (str2b "gen") (str2b "work") true) (str2b "a") ∧
    (∃ fs2 o,
      after_write (fun _ => [104]) (SafeFileWriter.new (str2b "gen") (str2b "work") true)
        [(pjoin (str2b "work") (str2b "a"), str2b "A")] (str2b "a") = (fs2, .ok ()) ∧
      fsRead fs2 (pjoin (SafeFileWriter.new (str2b "gen") (str2b "work") true).old_dir
        (str2b "a")) = some o ∧
      ((fun _ : Bytes => ([104] : Bytes)) (str2b "B") ≠ (fun _ : Bytes => ([104] : Bytes)) o →
        before_write (fun _ => [104]) (SafeFileWriter.new (str2b "gen") (str2b "work") true)
          (fsWrite fs2 (pjoin (SafeFileWriter.new (str2b "gen") (str2b "work") true).gen_dir
            (str2b "a")) (str2b "B")) (str2b "a") =
          (fsWrite fs2 (pjoin (SafeFileWriter.new (str2b "gen") (str2b "work") true).gen_dir
            (str2b "a")) (str2b "B"),
           .error (.modifiedExternally
             (pjoin (SafeFileWriter.new (str2b "gen") (str2b "work") true).gen_dir (str2b "a")
               ++ str2b " was modified externally")))) ∧
      ((fun _ : Bytes => ([104] : Bytes)) (str2b "B") = (fun _ : Bytes => ([104] : Bytes)) o →
        before_write (fun _ => [104]) (SafeFileWriter.new (str2b "gen") (str2b "work") true)
          (fsWrite fs2 (pjoin (SafeFileWriter.new (str2b "gen") (str2b "work") true).gen_dir
            (str2b "a")) (str2b "B")) (str2b "a") =
          (fsWrite fs2 (pjoin (SafeFileWriter.new (str2b "gen") (str2b "work") true).gen_dir
            (str2b "a")) (str2b "B"),
           .ok (pjoin (SafeFileWriter.new (str2b "gen") (str2b "work") true).priv_dir
             (str2b "a"))))) :=
  ⟨rfl, rfl, by decide, by unfold distinctLayout; decide,
   before_write_detects_external_modification (fun _ => [104])
     (SafeFileWriter.new (str2b "gen") (str2b "work") true)
     [(pjoin (str2b "work") (str2b "a"), str2b "A")]
     (str2b "a") (str2b "A") (str2b "B")
     rfl rfl (by decide) (by unfold distinctLayout; decide)
     (fun _ => show trimB [104] = [104] by decide)
     (fun _ => show ([104] : Bytes) ≠ [] by decide)⟩

/-! ## Unix path components

Model of `std::path::Path::components()` on Unix, used by the noweb
`path_is_safe` check and by `PathBuf` equality (which compares component
sequences): empty components and non-leading `.` components are dropped,
a leading `/` is a root component. -/

/-- A path component. -/
inductive PComp
  | root
  | curDir
  | parentDir
  | normal (s : Bytes)
  deriving Repr, DecidableEq

/-- Split a byte string on `/`. -/
def splitSlash : Bytes → List Bytes
  | [] => [[]]
  | b :: r =>
    if b = 47 then [] :: splitSlash r
    else
      match splitSlash r with
      | [] => [[b]]
      | h :: t => (b :: h) :: t

/-- Classify one non-empty path part. -/
def classifyPart (s : Bytes) : PComp :=
  if s = str2b ".." then .parentDir
  else if s = str2b "." then .curDir
  else .normal s

/-- `Path::components()` on Unix. -/
def pathComponents (p : Bytes) : List PComp :=
  let parts := (splitSlash p).filter (fun s => !(s == []))
  let comps := parts.map classifyPart
  let rootPart : List PComp := if p.head? = some 47 then [.root] else []
  match comps with
  | .curDir :: rest =>
    if p.head? = some 47 then rootPart ++ rest.filter (fun c => !(c == .curDir))
    else .curDir :: rest.filter (fun c => !(c == .curDir))
  | l => rootPart ++ l.filter (fun c => !(c == .curDir))

/-- `PathBuf`/`Path` equality and hashing compare component sequences. -/
def pathEq (a b : Bytes) : Bool :=
  pathComponents a == pathComponents b

/-! ## Chunk store (`src/crates/azadi-noweb/src/noweb.rs`)

The three regexes built in `ChunkStore::new` are modelled as hand-written
matchers for the default configuration (`<<`, `>>`, `@`, comment markers
`#` and `//`); the regex class `\s` is modelled as ASCII whitespace.
Greedy capture groups followed by mandatory delimiters are implemented by
backtracking from the longest candidate, matching the regex engine. -/

/-- Drop a literal prefix, or fail. -/
def dropPrefixB (pre s : Bytes) : Option Bytes :=
  if pre.isPrefixOf s then some (s.drop pre.length) else none

/-- Space or tab (regex `[ \t]`). -/
def isBlankB (b : Nat) : Bool := b = 32 || b = 9

/-- The optional leading comment marker `(?:#|//)?` with the `#`
alternative tried first; an unmatched marker leaves the input unchanged. -/
def stripCommentMarker (s : Bytes) : Bytes :=
  if (str2b "#").isPrefixOf s then s.drop 1
  else if (str2b "//").isPrefixOf s then s.drop 2
  else s

/-- Optional flag followed by at least one space/tab
(`(?:FLAG[ \t]+)?`); if the run of blanks after the flag is empty the
group does not participate. -/
def dropFlag (flag s : Bytes) : Bytes :=
  match dropPrefixB flag s with
  | some rest =>
    let sp := rest.takeWhile isBlankB
    if sp.length > 0 then rest.drop sp.length else s
  | none => s

/-- Optional flag followed by at least one whitespace char
(`(?:FLAG\s+)?`). -/
def dropFlagWs (flag s : Bytes) : Bytes :=
  match dropPrefixB flag s with
  | some rest =>
    let sp := rest.takeWhile isSpaceB
    if sp.length > 0 then rest.drop sp.length else s
  | none => s

/-- Backtracking greedy capture: the longest non-empty prefix of
`p`-bytes of `s` such that `delim` follows it and the remainder after
`delim` satisfies `restOk`.  Returns the capture and that remainder. -/
def greedyGo (s delim : Bytes) (restOk : Bytes → Bool) : Nat → Option (Bytes × Bytes)
  | 0 => none
  | k + 1 =>
    if delim.isPrefixOf (s.drop (k + 1)) && restOk (s.drop (k + 1 + delim.length)) then
      some (s.take (k + 1), s.drop (k + 1 + delim.length))
    else greedyGo s delim restOk k

/-- Greedy `(CLASS+)DELIM` matching with backtracking. -/
def greedySplit (p : Nat → Bool) (delim : Bytes) (restOk : Bytes → Bool) (s : Bytes) :
    Option (Bytes × Bytes) :=
  greedyGo s delim restOk (s.takeWhile p).length

/-- The opening-line regex
`^(\s*)(?:#|//)?[ \t]*<<(?:@replace[ \t]+)?(?:@file[ \t]+)?([^\s]+)>>=`
(no end anchor); returns the captured indentation and chunk name. -/
def open_re_captures (line : Bytes) : Option (Bytes × Bytes) :=
  let ws := line.takeWhile isSpaceB
  let r1 := line.drop ws.length
  let r2 := stripCommentMarker r1
  let r3 := r2.drop (r2.takeWhile isBlankB).length
  match dropPrefixB (str2b "<<") r3 with
  | none => none
  | some r4 =>
    let r5 := dropFlag (str2b "@replace") r4
    let r6 := dropFlag (str2b "@file") r5
    match greedySplit (fun b => !isSpaceB b) (str2b ">>=") (fun _ => true) r6 with
    | none => none
    | some (name, _) => some (ws, name)

/-- The reference-line regex
`^(\s*)(?:#|//)?\s*<<(?:@file\s+|@reversed\s+)?([^\s>]+)>>\s*$`;
returns the captured indentation and referenced chunk name. -/
def slot_re_captures (line : Bytes) : Option (Bytes × Bytes) :=
  let ws := line.takeWhile isSpaceB
  let r1 := line.drop ws.length
  let r2 := stripCommentMarker r1
  let r3 := r2.drop (r2.takeWhile isSpaceB).length
  match dropPrefixB (str2b "<<") r3 with
  | none => none
  | some r4 =>
    let r5 :=
      match dropPrefixB (str2b "@file") r4 with
      | some rest =>
        let sp := rest.takeWhile isSpaceB
        if sp.length > 0 then rest.drop sp.length else dropFlagWs (str2b "@reversed") r4
      | none => dropFlagWs (str2b "@reversed") r4
    match greedySplit (fun b => !isSpaceB b && !(b == 62)) (str2b ">>")
        (fun rest => rest.dropWhile isSpaceB == []) r5 with
    | none => none
    | some (name, _) => some (ws, name)

/-- The closing-line regex `^(?:#|//)?[ \t]*@\s*$`. -/
def close_re_match (line : Bytes) : Bool :=
  let r1 := stripCommentMarker line
  let r2 := r1.drop (r1.takeWhile isBlankB).length
  match dropPrefixB (str2b "@") r2 with
  | some r3 => r3.dropWhile isSpaceB == []
  | none => false

/-- `path_is_safe` from noweb.rs: not absolute, no `:` in the string
form, no parent-directory component. -/
def path_is_safe (path : Bytes) : Except AzadiError Unit :=
  if path.head? = some 47 then
    .error (.securityViolation "Absolute paths are not allowed")
  else if path.contains 58 then
    .error (.securityViolation "Windows-style paths are not allowed")
  else if (pathComponents path).any (fun c => c == .parentDir) then
    .error (.securityViolation "Path traversal is not allowed")
  else
    .ok ()

/-- Location of a definition or reference, for error reporting. -/
structure ChunkLocation where
  file_idx : Nat
  line : Nat
  deriving Repr, DecidableEq

/-- One definition of a named chunk. -/
structure ChunkDef where
  content : List Bytes
  base_indent : Nat
  file_idx : Nat
  line : Nat
  deriving Repr, DecidableEq

/-- A named chunk: its definitions in insertion order.  The `references`
counter of the source, used only for unused-chunk warnings, is not
modelled. -/
structure NamedChunk where
  definitions : List ChunkDef
  deriving Repr, DecidableEq

/-- The chunk store.  `chunks` models the `HashMap` as an association
list in insertion order; the compiled regexes are the fixed default
matchers above. -/
structure ChunkStore where
  chunks : List (Bytes × NamedChunk)
  file_chunks : List Bytes
  file_names : List Bytes
  deriving Repr, DecidableEq

/-- `ChunkStore::new` with the default delimiters. -/
def ChunkStore.new : ChunkStore := ⟨[], [], []⟩

/-- `HashMap::get`. -/
def storeGet (cs : List (Bytes × NamedChunk)) (k : Bytes) : Option NamedChunk :=
  (cs.find? (fun e => e.1 == k)).map (·.2)

/-- `HashMap::insert` (replace in place, or append for a new key). -/
def storeSet (cs : List (Bytes × NamedChunk)) (k : Bytes) (v : NamedChunk) :
    List (Bytes × NamedChunk) :=
  if cs.any (fun e => e.1 == k) then
    cs.map (fun e => if e.1 == k then (k, v) else e)
  else cs ++ [(k, v)]

/-- `HashMap::remove`. -/
def storeRemove (cs : List (Bytes × NamedChunk)) (k : Bytes) : List (Bytes × NamedChunk) :=
  cs.filter (fun e => !(e.1 == k))

/-- `ChunkStore::add_file_name`. -/
def ChunkStore.add_file_name (st : ChunkStore) (fname : Bytes) : ChunkStore :=
  { st with file_names := st.file_names ++ [fname] }

/-- `ChunkStore::validate_chunk_name`. -/
def validate_chunk_name (chunk_name line : Bytes) : Bool :=
  if isInfixB (str2b "@file") line then
    match path_is_safe chunk_name with
    | .ok _ => true
    | .error _ => false
  else
    !(chunk_name == []) && !(chunk_name.any isSpaceB)

/-- Rust `str::lines`: split on `\n`, drop a final empty piece, strip a
trailing `\r` from each line. -/
def rustLines (s : Bytes) : List Bytes :=
  let parts := splitNl s
  let parts := if parts.getLast? = some [] then parts.dropLast else parts
  parts.map (fun l => if l.getLast? = some 13 then l.dropLast else l)
where
  splitNl : Bytes → List Bytes
    | [] => [[]]
    | b :: r =>
      if b = 10 then [] :: splitNl r
      else
        match splitNl r with
        | [] => [[b]]
        | h :: t => (b :: h) :: t

/-- Record a new definition of `full_name` (the `entry(...).or_insert`
plus `definitions.push` of the source); returns the updated map and the
new `current_chunk`. -/
def defineChunk (file_idx : Nat) (chunks : List (Bytes × NamedChunk))
    (full_name indentation : Bytes) (line_no : Nat) :
    List (Bytes × NamedChunk) × Option (Bytes × Nat) :=
  let nc := (storeGet chunks full_name).getD ⟨[]⟩
  let def_idx := nc.definitions.length
  let nc' : NamedChunk :=
    ⟨nc.definitions ++ [⟨[], indentation.length, file_idx, line_no⟩]⟩
  (storeSet chunks full_name nc', some (full_name, def_idx))

/-- The body of `ChunkStore::read`'s line loop.  `current` is the open
chunk (name and definition index).  On a second `@file` definition
without `@replace` the source formats a `FileChunkRedefinition` error
message into an unused variable and discards it, removes the chunk, and
continues; `read` has no error channel.  Modelled faithfully: the chunk
is removed and nothing is reported. -/
def readLines (file_idx : Nat) :
    List Bytes → Nat → List (Bytes × NamedChunk) → Option (Bytes × Nat) →
    List (Bytes × NamedChunk)
  | [], _, chunks, _ => chunks
  | line :: rest, line_no, chunks, current =>
    match open_re_captures line with
    | some (indentation, base_name) =>
      let is_replace := isInfixB (str2b "@replace") line
      let is_file := isInfixB (str2b "@file") line
      let full_name := if is_file then str2b "@file " ++ base_name else base_name
      if validate_chunk_name full_name line then
        if (str2b "@file ").isPrefixOf full_name then
          if (storeGet chunks full_name).isSome && !is_replace then
            -- redefinition: error message built and dropped, chunk removed
            readLines file_idx rest (line_no + 1) (storeRemove chunks full_name) current
          else
            let chunks := if is_replace then storeRemove chunks full_name else chunks
            let (chunks', current') := defineChunk file_idx chunks full_name indentation line_no
            readLines file_idx rest (line_no + 1) chunks' current'
        else
          let chunks := if is_replace then storeRemove chunks full_name else chunks
          let (chunks', current') := defineChunk file_idx chunks full_name indentation line_no
          readLines file_idx rest (line_no + 1) chunks' current'
      else
        readLines file_idx rest (line_no + 1) chunks current
    | none =>
      if close_re_match line then
        readLines file_idx rest (line_no + 1) chunks none
      else
        match current with
        | some (cname, idx) =>
          match storeGet chunks cname with
          | some nc =>
            let pushed := if line.getLast? = some 10 then line else line ++ [10]
            let defs := nc.definitions.mapIdx
              (fun i d => if i = idx then { d with content := d.content ++ [pushed] } else d)
            readLines file_idx rest (line_no + 1) (storeSet chunks cname ⟨defs⟩) current
          | none => readLines file_idx rest (line_no + 1) chunks current
        | none => readLines file_idx rest (line_no + 1) chunks current

/-- `ChunkStore::read`. -/
def ChunkStore.read (st : ChunkStore) (text : Bytes) (file_idx : Nat) : ChunkStore :=
  let chunks := readLines file_idx (rustLines text) 0 st.chunks none
  { st with
    chunks := chunks
    file_chunks := (chunks.map (·.1)).filter (fun n => (str2b "@file ").isPrefixOf n) }

/-- `ChunkStore::has_chunk`. -/
def ChunkStore.has_chunk (st : ChunkStore) (name : Bytes) : Bool :=
  (storeGet st.chunks name).isSome

/-- `file_names.get(i).cloned().unwrap_or_default()`. -/
def fileNameAt (st : ChunkStore) (i : Nat) : Bytes :=
  (st.file_names.get? i).getD []

/-- The source's `if target_indent.is_empty() { s } else { format!("{}{}", target_indent, s) }`. -/
def joinIndent (t s : Bytes) : Bytes :=
  if t = [] then s else t ++ s

theorem joinIndent_eq (t s : Bytes) : joinIndent t s = t ++ s := by
  unfold joinIndent
  by_cases h : t = []
  · rw [if_pos h, h]
    rfl
  · rw [if_neg h]

/-- The recursion limit of `expand_with_depth`. -/
def MAX_DEPTH : Nat := 100

/-- The per-line loop of `expand_with_depth` over one definition's
content.  `recur` is the recursive expansion at depth+1; `i` counts the
lines already processed (so the referenced location is `dline + i`). -/
def expandContent (recur : Bytes → Bytes → ChunkLocation → Bool → Except AzadiError (List Bytes))
    (base_indent dline dfidx : Nat) (target_indent : Bytes) :
    List Bytes → Nat → Except AzadiError (List Bytes)
  | [], _ => .ok []
  | line :: rest, i =>
    match slot_re_captures line with
    | some (add_indent, referenced_chunk) =>
      let line_is_reversed := isInfixB (str2b "@reversed") line
      let relative_indent :=
        if add_indent.length > base_indent then add_indent.drop base_indent else []
      let new_indent := joinIndent target_indent relative_indent
      let new_loc : ChunkLocation := ⟨dfidx, dline + i⟩
      match recur (trimB referenced_chunk) new_indent new_loc line_is_reversed with
      | .error e => .error e
      | .ok expanded =>
        match expandContent recur base_indent dline dfidx target_indent rest (i + 1) with
        | .error e => .error e
        | .ok tail => .ok (expanded ++ tail)
    | none =>
      let line_indent := if line.length > base_indent then line.drop base_indent else line
      match expandContent recur base_indent dline dfidx target_indent rest (i + 1) with
      | .error e => .error e
      | .ok tail => .ok (joinIndent target_indent line_indent :: tail)

/-- The loop over a chunk's definitions. -/
def expandDefs (recur : Bytes → Bytes → ChunkLocation → Bool → Except AzadiError (List Bytes))
    (target_indent : Bytes) : List ChunkDef → Except AzadiError (List Bytes)
  | [] => .ok []
  | d :: rest =>
    match expandContent recur d.base_indent d.line d.file_idx target_indent d.content 0 with
    | .error e => .error e
    | .ok out =>
      match expandDefs recur target_indent rest with
      | .error e => .error e
      | .ok tail => .ok (out ++ tail)

/-- `ChunkStore::expand_with_depth`.  Recursion is by fuel, which the
top-level `expand` supplies as `MAX_DEPTH + 2`; since `depth` rises in
lockstep and is checked first, the fuel-exhaustion branch is unreachable
from `expand`.  The `seen` push/pop around the definition loop is
modelled by passing the extended list to the recursive calls.  The
`inc_references` call is modelled only by its undefined-chunk error
(the counter feeds unused-chunk warnings alone). -/
def expand_with_depth (st : ChunkStore) :
    Nat → Bytes → Bytes → Nat → List (Bytes × ChunkLocation) → ChunkLocation → Bool →
    Except AzadiError (List Bytes)
  | fuel, chunk_name, target_indent, depth, seen, reference_location, reversed_mode =>
    if depth > MAX_DEPTH then
      .error (.recursionLimit chunk_name (fileNameAt st reference_location.file_idx)
        reference_location.line)
    else if seen.any (fun e => e.1 == chunk_name) then
      .error (.recursiveReference chunk_name (fileNameAt st reference_location.file_idx)
        reference_location.line)
    else
      match storeGet st.chunks chunk_name with
      | none =>
        .error (.undefinedChunk chunk_name (fileNameAt st reference_location.file_idx)
          reference_location.line)
      | some nc =>
        match fuel with
        | 0 => .error (.ioError "model fuel exhausted")
        | fuel + 1 =>
          let defs := if reversed_mode then nc.definitions.reverse else nc.definitions
          let seen' := seen ++ [(chunk_name, reference_location)]
          expandDefs
            (fun nm ind loc rev => expand_with_depth st fuel nm ind (depth + 1) seen' loc rev)
            target_indent defs

/-- `ChunkStore::expand`. -/
def ChunkStore.expand (st : ChunkStore) (chunk_name indent : Bytes) :
    Except AzadiError (List Bytes) :=
  expand_with_depth st (MAX_DEPTH + 2) chunk_name indent 0 [] ⟨0, 0⟩ false

/-! ### Claim C1 -/

/-- C1: redefining an `@file` chunk without `@replace`.  The claim says
the store reports a `FileChunkRedefinition` error and leaves the store
without the new definition.  In the source, `ChunkStore::read` has no
error channel at all: it formats the error message into the unused
`_err_msg` binding, silently *removes* the existing chunk, and
continues.  Evaluating the model of `read` at the failing input: after
reading one definition the chunk exists; after reading the input with
the redefinition the chunk is gone entirely and no `@file` chunk is
registered. -/
theorem file_chunk_redefinition_is_silently_dropped :
    (ChunkStore.read (ChunkStore.add_file_name ChunkStore.new (str2b "in.w"))
        (str2b "<<@file a.txt>>=\nx\n@\n") 0).has_chunk (str2b "@file a.txt") = true ∧
    (ChunkStore.read (ChunkStore.add_file_name ChunkStore.new (str2b "in.w"))
        (str2b "<<@file a.txt>>=\nx\n@\n<<@file a.txt>>=\ny\n@\n") 0).has_chunk
        (str2b "@file a.txt") = false ∧
    (ChunkStore.read (ChunkStore.add_file_name ChunkStore.new (str2b "in.w"))
        (str2b "<<@file a.txt>>=\nx\n@\n<<@file a.txt>>=\ny\n@\n") 0).file_chunks = [] := by
  decide

/-! ### Claim C4 -/

/-- Decidable equality for `Except` results. -/
def exceptDecEq {ε α : Type} [DecidableEq ε] [DecidableEq α] : DecidableEq (Except ε α)
  | .error e, .error f =>
    if h : e = f then .isTrue (by rw [h]) else .isFalse (fun hh => h (by cases hh; rfl))
  | .error _, .ok _ => .isFalse (fun hh => Except.noConfusion hh)
  | .ok _, .error _ => .isFalse (fun hh => Except.noConfusion hh)
  | .ok a, .ok b =>
    if h : a = b then .isTrue (by rw [h]) else .isFalse (fun hh => h (by cases hh; rfl))

instance {ε α : Type} [DecidableEq ε] [DecidableEq α] : DecidableEq (Except ε α) :=
  exceptDecEq

/-- Counterexample to C4 as stated: with `I1 = " "` and `I2 = "\t"` and a
one-chunk store, `expand(a, I1 ++ I2)` is `[" \tx\n"]` but `expand(a, I1)`
with `I2` prepended to every line is `["\t x\n"]`. -/
theorem expand_indent_claim_counterexample :
    ChunkStore.expand
        (ChunkStore.read (ChunkStore.add_file_name ChunkStore.new (str2b "in.w"))
          (str2b "<<a>>=\nx\n@\n") 0)
        (str2b "a") (str2b " " ++ str2b "\t")
      ≠ Except.map (List.map (fun l => str2b "\t" ++ l))
        (ChunkStore.expand
          (ChunkStore.read (ChunkStore.add_file_name ChunkStore.new (str2b "in.w"))
            (str2b "<<a>>=\nx\n@\n") 0)
          (str2b "a") (str2b " ")) := by
  decide

theorem expandContent_indent
    (recurA recurB : Bytes → Bytes → ChunkLocation → Bool → Except AzadiError (List Bytes))
    (a b : Bytes) (base dline dfidx : Nat)
    (hrec : ∀ nm ind loc rev, recurA nm (a ++ ind) loc rev
      = Except.map (List.map (fun l => a ++ l)) (recurB nm ind loc rev)) :
    ∀ lines i, expandContent recurA base dline dfidx (a ++ b) lines i
      = Except.map (List.map (fun l => a ++ l))
          (expandContent recurB base dline dfidx b lines i) := by
  intro lines
  induction lines with
  | nil => intro i; rfl
  | cons line rest ih =>
    intro i
    unfold expandContent
    cases hslot : slot_re_captures line with
    | none =>
      simp only
      rw [ih (i + 1)]
      cases hb : expandContent recurB base dline dfidx b rest (i + 1) with
      | error e => simp [Except.map]
      | ok tail => simp [Except.map, joinIndent_eq, List.append_assoc]
    | some cap =>
      obtain ⟨add_indent, referenced⟩ := cap
      simp only
      have hji : joinIndent (a ++ b)
          (if add_indent.length > base then add_indent.drop base else [])
          = a ++ joinIndent b (if add_indent.length > base then add_indent.drop base else []) := by
        rw [joinIndent_eq, joinIndent_eq, List.append_assoc]
      rw [hji, hrec]
      cases hr : recurB (trimB referenced)
          (joinIndent b (if add_indent.length > base then add_indent.drop base else []))
          ⟨dfidx, dline + i⟩ (isInfixB (str2b "@reversed") line) with
      | error e => simp [Except.map]
      | ok xs =>
        simp only [Except.map]
        rw [ih (i + 1)]
        cases hb : expandContent recurB base dline dfidx b rest (i + 1) with
        | error e => simp [Except.map]
        | ok tail => simp [Except.map, List.map_append]

theorem expandDefs_indent
    (recurA recurB : Bytes → Bytes → ChunkLocation → Bool → Except AzadiError (List Bytes))
    (a b : Bytes)
    (hrec : ∀ nm ind loc rev, recurA nm (a ++ ind) loc rev
      = Except.map (List.map (fun l => a ++ l)) (recurB nm ind loc rev)) :
    ∀ defs, expandDefs recurA (a ++ b) defs
      = Except.map (List.map (fun l => a ++ l)) (expandDefs recurB b defs) := by
  intro defs
  induction defs with
  | nil => rfl
  | cons d rest ih =>
    unfold expandDefs
    rw [expandContent_indent recurA recurB a b d.base_indent d.line d.file_idx hrec]
    cases hc : expandContent recurB d.base_indent d.line d.file_idx b d.content 0 with
    | error e => simp [Except.map]
    | ok out =>
      simp only [Except.map]
      rw [ih]
      cases hb : expandDefs recurB b rest with
      | error e => simp [Except.map]
      | ok tail => simp [Except.map, List.map_append]

theorem expand_with_depth_indent (st : ChunkStore) :
    ∀ fuel name a b depth seen loc rev,
      expand_with_depth st fuel name (a ++ b) depth seen loc rev
        = Except.map (List.map (fun l => a ++ l))
          (expand_with_depth st fuel name b depth seen loc rev) := by
  intro fuel
  induction fuel with
  | zero =>
    intro name a b depth seen loc rev
    unfold expand_with_depth
    by_cases h1 : depth > MAX_DEPTH
    · simp [h1, Except.map]
    · by_cases h2 : seen.any (fun e => e.1 == name) = true
      · simp [h1, h2, Except.map]
      · cases hg : storeGet st.chunks name with
        | none => simp [h1, h2, hg, Except.map]
        | some nc => simp [h1, h2, hg, Except.map]
  | succ f ih =>
    intro name a b depth seen loc rev
    unfold expand_with_depth
    by_cases h1 : depth > MAX_DEPTH
    · simp [h1, Except.map]
    · by_cases h2 : seen.any (fun e => e.1 == name) = true
      · simp [h1, h2, Except.map]
      · cases hg : storeGet st.chunks name with
        | none => simp [h1, h2, hg, Except.map]
        | some nc =>
          simp only [h1, h2, hg, if_false, Bool.false_eq_true]
          exact expandDefs_indent _ _ a b
            (fun nm ind l rev => ih nm a ind (depth + 1)
              (seen ++ [(name, loc)]) l rev) _

/-- C4 amended: for every chunk store, chunk name and indentation
strings `I1`, `I2`, `expand(name, I1 ++ I2)` equals `expand(name, I2)`
with `I1` prepended to every line (the claim had the roles of the two
indentation strings swapped). -/
theorem expand_indent_amended (st : ChunkStore) (name I1 I2 : Bytes) :
    ChunkStore.expand st name (I1 ++ I2)
      = Except.map (List.map (fun l => I1 ++ l)) (ChunkStore.expand st name I2) :=
  expand_with_depth_indent st (MAX_DEPTH + 2) name I1 I2 0 [] ⟨0, 0⟩ false

/-! ## Lexer (`src/crates/azadi-macros/src/lexer/mod.rs`)

The input is UTF-8 bytes; positions and lengths are byte counts, and
characters are decoded scalar values (`decodeChar`).  The lexer's three
state loops (`run_block_state`, `run_macro_state`, `run_comment_state`)
and the driving `run` loop are merged into the single fueled step
function `lexGo`: a loop iteration that `continue`s is a recursive call
with the same stack, `return false` pops, `return true` pushes.  Pending
block text is the `textStart` argument, reset exactly where the source
resets `text_start`.  The line/column fields of `LexerError`, which feed
only diagnostic messages, are not modelled; errors keep their message. -/

/-- `TokenKind` (types.rs).  `macroStart` is the source's `Macro` kind. -/
inductive TokenKind
  | text | space | special | blockOpen | blockClose | macroStart | var
  | ident | comma | closeParen | equal | lineComment | commentOpen
  | commentClose | eof
  deriving Repr, DecidableEq

/-- `Token` (types.rs). -/
structure Token where
  kind : TokenKind
  src : Int
  pos : Nat
  length : Nat
  deriving Repr, DecidableEq

/-- Decode the first UTF-8 scalar of a byte string: value and width.
Inputs are valid UTF-8 (Rust `&str`); ill-formed suffixes decode
best-effort. -/
def decodeChar : Bytes → Option (Nat × Nat)
  | [] => none
  | b :: rest =>
    if b < 0x80 then some (b, 1)
    else if b < 0xC0 then some (b, 1)
    else if b < 0xE0 then
      match rest with
      | b1 :: _ => some ((b - 0xC0) * 64 + (b1 - 0x80), 2)
      | [] => some (b, 1)
    else if b < 0xF0 then
      match rest with
      | b1 :: b2 :: _ => some ((b - 0xE0) * 4096 + (b1 - 0x80) * 64 + (b2 - 0x80), 3)
      | _ => some (b, 1)
    else
      match rest with
      | b1 :: b2 :: b3 :: _ =>
        some ((b - 0xF0) * 262144 + (b1 - 0x80) * 4096 + (b2 - 0x80) * 64 + (b3 - 0x80), 4)
      | _ => some (b, 1)

/-- UTF-8 encoding of a scalar value. -/
def utf8Encode (c : Nat) : Bytes :=
  if c < 0x80 then [c]
  else if c < 0x800 then [0xC0 + c / 64, 0x80 + c % 64]
  else if c < 0x10000 then [0xE0 + c / 4096, 0x80 + (c / 64) % 64, 0x80 + c % 64]
  else [0xF0 + c / 262144, 0x80 + (c / 4096) % 64, 0x80 + (c / 64) % 64, 0x80 + c % 64]

/-- `is_identifier_start`: ASCII letter or underscore. -/
def is_identifier_start (c : Nat) : Bool :=
  (97 ≤ c && c ≤ 122) || (65 ≤ c && c ≤ 90) || c = 95

/-- `is_identifier_continue`: ASCII letter, digit or underscore. -/
def is_identifier_continue (c : Nat) : Bool :=
  is_identifier_start c || (48 ≤ c && c ≤ 57)

/-- The lexer's `is_whitespace`: space, tab, carriage return, newline. -/
def is_whitespace_l (c : Nat) : Bool :=
  c = 32 || c = 9 || c = 13 || c = 10

/-- `get_identifier_end` relative form: byte length of the identifier at
the head (identifier bytes are ASCII, one byte per char). -/
def identLen : Bytes → Nat
  | [] => 0
  | b :: rest =>
    if is_identifier_start b then 1 + (rest.takeWhile is_identifier_continue).length
    else 0

/-- `read_until('\n')`: bytes consumed, including the newline when found. -/
def readUntilNl : Bytes → Nat
  | [] => 0
  | b :: rest => if b = 10 then 1 else 1 + readUntilNl rest

/-- Mutable lexer fields (`Lexer` minus the state stack, which `lexGo`
threads separately). -/
structure LexSt where
  input : Bytes
  pos : Nat
  src : Int
  specialChar : Nat
  tokens : List Token
  errors : List String
  deriving Repr, DecidableEq

/-- `emit_token`: zero-length tokens other than EOF are dropped. -/
def emit_token (st : LexSt) (pos length : Nat) (kind : TokenKind) : LexSt :=
  if length = 0 && !(kind == .eof) then st
  else { st with tokens := st.tokens ++ [⟨kind, st.src, pos, length⟩] }

/-- `error_here` (message only; see the section comment). -/
def error_here (st : LexSt) (message : String) : LexSt :=
  { st with errors := st.errors ++ [message] }

/-- The lexer state-machine states. -/
inductive LState
  | block | macroS | comment
  deriving Repr, DecidableEq

/-- `handle_var`: a `S(` sequence; `start` is the byte position of `S`.
The caller has consumed `S` and peeked `(`; this consumes from `(`. -/
def handle_var (st : LexSt) (start : Nat) : LexSt :=
  let st := { st with pos := st.pos + 1 }
  let il := identLen (st.input.drop st.pos)
  if il > 0 then
    let st := { st with pos := st.pos + il }
    match decodeChar (st.input.drop st.pos) with
    | some (c, _) =>
      if c = 41 then
        let st := { st with pos := st.pos + 1 }
        emit_token st start (st.pos - start) .var
      else
        let st := error_here st "Var missing closing paren"
        emit_token st start (st.pos - start) .text
    | none =>
      let st := error_here st "Var missing closing paren"
      emit_token st start (st.pos - start) .text
  else
    let st := error_here st "Var missing identifier after special char paren"
    emit_token st start (st.pos - start) .text

/-- The text-run scan of the macro state: bytes consumed until a
whitespace char, `)`, `,`, `=` or the special char (fueled char loop). -/
def macroTextLenF (special : Nat) : Nat → Bytes → Nat
  | 0, _ => 0
  | fuel + 1, bs =>
    match decodeChar bs with
    | none => 0
    | some (c, w) =>
      if is_whitespace_l c || c = 41 || c = 44 || c = 61 || c = special then 0
      else w + macroTextLenF special fuel (bs.drop w)

def macroTextLen (special : Nat) (bs : Bytes) : Nat :=
  macroTextLenF special bs.length bs

/-- The comment-state scan: advance char by char until the nested-open
delimiter (`S/*`, checked first), the close delimiter (`S*/`) or EOF.
Returns bytes consumed before the delimiter and which case stopped it
(`some true` = open, `some false` = close, `none` = EOF). -/
def commentScanF (openD closeD : Bytes) : Nat → Bytes → Nat × Option Bool
  | 0, _ => (0, none)
  | fuel + 1, bs =>
    if bs = [] then (0, none)
    else if openD.isPrefixOf bs then (0, some true)
    else if closeD.isPrefixOf bs then (0, some false)
    else
      let w := match decodeChar bs with
        | some (_, w) => w
        | none => 1
      let (n, r) := commentScanF openD closeD fuel (bs.drop w)
      (w + n, r)

/-- One fused step function for `run` + the three `run_*_state` loops.
`textStart` is the pending-text start of the innermost block state. -/
def lexGo : Nat → LexSt → List LState → Nat → LexSt
  | 0, st, _, _ => error_here st "model fuel exhausted"
  | fuel + 1, st, stack, textStart =>
    match stack with
    | [] => emit_token st st.pos 0 .eof
    | .block :: rest =>
      match decodeChar (st.input.drop st.pos) with
      | none =>
        -- EOF: flush leftover text, return false
        let st := if st.pos > textStart then
            emit_token st textStart (st.pos - textStart) .text
          else st
        lexGo fuel st rest st.pos
      | some (ch, w) =>
        if ch = st.specialChar then
          let st := if st.pos > textStart then
              emit_token st textStart (st.pos - textStart) .text
            else st
          let pct_start := st.pos
          let st := { st with pos := st.pos + w }
          match decodeChar (st.input.drop st.pos) with
          | none =>
            -- nothing after the special char: emit it as (one byte of) text
            let st := emit_token st pct_start 1 .text
            lexGo fuel st rest st.pos
          | some (nch, nw) =>
            if nch = 40 then
              let st := handle_var st pct_start
              lexGo fuel st (.block :: rest) st.pos
            else if nch = 123 then
              let st := { st with pos := st.pos + nw }
              let st := emit_token st pct_start (st.pos - pct_start) .blockOpen
              lexGo fuel st (.block :: .block :: rest) st.pos
            else if nch = 125 then
              let st := if (LState.block :: rest).length ≤ 1 then
                  error_here st "Unmatched block close: no open block"
                else st
              let st := { st with pos := st.pos + nw }
              let st := emit_token st pct_start (st.pos - pct_start) .blockClose
              lexGo fuel st rest st.pos
            else if nch = 47 then
              let st := { st with pos := st.pos + nw }
              match decodeChar (st.input.drop st.pos) with
              | some (c2, w2) =>
                if c2 = 47 then
                  let st := { st with pos := st.pos + w2 }
                  let st := { st with pos := st.pos + readUntilNl (st.input.drop st.pos) }
                  let st := emit_token st pct_start (st.pos - pct_start) .lineComment
                  lexGo fuel st (.block :: rest) st.pos
                else if c2 = 42 then
                  let st := { st with pos := st.pos + w2 }
                  let st := emit_token st pct_start (st.pos - pct_start) .commentOpen
                  lexGo fuel st (.comment :: .block :: rest) st.pos
                else
                  let st := error_here st "Unexpected char after special slash in block"
                  let st := emit_token st pct_start (st.pos - pct_start) .text
                  lexGo fuel st (.block :: rest) st.pos
              | none =>
                -- EOF right after `S/`: the source's `if let` has no else
                -- branch, so nothing is emitted and no error is recorded
                lexGo fuel st (.block :: rest) st.pos
            else if nch = 45 then
              let st := { st with pos := st.pos + nw }
              match decodeChar (st.input.drop st.pos) with
              | some (d, dw) =>
                if d = 45 then
                  let st := { st with pos := st.pos + dw }
                  let st := { st with pos := st.pos + readUntilNl (st.input.drop st.pos) }
                  let st := emit_token st pct_start (st.pos - pct_start) .lineComment
                  lexGo fuel st (.block :: rest) st.pos
                else
                  let st := error_here st "Unexpected char after special dash in block"
                  let st := emit_token st pct_start (st.pos - pct_start) .text
                  lexGo fuel st (.block :: rest) st.pos
              | none =>
                -- EOF right after `S-`: as above, bytes silently dropped
                lexGo fuel st (.block :: rest) st.pos
            else if nch = 35 then
              let st := { st with pos := st.pos + nw }
              let st := { st with pos := st.pos + readUntilNl (st.input.drop st.pos) }
              let st := emit_token st pct_start (st.pos - pct_start) .lineComment
              lexGo fuel st (.block :: rest) st.pos
            else if nch = st.specialChar then
              let st := { st with pos := st.pos + nw }
              let st := emit_token st pct_start (st.pos - pct_start) .special
              lexGo fuel st (.block :: rest) st.pos
            else if is_identifier_start nch then
              let st := { st with pos := st.pos + identLen (st.input.drop st.pos) }
              match decodeChar (st.input.drop st.pos) with
              | some (ma, mw) =>
                if ma = 123 then
                  let st := { st with pos := st.pos + mw }
                  let st := emit_token st pct_start (st.pos - pct_start) .blockOpen
                  lexGo fuel st (.block :: .block :: rest) st.pos
                else if ma = 125 then
                  let st := if (LState.block :: rest).length ≤ 1 then
                      error_here st "Unmatched block close: no open block"
                    else st
                  let st := { st with pos := st.pos + mw }
                  let st := emit_token st pct_start (st.pos - pct_start) .blockClose
                  lexGo fuel st rest st.pos
                else if ma = 40 then
                  let st := { st with pos := st.pos + mw }
                  let st := emit_token st pct_start (st.pos - pct_start) .macroStart
                  lexGo fuel st (.macroS :: .block :: rest) st.pos
                else
                  let st := error_here st "Unrecognized char after special in block"
                  let st := emit_token st pct_start (st.pos - pct_start) .text
                  lexGo fuel st rest st.pos
              | none =>
                let st := error_here st "Unrecognized char after special in block"
                let st := emit_token st pct_start (st.pos - pct_start) .text
                lexGo fuel st rest st.pos
            else
              let st := error_here st "Unrecognized char after special in block"
              let st := emit_token st pct_start 1 .text
              lexGo fuel st (.block :: rest) st.pos
        else
          lexGo fuel { st with pos := st.pos + w } (.block :: rest) textStart
    | .macroS :: rest =>
      match decodeChar (st.input.drop st.pos) with
      | none => lexGo fuel st rest st.pos
      | some (ch, w) =>
        if ch = 41 then
          let start := st.pos
          let st := { st with pos := st.pos + 1 }
          let st := emit_token st start 1 .closeParen
          lexGo fuel st rest st.pos
        else if ch = 44 then
          let start := st.pos
          let st := { st with pos := st.pos + 1 }
          let st := emit_token st start 1 .comma
          lexGo fuel st (.macroS :: rest) st.pos
        else if ch = 61 then
          let start := st.pos
          let st := { st with pos := st.pos + 1 }
          let st := emit_token st start 1 .equal
          lexGo fuel st (.macroS :: rest) st.pos
        else if is_whitespace_l ch then
          let ws_start := st.pos
          let ws := ((st.input.drop st.pos).takeWhile is_whitespace_l).length
          let st := { st with pos := st.pos + ws }
          let st := emit_token st ws_start (st.pos - ws_start) .space
          lexGo fuel st (.macroS :: rest) st.pos
        else if ch = st.specialChar then
          let pct_start := st.pos
          let st := { st with pos := st.pos + w }
          match decodeChar (st.input.drop st.pos) with
          | none =>
            let st := error_here st "EOF after special in macro, incomplete token"
            let st := emit_token st pct_start 1 .text
            lexGo fuel st rest st.pos
          | some (nch, nw) =>
            if nch = 40 then
              let st := handle_var st pct_start
              lexGo fuel st (.macroS :: rest) st.pos
            else if nch = 123 then
              let st := { st with pos := st.pos + nw }
              let st := emit_token st pct_start (st.pos - pct_start) .blockOpen
              lexGo fuel st (.block :: .macroS :: rest) st.pos
            else if nch = 125 then
              let st := if (LState.macroS :: rest).length ≤ 1 then
                  error_here st "Unmatched block close: no open block"
                else st
              let st := { st with pos := st.pos + nw }
              let st := emit_token st pct_start (st.pos - pct_start) .blockClose
              lexGo fuel st rest st.pos
            else if nch = 47 then
              let st := { st with pos := st.pos + nw }
              match decodeChar (st.input.drop st.pos) with
              | some (c2, w2) =>
                if c2 = 47 then
                  let st := { st with pos := st.pos + w2 }
                  let st := { st with pos := st.pos + readUntilNl (st.input.drop st.pos) }
                  let st := emit_token st pct_start (st.pos - pct_start) .lineComment
                  lexGo fuel st (.macroS :: rest) st.pos
                else if c2 = 42 then
                  let st := { st with pos := st.pos + w2 }
                  let st := emit_token st pct_start (st.pos - pct_start) .commentOpen
                  lexGo fuel st (.comment :: .macroS :: rest) st.pos
                else
                  let st := error_here st "Unexpected char after special slash in macro"
                  let st := emit_token st pct_start (st.pos - pct_start) .text
                  lexGo fuel st (.macroS :: rest) st.pos
              | none =>
                lexGo fuel st (.macroS :: rest) st.pos
            else if nch = 45 then
              let st := { st with pos := st.pos + nw }
              match decodeChar (st.input.drop st.pos) with
              | some (d, dw) =>
                if d = 45 then
                  let st := { st with pos := st.pos + dw }
                  let st := { st with pos := st.pos + readUntilNl (st.input.drop st.pos) }
                  let st := emit_token st pct_start (st.pos - pct_start) .lineComment
                  lexGo fuel st (.macroS :: rest) st.pos
                else
                  let st := error_here st "Unexpected char after special dash in macro"
                  let st := emit_token st pct_start (st.pos - pct_start) .text
                  lexGo fuel st (.macroS :: rest) st.pos
              | none =>
                lexGo fuel st (.macroS :: rest) st.pos
            else if nch = 35 then
              let st := { st with pos := st.pos + nw }
              let st := { st with pos := st.pos + readUntilNl (st.input.drop st.pos) }
              let st := emit_token st pct_start (st.pos - pct_start) .lineComment
              lexGo fuel st (.macroS :: rest) st.pos
            else if nch = st.specialChar then
              let st := { st with pos := st.pos + nw }
              let st := emit_token st pct_start (st.pos - pct_start) .special
              lexGo fuel st (.macroS :: rest) st.pos
            else if is_identifier_start nch then
              let st := { st with pos := st.pos + identLen (st.input.drop st.pos) }
              match decodeChar (st.input.drop st.pos) with
              | some (ma, mw) =>
                if ma = 123 then
                  let st := { st with pos := st.pos + mw }
                  let st := emit_token st pct_start (st.pos - pct_start) .blockOpen
                  lexGo fuel st (.block :: .macroS :: rest) st.pos
                else if ma = 125 then
                  let st := if (LState.macroS :: rest).length ≤ 1 then
                      error_here st "Unmatched block close: no open block"
                    else st
                  let st := { st with pos := st.pos + mw }
                  let st := emit_token st pct_start (st.pos - pct_start) .blockClose
                  lexGo fuel st rest st.pos
                else if ma = 40 then
                  let st := { st with pos := st.pos + mw }
                  let st := emit_token st pct_start (st.pos - pct_start) .macroStart
                  lexGo fuel st (.macroS :: .macroS :: rest) st.pos
                else
                  let st := error_here st "Unrecognized char after special in macro"
                  let st := emit_token st pct_start (st.pos - pct_start) .text
                  lexGo fuel st rest st.pos
              | none =>
                let st := error_here st "Unrecognized char after special in macro"
                let st := emit_token st pct_start (st.pos - pct_start) .text
                lexGo fuel st rest st.pos
            else
              let st := error_here st "Unrecognized char after special in macro"
              let st := emit_token st pct_start 1 .text
              lexGo fuel st (.macroS :: rest) st.pos
        else if is_identifier_start ch then
          let start_id := st.pos
          let il := identLen (st.input.drop st.pos)
          let st := { st with pos := st.pos + il }
          let st := emit_token st start_id il .ident
          lexGo fuel st (.macroS :: rest) st.pos
        else
          let start_o := st.pos
          let n := macroTextLen st.specialChar (st.input.drop st.pos)
          let st := { st with pos := st.pos + n }
          let st := emit_token st start_o n .text
          lexGo fuel st (.macroS :: rest) st.pos
    | .comment :: rest =>
      let openD := utf8Encode st.specialChar ++ str2b "/*"
      let closeD := utf8Encode st.specialChar ++ str2b "*/"
      let comment_text_start := st.pos
      let (n, found) := commentScanF openD closeD st.input.length (st.input.drop st.pos)
      let st := { st with pos := st.pos + n }
      match found with
      | some true =>
        let st := if st.pos > comment_text_start then
            emit_token st comment_text_start (st.pos - comment_text_start) .text
          else st
        let delim_start := st.pos
        let st := { st with pos := st.pos + openD.length }
        let st := emit_token st delim_start (st.pos - delim_start) .commentOpen
        lexGo fuel st (.comment :: .comment :: rest) st.pos
      | some false =>
        let st := if st.pos > comment_text_start then
            emit_token st comment_text_start (st.pos - comment_text_start) .text
          else st
        let delim_start := st.pos
        let st := { st with pos := st.pos + closeD.length }
        let st := emit_token st delim_start (st.pos - delim_start) .commentClose
        lexGo fuel st rest st.pos
      | none =>
        let st := if st.pos > comment_text_start then
            emit_token st comment_text_start (st.pos - comment_text_start) .text
          else st
        let st := error_here st "Unclosed comment"
        lexGo fuel st rest st.pos

/-- `Lexer::new` + `Lexer::run`: lex a whole input.  The fuel bound
covers one step per consumed byte plus stack unwinding at EOF. -/
def lexRun (input : Bytes) (specialChar : Nat) (src : Int) : LexSt :=
  lexGo (2 * input.length + 8)
    { input := input, pos := 0, src := src, specialChar := specialChar,
      tokens := [], errors := [] }
    [.block] 0

/-! ### Claim C2 -/

/-- The concatenation of the byte ranges of a token list. -/
def tokensConcat (input : Bytes) (tokens : List Token) : Bytes :=
  tokens.foldr (fun t acc => (input.drop t.pos).take t.length ++ acc) []

/-- C2: the lexer round-trip fails on the two-byte input `%/` (default
special char, EOF right after `S/`): the run emits only the EOF token,
records no error, and the concatenation of all byte ranges is empty
rather than the input. -/
theorem lexer_roundtrip_fails_on_slash_at_eof :
    (lexRun (str2b "%/") 37 0).errors = [] ∧
    (lexRun (str2b "%/") 37 0).tokens = [⟨.eof, 0, 2, 0⟩] ∧
    tokensConcat (str2b "%/") (lexRun (str2b "%/") 37 0).tokens = [] ∧
    str2b "%/" ≠ [] := by
  decide

/-! ## Parser (`src/crates/azadi-macros/src/parser/mod.rs`)

A flat node arena (`List ParseNode`, child links by index) and an
explicit `(state, node-index)` stack, head = top.  `parse` never fails
on lexer output; the token-file reading path is not part of the
pipeline and is not modelled. -/

/-- `NodeKind` (types.rs).  `macroCall` is the source's `Macro` kind. -/
inductive NodeKind
  | notUsed | text | space | ident | lineComment | blockComment | var
  | equal | punct | composite | param | macroCall | block
  deriving Repr, DecidableEq

/-- `ParseNode` (types.rs). -/
structure ParseNode where
  kind : NodeKind
  src : Int
  token : Token
  end_pos : Nat
  parts : List Nat
  deriving Repr, DecidableEq

/-- The parser states. -/
inductive PState
  | block | macroP | comment
  deriving Repr, DecidableEq

/-- `create_node`: append to the arena, return its index. -/
def createNode (nodes : List ParseNode) (kind : NodeKind) (src : Int) (token : Token) :
    List ParseNode × Nat :=
  (nodes ++ [⟨kind, src, token, 0, []⟩], nodes.length)

/-- `add_child`. -/
def addChild (nodes : List ParseNode) (parent child : Nat) : List ParseNode :=
  nodes.mapIdx (fun i n => if i = parent then { n with parts := n.parts ++ [child] } else n)

/-- `create_add_node`: create and attach to the stack top (if any). -/
def createAddNode (nodes : List ParseNode) (stack : List (PState × Nat))
    (kind : NodeKind) (src : Int) (token : Token) : List ParseNode × Nat :=
  let (nodes, idx) := createNode nodes kind src token
  match stack with
  | (_, parent) :: _ => (addChild nodes parent idx, idx)
  | [] => (nodes, idx)

/-- `close_node`: set `end_pos` of the stack-top node. -/
def closeNode (nodes : List ParseNode) (stack : List (PState × Nat)) (token : Token) :
    List ParseNode :=
  match stack with
  | (_, idx) :: _ =>
    nodes.mapIdx (fun i n => if i = idx then { n with end_pos := token.pos + token.length } else n)
  | [] => nodes

/-- The shared fall-through of `parse` for tokens not handled by the
current state (`// Otherwise, handle "new" tokens`). -/
def parseNewToken (nodes : List ParseNode) (stack : List (PState × Nat)) (t : Token) :
    List ParseNode × List (PState × Nat) :=
  match t.kind with
  | .blockOpen =>
    let (nodes, idx) := createAddNode nodes stack .block t.src t
    (nodes, (.block, idx) :: stack)
  | .macroStart =>
    let (nodes, midx) := createAddNode nodes stack .macroCall t.src t
    let stack := (PState.macroP, midx) :: stack
    let param_token : Token := ⟨.text, t.src, t.pos, 0⟩
    let (nodes, pidx) := createAddNode nodes stack .param t.src param_token
    (nodes, (PState.macroP, pidx) :: stack)
  | .commentOpen =>
    let (nodes, idx) := createAddNode nodes stack .blockComment t.src t
    (nodes, (.comment, idx) :: stack)
  | .var => ((createAddNode nodes stack .var t.src t).1, stack)
  | .lineComment => ((createAddNode nodes stack .lineComment t.src t).1, stack)
  | _ => ((createAddNode nodes stack .text t.src t).1, stack)

/-- The token loop of `parse`; stops early if the stack empties. -/
def parseGo : List Token → List ParseNode → List (PState × Nat) →
    List ParseNode × List (PState × Nat)
  | [], nodes, stack => (nodes, stack)
  | t :: rest, nodes, stack =>
    match stack with
    | [] => (nodes, [])
    | (state, _) :: stackTail =>
      match state with
      | .block =>
        if t.kind == .blockClose then
          parseGo rest (closeNode nodes stack t) stackTail
        else
          let (nodes, stack) := parseNewToken nodes stack t
          parseGo rest nodes stack
      | .macroP =>
        match t.kind with
        | .comma =>
          let nodes := closeNode nodes stack t
          let (nodes, idx) := createAddNode nodes stackTail .param t.src t
          parseGo rest nodes ((PState.macroP, idx) :: stackTail)
        | .closeParen =>
          let nodes := closeNode nodes stack t
          let nodes := closeNode nodes stackTail t
          parseGo rest nodes stackTail.tail
        | .ident => parseGo rest (createAddNode nodes stack .ident t.src t).1 stack
        | .space => parseGo rest (createAddNode nodes stack .space t.src t).1 stack
        | .equal => parseGo rest (createAddNode nodes stack .equal t.src t).1 stack
        | _ =>
          let (nodes, stack) := parseNewToken nodes stack t
          parseGo rest nodes stack
      | .comment =>
        match t.kind with
        | .commentClose =>
          parseGo rest (closeNode nodes stack t) stackTail
        | .commentOpen =>
          let (nodes, idx) := createAddNode nodes stack .blockComment t.src t
          parseGo rest nodes ((PState.comment, idx) :: stack)
        | _ => parseGo rest nodes stack

/-- `Parser::parse`: build the arena from a token stream.  The final
fix-up pops the remaining stack top and closes the node left on top
after the pop, exactly as the source does. -/
def parserParse (tokens : List Token) : List ParseNode :=
  match tokens with
  | [] => []
  | t0 :: _ =>
    let dummy : Token := ⟨.text, t0.src, 0, 0⟩
    let root : ParseNode := ⟨.block, t0.src, dummy, 0, []⟩
    let (nodes, stack) := parseGo tokens [root] [(.block, 0)]
    match stack with
    | [] => nodes
    | _ :: stackTail =>
      match tokens.getLast? with
      | some last => closeNode nodes stackTail last
      | none => nodes

/-! ## AST cleaner (`src/crates/azadi-macros/src/ast/mod.rs`)

The evaluator pipeline (`lex_parse_content`) calls `build_ast` directly;
the `strip_space_before_comments` pass is only reachable through
`process_ast`, which the pipeline does not use, so it is not modelled. -/

/-- `ASTNode` (types.rs): owning children, optional `name` token. -/
structure ASTNode where
  kind : NodeKind
  src : Int
  token : Token
  end_pos : Nat
  parts : List ASTNode
  name : Option Token

/-- The scan state of `analyze_param`'s first pass (`NOT_FOUND = -1`
sentinels become `none`). -/
structure ParamScan where
  param_name : Option Token
  first_not_skippable : Option Nat
  name_index : Option Nat
  first_good_after_equal : Option Nat
  seen_equal : Bool
  deriving Repr, DecidableEq

/-- The first pass of `analyze_param`: one pass over the children with
early `break`. -/
def analyzeLoop (nodes : List ParseNode) : List Nat → Nat → ParamScan →
    Except String ParamScan
  | [], _, s => .ok s
  | pidx :: rest, i, s =>
    match nodes.get? pidx with
    | none => .error "Node not found"
    | some part =>
      if part.kind == .space || part.kind == .lineComment || part.kind == .blockComment then
        analyzeLoop nodes rest (i + 1) s
      else
        let s := if s.first_not_skippable.isNone then { s with first_not_skippable := some i }
          else s
        if s.param_name.isNone && !s.seen_equal && part.kind == .ident then
          analyzeLoop nodes rest (i + 1)
            { s with param_name := some part.token, name_index := some i }
        else if s.param_name.isSome && !s.seen_equal && part.kind == .equal then
          analyzeLoop nodes rest (i + 1) { s with seen_equal := true }
        else if s.seen_equal then
          .ok { s with first_good_after_equal := some i }
        else
          .ok s

mutual

/-- `clean_node`: skip comments, delegate `Param`, recurse otherwise. -/
def clean_node_f (nodes : List ParseNode) : Nat → Nat → Except String (Option ASTNode)
  | 0, _ => .error "model fuel exhausted"
  | fuel + 1, idx =>
    match nodes.get? idx with
    | none => .error "Node not found"
    | some node =>
      if node.kind == .lineComment || node.kind == .blockComment then .ok none
      else if node.kind == .param then analyze_param_f nodes fuel idx
      else
        match cleanParts nodes fuel node.parts with
        | .error e => .error e
        | .ok children =>
          .ok (some ⟨node.kind, node.src, node.token, node.end_pos, children, none⟩)

/-- `analyze_param`. -/
def analyze_param_f (nodes : List ParseNode) : Nat → Nat → Except String (Option ASTNode)
  | 0, _ => .error "model fuel exhausted"
  | fuel + 1, idx =>
    match nodes.get? idx with
    | none => .error "Node not found"
    | some node =>
      match analyzeLoop nodes node.parts 0 ⟨none, none, none, none, false⟩ with
      | .error e => .error e
      | .ok s =>
        match s.seen_equal, s.first_good_after_equal with
        | true, some g =>
          match cleanParts nodes fuel (node.parts.drop g) with
          | .error e => .error e
          | .ok value_parts =>
            .ok (some ⟨.param, node.src, node.token, node.end_pos, value_parts, s.param_name⟩)
        | true, none =>
          -- name = <blank>
          .ok (some ⟨.param, node.src, node.token, node.end_pos, [], s.param_name⟩)
        | false, _ =>
          match s.first_not_skippable with
          | none =>
            -- completely empty
            .ok (some ⟨.param, node.src, node.token, node.end_pos, [], none⟩)
          | some fns =>
            let start_idx := match s.name_index with
              | some ni => if s.param_name.isSome then ni else fns
              | none => fns
            match cleanParts nodes fuel (node.parts.drop start_idx) with
            | .error e => .error e
            | .ok value_parts =>
              .ok (some ⟨.param, node.src, node.token, node.end_pos, value_parts, none⟩)

/-- The `for &part_idx in &node.parts[start..]` collection loop. -/
def cleanParts (nodes : List ParseNode) : Nat → List Nat → Except String (List ASTNode)
  | 0, _ => .error "model fuel exhausted"
  | _ + 1, [] => .ok []
  | fuel + 1, i :: rest =>
    match clean_node_f nodes fuel i with
    | .error e => .error e
    | .ok cleaned =>
      match cleanParts nodes fuel rest with
      | .error e => .error e
      | .ok tail =>
        match cleaned with
        | some c => .ok (c :: tail)
        | none => .ok tail

end

/-- `build_ast` (ast/mod.rs): clean from the root (index 0). -/
def build_ast (nodes : List ParseNode) : Except String ASTNode :=
  if nodes.isEmpty then .error "Empty parse tree"
  else
    match clean_node_f nodes (2 * nodes.length + 4) 0 with
    | .error e => .error e
    | .ok none => .error "Root node was skipped"
    | .ok (some ast) => .ok ast

/-- The parse-and-clean tail of `lex_parse_content` (split out so that
staged pipeline proofs can rewrite the token stream). -/
def buildStage (tokens : List Token) : Except String ASTNode :=
  match build_ast (parserParse tokens) with
  | .error e => .error ("AST build error: " ++ e)
  | .ok ast => .ok ast

/-- `lex_parse_content` (evaluator/lexer_parser.rs): lex, fail on any
lexer error, parse, build the clean AST. -/
def lex_parse_content (source : Bytes) (special : Nat) (src : Int) :
    Except String ASTNode :=
  let lst := lexRun source special src
  if !lst.errors.isEmpty then
    .error ("Lexer errors: " ++ String.intercalate "; " lst.errors)
  else buildStage lst.tokens

/-! ## Evaluator state (`src/crates/azadi-macros/src/evaluator/state.rs`)

`HashMap`s become association lists with insert-replace; the scope stack
keeps the Rust `Vec` order (index 0 = global frame, last = innermost).
The ambient filesystem the evaluator reads (includes, `here`) is an
explicit `fs : FS` component of the model `Evaluator`.  File paths are
`Bytes`; `fs::canonicalize` is modelled as textual normalization
(`normalizePath`, no symlinks), and `PathBuf` equality/hashing as
component equality (`pathEq`). -/

/-- Generic association-list lookup (`HashMap::get`). -/
def alookup {α : Type} (l : List (Bytes × α)) (k : Bytes) : Option α :=
  (l.find? (fun e => e.1 == k)).map (·.2)

/-- Generic association-list insert (`HashMap::insert`). -/
def ainsert {α : Type} (l : List (Bytes × α)) (k : Bytes) (v : α) : List (Bytes × α) :=
  if l.any (fun e => e.1 == k) then l.map (fun e => if e.1 == k then (k, v) else e)
  else l ++ [(k, v)]

/-- Resolve `.` and `..` components textually (`fs::canonicalize`
without symlinks or absolutization). -/
def normalizePath (p : Bytes) : Bytes :=
  let comps := pathComponents p
  let folded := comps.foldl
    (fun (acc : Bool × List Bytes) c =>
      match c with
      | .root => (true, acc.2)
      | .curDir => acc
      | .parentDir => (acc.1, acc.2.dropLast)
      | .normal s => (acc.1, acc.2 ++ [s]))
    (false, [])
  (if folded.1 then [47] else []) ++
    (folded.2.foldl (fun (acc : Option Bytes) s =>
      match acc with
      | none => some s
      | some a => some (a ++ [47] ++ s)) none).getD []

/-- File existence with `..`/`.` resolution (real filesystems resolve
them during lookup). -/
def fileExists (fs : FS) (p : Bytes) : Bool :=
  (fsRead fs (normalizePath p)).isSome

/-- Read a file, resolving `..`/`.`. -/
def readFile (fs : FS) (p : Bytes) : Option Bytes :=
  fsRead fs (normalizePath p)

/-- `PythonConfig`: only `enabled` matters to the core (the remaining
fields configure the external subprocess evaluator). -/
structure PythonConfig where
  enabled : Bool
  deriving Repr, DecidableEq

/-- `EvalConfig`. -/
structure EvalConfig where
  special_char : Nat
  pydef : Bool
  include_paths : List Bytes
  backup_dir : Bytes
  python : PythonConfig
  deriving Repr, DecidableEq

/-- `EvalConfig::default()`: `%`, python disabled, include path `.`,
backup dir `_azadi_work`. -/
def EvalConfig.default : EvalConfig :=
  { special_char := 37
    pydef := false
    include_paths := [str2b "."]
    backup_dir := str2b "_azadi_work"
    python := { enabled := false } }

/-- `MacroDefinition`. -/
structure MacroDefinition where
  name : Bytes
  params : List Bytes
  body : ASTNode
  is_python : Bool
  frozen_args : List (Bytes × Bytes)

/-- `ScopeFrame` (`variables` is a reserved word in Lean, so the field
is named `vars`). -/
structure ScopeFrame where
  vars : List (Bytes × Bytes)
  macros : List (Bytes × MacroDefinition)

/-- The empty frame (`ScopeFrame::default`). -/
def ScopeFrame.empty : ScopeFrame := ⟨[], []⟩

/-- `SourceManager`. -/
structure SourceManager where
  source_files : List Bytes
  file_names : List Bytes
  sources_by_path : List (Bytes × Nat)

/-- `EvaluatorState`. -/
structure EvaluatorState where
  config : EvalConfig
  scope_stack : List ScopeFrame
  open_includes : List Bytes
  current_file : Bytes
  source_manager : SourceManager

/-- `EvaluatorState::new`. -/
def EvaluatorState.new (config : EvalConfig) : EvaluatorState :=
  { config := config
    scope_stack := [ScopeFrame.empty]
    open_includes := []
    current_file := []
    source_manager := ⟨[], [], []⟩ }

/-- `push_scope`. -/
def EvaluatorState.push_scope (st : EvaluatorState) : EvaluatorState :=
  { st with scope_stack := st.scope_stack ++ [ScopeFrame.empty] }

/-- `pop_scope`: pops only while more than one frame remains. -/
def EvaluatorState.pop_scope (st : EvaluatorState) : EvaluatorState :=
  if st.scope_stack.length > 1 then { st with scope_stack := st.scope_stack.dropLast }
  else st

/-- Update the innermost frame (`current_scope_mut`); the stack is
invariantly non-empty, so the empty case never fires. -/
def EvaluatorState.updTop (st : EvaluatorState) (f : ScopeFrame → ScopeFrame) :
    EvaluatorState :=
  match st.scope_stack.getLast? with
  | some top => { st with scope_stack := st.scope_stack.dropLast ++ [f top] }
  | none => st

/-- `set_variable`. -/
def EvaluatorState.set_variable (st : EvaluatorState) (name value : Bytes) :
    EvaluatorState :=
  st.updTop (fun fr => { fr with vars := ainsert fr.vars name value })

/-- `get_variable`: innermost frame first, empty string if unbound. -/
def EvaluatorState.get_variable (st : EvaluatorState) (name : Bytes) : Bytes :=
  (st.scope_stack.reverse.findSome? (fun fr => alookup fr.vars name)).getD []

/-- `define_macro`. -/
def EvaluatorState.define_macro (st : EvaluatorState) (mac : MacroDefinition) :
    EvaluatorState :=
  st.updTop (fun fr => { fr with macros := ainsert fr.macros mac.name mac })

/-- `get_macro`: innermost frame first. -/
def EvaluatorState.get_macro (st : EvaluatorState) (name : Bytes) :
    Option MacroDefinition :=
  st.scope_stack.reverse.findSome? (fun fr => alookup fr.macros name)

/-- `get_special_char`: `vec![special_char as u8]` (truncating cast). -/
def EvaluatorState.get_special_char (st : EvaluatorState) : Bytes :=
  [st.config.special_char % 256]

/-- `SourceManager::add_source_bytes`. -/
def SourceManager.add_source_bytes (sm : SourceManager) (content path : Bytes) :
    SourceManager × Nat :=
  ({ source_files := sm.source_files ++ [content]
     file_names := sm.file_names ++ [path]
     sources_by_path := ainsert sm.sources_by_path path sm.source_files.length },
   sm.source_files.length)

/-- Path-keyed lookup (`HashMap<PathBuf, usize>` hashes components). -/
def alookupPath (l : List (Bytes × Nat)) (k : Bytes) : Option Nat :=
  (l.find? (fun e => pathEq e.1 k)).map (·.2)

/-- `SourceManager::add_source_if_not_present`: canonicalize, dedup by
path, else read from the filesystem. -/
def SourceManager.add_source_if_not_present (sm : SourceManager) (fs : FS)
    (file_path : Bytes) : Except String (SourceManager × Nat) :=
  if !(fileExists fs file_path) then .error "canonicalize failed"
  else
    let canon := normalizePath file_path
    match alookupPath sm.sources_by_path canon with
    | some src => .ok (sm, src)
    | none =>
      match fsRead fs canon with
      | none => .error "read failed"
      | some content => .ok (sm.add_source_bytes content canon)

/-- `EvalError` (evaluator/errors.rs); input-derived payloads are bytes.
`fuelErr` is a model artifact marking fuel exhaustion, reachable only
below the fuel supplied by the wrappers. -/
inductive EvalErr
  | undefinedMacro (name : Bytes)
  | builtinError (msg : Bytes)
  | includeNotFound (f : Bytes)
  | circularInclude (p : Bytes)
  | invalidUsage (msg : Bytes)
  | runtime (msg : Bytes)
  | parseError (msg : String)
  | terminate
  | python (msg : Bytes)
  | ioError (msg : Bytes)
  | fuelErr
  deriving Repr, DecidableEq

/-- The model `Evaluator`: state, ambient filesystem, and the external
Python backend as an abstract function (`None` unless enabled). -/
structure Evaluator where
  state : EvaluatorState
  fs : FS
  python_evaluator : Option (Bytes → List (Bytes × Bytes) → Except EvalErr Bytes)

/-- `Evaluator::new` over a given filesystem; the subprocess Python
evaluator is external, so the model keeps `none` (claims run with
python disabled). -/
def Evaluator.new (config : EvalConfig) (fs : FS) : Evaluator :=
  { state := EvaluatorState.new config, fs := fs, python_evaluator := none }

/-- `Evaluator::node_text`: slice the source bytes of a token, trimming
delimiters by token kind. -/
def node_text (ev : Evaluator) (node : ASTNode) : Bytes :=
  if node.token.src < 0 then []
  else
    match ev.state.source_manager.source_files.get? node.token.src.toNat with
    | none => []
    | some source =>
      let start := node.token.pos
      let e := node.token.pos + node.token.length
      if e > source.length || start > source.length then []
      else
        let slice := fun (a b : Nat) => (source.drop a).take (b - a)
        match node.token.kind with
        | .blockOpen => if e > start + 2 then slice (start + 1) (e - 1) else slice start e
        | .blockClose => if e > start + 2 then slice (start + 1) (e - 1) else slice start e
        | .macroStart => if e > start + 2 then slice (start + 1) (e - 1) else slice start e
        | .var => if e > start + 3 then slice (start + 2) (e - 1) else slice start e
        | .special => if e > start + 1 then slice start (e - 1) else slice start e
        | _ => slice start e

/-! ## Case conversion (`evaluator/case_conversion.rs`), ASCII model -/

/-- `Case`. -/
inductive Case
  | lower | upper | snake | screaming | kebab | screamingKebab | camel | pascal | ada
  deriving Repr, DecidableEq

/-- ASCII lowercase of one byte. -/
def toLowerByte (b : Nat) : Nat := if 65 ≤ b && b ≤ 90 then b + 32 else b

/-- ASCII uppercase of one byte. -/
def toUpperByte (b : Nat) : Nat := if 97 ≤ b && b ≤ 122 then b - 32 else b

def toLowerB (s : Bytes) : Bytes := s.map toLowerByte

def toUpperB (s : Bytes) : Bytes := s.map toUpperByte

def isUpperByte (b : Nat) : Bool := 65 ≤ b && b ≤ 90

def isLowerByte (b : Nat) : Bool := 97 ≤ b && b ≤ 122

def isAlphaByte (b : Nat) : Bool := isUpperByte b || isLowerByte b

def isDigitByte (b : Nat) : Bool := 48 ≤ b && b ≤ 57

/-- `Case::from_str` (match on the lowercased style name). -/
def caseFromStr (s : Bytes) : Except Bytes Case :=
  let t := toLowerB s
  if t = str2b "lower" || t = str2b "lowercase" then .ok .lower
  else if t = str2b "upper" || t = str2b "uppercase" then .ok .upper
  else if t = str2b "snake" || t = str2b "snake_case" then .ok .snake
  else if t = str2b "screaming" || t = str2b "screaming_snake"
      || t = str2b "screaming_snake_case" then .ok .screaming
  else if t = str2b "kebab" || t = str2b "kebab-case" then .ok .kebab
  else if t = str2b "screaming-kebab" || t = str2b "screaming-kebab-case" then
    .ok .screamingKebab
  else if t = str2b "camel" || t = str2b "camelcase" then .ok .camel
  else if t = str2b "pascal" || t = str2b "pascalcase" then .ok .pascal
  else if t = str2b "ada" || t = str2b "ada_case" then .ok .ada
  else .error (str2b "Unknown case style: " ++ s)

/-- `WordSplitter::is_boundary_char`. -/
def is_boundary_char (c : Nat) : Bool := c = 95 || c = 45 || isSpaceB c

/-- `WordSplitter::is_word_boundary`. -/
def is_word_boundary (prev : Option Nat) (curr : Nat) (next : Option Nat) : Bool :=
  if is_boundary_char curr then true
  else
    match prev, next with
    | some p, some n =>
      if isUpperByte p && isUpperByte curr && isLowerByte n then true
      else if isLowerByte p && isUpperByte curr then true
      else if isAlphaByte p && isDigitByte curr then true
      else if isDigitByte p && isAlphaByte curr then true
      else false
    | some p, none =>
      if isLowerByte p && isUpperByte curr then true
      else if isAlphaByte p && isDigitByte curr then true
      else if isDigitByte p && isAlphaByte curr then true
      else false
    | _, _ => false

/-- Length of the current word: scan until a boundary strictly inside. -/
def wordScan (prev : Nat) : Bytes → Nat → Nat
  | [], acc => acc
  | c :: rest, acc =>
    if is_word_boundary (some prev) c rest.head? then acc
    else wordScan c rest (acc + 1)

/-- One `WordSplitter::next` step after delimiter skipping. -/
def nextWord (bs : Bytes) : Option (Bytes × Bytes) :=
  match bs with
  | [] => none
  | c :: rest =>
    let n := wordScan c rest 1
    some (bs.take n, bs.drop n)

/-- The word iterator collected to a list (fueled; each step consumes at
least one byte). -/
def wordsOfF : Nat → Bytes → List Bytes
  | 0, _ => []
  | fuel + 1, bs =>
    let bs := bs.dropWhile is_boundary_char
    match nextWord bs with
    | none => []
    | some (w, rest) => w :: wordsOfF fuel rest

def wordsOf (bs : Bytes) : List Bytes := wordsOfF (bs.length + 1) bs

/-- The conversion-internal `capitalize`: first char upper, rest lower. -/
def capitalizeWord (w : Bytes) : Bytes :=
  match w with
  | [] => []
  | c :: rest => toUpperByte c :: toLowerB rest

/-- Join with a separator byte. -/
def joinSep (sep : Bytes) (ws : List Bytes) : Bytes :=
  match ws with
  | [] => []
  | w :: rest => rest.foldl (fun acc x => acc ++ sep ++ x) w

/-- `convert_case_inner`. -/
def convert_case_inner (input : Bytes) (target_case : Case) : Bytes :=
  let words := wordsOf input
  if words.isEmpty then []
  else
    match target_case with
    | .lower => toLowerB (joinSep [] words)
    | .upper => toUpperB (joinSep [] words)
    | .snake => joinSep [95] (words.map toLowerB)
    | .screaming => joinSep [95] (words.map toUpperB)
    | .kebab => joinSep [45] (words.map toLowerB)
    | .screamingKebab => joinSep [45] (words.map toUpperB)
    | .camel =>
      match words with
      | [] => []
      | w :: rest => toLowerB w ++ joinSep [] (rest.map capitalizeWord)
    | .pascal => joinSep [] (words.map capitalizeWord)
    | .ada => joinSep [95] (words.map capitalizeWord)

/-- `convert_case_str`. -/
def convert_case_str (input target_case : Bytes) : Except Bytes Bytes :=
  match caseFromStr target_case with
  | .error e => .error e
  | .ok c => .ok (convert_case_inner input c)

/-! ## `modify_source` (`evaluator/source_utils.rs`) over the model FS -/

/-- `backup_source_file`: canonicalize, strip a leading `/`, copy under
the backup dir.  The source keeps the same name (no timestamp). -/
def backup_source_file (fs : FS) (source_file backup_dir : Bytes) : Except Bytes FS :=
  match readFile fs source_file with
  | none => .error (str2b "canonicalize failed")
  | some content =>
    let abs := normalizePath source_file
    let rel := if abs.head? = some 47 then abs.drop 1 else abs
    .ok (fsWrite fs (pjoin backup_dir rel) content)

/-- Stable insertion sort by position (`Vec::sort_by_key` is stable). -/
def sortByPos : List (Nat × Bytes × Bool) → List (Nat × Bytes × Bool)
  | [] => []
  | x :: rest => insertSorted x (sortByPos rest)
where
  insertSorted (x : Nat × Bytes × Bool) : List (Nat × Bytes × Bool) →
      List (Nat × Bytes × Bool)
    | [] => [x]
    | y :: t => if x.1 ≤ y.1 then x :: y :: t else y :: insertSorted x t

/-- The insertion loop of `modify_source`. -/
def applyInsertions (content : Bytes) : List (Nat × Bytes × Bool) → Nat → Bytes
  | [], last_pos =>
    if last_pos < content.length then content.drop last_pos else []
  | (pos, text, skip_to_newline) :: rest, last_pos =>
    let chunk := if pos < content.length then (content.drop last_pos).take (pos - last_pos)
      else content.drop last_pos
    let next_last :=
      if skip_to_newline then
        let idx := pos + readUntilNl (content.drop pos)
        idx
      else min pos content.length
    chunk ++ text ++ applyInsertions content rest next_last

/-- `modify_source`. -/
def modify_source (fs : FS) (source_file : Bytes) (insertions : List (Nat × Bytes × Bool))
    (backup_dir : Option Bytes) : Except Bytes FS :=
  let backed : Except Bytes FS :=
    match backup_dir with
    | some dir => backup_source_file fs source_file dir
    | none => .ok fs
  match backed with
  | .error e => .error e
  | .ok fs =>
    match readFile fs source_file with
    | none => .error (str2b "read failed")
    | some content =>
      let result := applyInsertions content (sortByPos insertions) 0
      .ok (fsWrite fs (normalizePath source_file) result)

/-! ## Evaluator core and builtins
(`evaluator/core.rs`, `evaluator/builtins.rs`)

One fueled mutual recursion; every cross-call decrements the fuel, and
the wrappers supply ample fuel for the concrete inputs of the claims.
State (`&mut self`) is threaded in and out of every function, also on
the error path. -/

/-- Results of evaluation: the threaded evaluator plus value or error. -/
abbrev EvalRes := Evaluator × Except EvalErr Bytes

/-- `single_ident_param` (builtins.rs): a `Param` holding exactly one
identifier. -/
def single_ident_param (ev : Evaluator) (param_node : ASTNode) (desc : String) :
    Except EvalErr Bytes :=
  if !(param_node.kind == .param) then
    .error (.invalidUsage (str2b desc ++ str2b " must be a Param node"))
  else if param_node.name.isSome then
    .error (.invalidUsage (str2b desc ++ str2b " must be a single identifier"))
  else
    let nonspace := param_node.parts.filter (fun c =>
      !(c.kind == .space || c.kind == .lineComment || c.kind == .blockComment))
    match nonspace with
    | [ident_node] =>
      if !(ident_node.kind == .ident) then
        .error (.invalidUsage (str2b desc ++ str2b " must be a single identifier"))
      else
        let text := trimB (node_text ev ident_node)
        if text = [] then .error (.invalidUsage (str2b desc ++ str2b " cannot be empty"))
        else if (match text.head? with
          | some c => 48 ≤ c && c ≤ 57
          | none => false) then
          .error (.invalidUsage (str2b desc ++ str2b " cannot start with a number"))
        else .ok text
    | _ => .error (.invalidUsage (str2b desc ++ str2b " must be a single identifier"))

/-- The `try_fold` over formal parameters in `define_macro`, with the
duplicate check (`seen` is exactly the set of names accumulated). -/
def paramFold (ev : Evaluator) (formal_ctx dup_err : String) :
    List ASTNode → List Bytes → Except EvalErr (List Bytes)
  | [], acc => .ok acc
  | pn :: rest, acc =>
    match single_ident_param ev pn formal_ctx with
    | .error e => .error e
    | .ok name =>
      if acc.contains name then
        .error (.invalidUsage (str2b dup_err ++ str2b ": parameter already used: " ++ name))
      else paramFold ev formal_ctx dup_err rest (acc ++ [name])

/-- `define_macro` (builtins.rs): shared body of `def`/`pydef`.  Purely
syntactic: no argument is evaluated. -/
def define_macro_b (ev : Evaluator) (node : ASTNode) (min_params_error name_ctx
    formal_ctx dup_err : String) (is_python : Bool) : EvalRes :=
  if node.parts.length < 2 then (ev, .error (.invalidUsage (str2b min_params_error)))
  else
    match node.parts with
    | [] => (ev, .error (.invalidUsage (str2b min_params_error)))
    | p0 :: restParts =>
      match single_ident_param ev p0 name_ctx with
      | .error e => (ev, .error e)
      | .ok macro_name =>
        match node.parts.getLast? with
        | none => (ev, .error (.invalidUsage (str2b min_params_error)))
        | some body_node =>
          match paramFold ev formal_ctx dup_err restParts.dropLast [] with
          | .error e => (ev, .error e)
          | .ok param_list =>
            let mac : MacroDefinition :=
              ⟨macro_name, param_list, body_node, is_python, []⟩
            ({ ev with state := ev.state.define_macro mac }, .ok [])

/-- `builtin_def`. -/
def builtin_def_b (ev : Evaluator) (node : ASTNode) : EvalRes :=
  define_macro_b ev node "def requires at least (name, body)" "macro name"
    "formal parameter" "def" false

/-- `builtin_pydef`. -/
def builtin_pydef_b (ev : Evaluator) (node : ASTNode) : EvalRes :=
  define_macro_b ev node "pydef requires at least (name, body)" "pydef name"
    "pydef parameter" "pydef" true

/-- `Evaluator::find_file`: absolute-and-existing wins, else the first
include path whose join exists. -/
def find_file (ev : Evaluator) (filename : Bytes) : Except EvalErr Bytes :=
  if filename.head? = some 47 && fileExists ev.fs filename then .ok filename
  else findLoop ev.state.config.include_paths
where
  findLoop : List Bytes → Except EvalErr Bytes
    | [] => .error (.includeNotFound filename)
    | inc :: rest =>
      let candidate := pjoin inc filename
      if fileExists ev.fs candidate then .ok candidate else findLoop rest

/-- The error-wrapping tail of `Evaluator::parse_string` (split out so
that staged pipeline proofs can rewrite the parse result). -/
def lexParseStage (ev2 : Evaluator) (r : Except String ASTNode) :
    Evaluator × Except EvalErr ASTNode :=
  match r with
  | .error e => (ev2, .error (.parseError e))
  | .ok ast => (ev2, .ok ast)

/-- `Evaluator::parse_string`: register the source (deduplicated via
canonicalization when the path names a real file), then lex and parse. -/
def parse_string_m (ev : Evaluator) (text path : Bytes) :
    Evaluator × Except EvalErr ASTNode :=
  let srcR : Except EvalErr (Evaluator × Nat) :=
    if fileExists ev.fs path then
      match ev.state.source_manager.add_source_if_not_present ev.fs path with
      | .error e => .error (.ioError (str2b e))
      | .ok (sm, idx) =>
        .ok ({ ev with state := { ev.state with source_manager := sm } }, idx)
    else
      let (sm, idx) := ev.state.source_manager.add_source_bytes text path
      .ok ({ ev with state := { ev.state with source_manager := sm } }, idx)
  match srcR with
  | .error e => (ev, .error e)
  | .ok (ev2, src) =>
    lexParseStage ev2
      (lex_parse_content text ev2.state.config.special_char (Int.ofNat src))

/-- The builtin names registered by `default_builtins`. -/
def builtinNames : List Bytes :=
  [str2b "def", str2b "pydef", str2b "include", str2b "include_silent", str2b "if",
   str2b "equal", str2b "set", str2b "export", str2b "eval", str2b "here",
   str2b "capitalize", str2b "decapitalize", str2b "convert_case",
   str2b "to_snake_case", str2b "to_camel_case", str2b "to_pascal_case",
   str2b "to_screaming_case"]

/-- Whether a name hits the builtin table (checked before user macros). -/
def isBuiltin (name : Bytes) : Bool := builtinNames.any (fun n => n == name)

/-- The variables of the innermost scope (for the Python backend call). -/
def currentScopeVars (ev : Evaluator) : List (Bytes × Bytes) :=
  ((ev.state.scope_stack.getLast?).map (·.vars)).getD []

/-- ASCII uppercase of the first scalar (`builtin_capitalize`). -/
def capFirst (s : Bytes) : Bytes :=
  match decodeChar s with
  | some (c, w) => utf8Encode (if 97 ≤ c && c ≤ 122 then c - 32 else c) ++ s.drop w
  | none => s

/-- ASCII lowercase of the first scalar (`builtin_decapitalize`). -/
def decapFirst (s : Bytes) : Bytes :=
  match decodeChar s with
  | some (c, w) => utf8Encode (if 65 ≤ c && c ≤ 90 then c + 32 else c) ++ s.drop w
  | none => s

mutual

/-- `Evaluator::evaluate`. -/
def evaluateF : Nat → Evaluator → ASTNode → EvalRes
  | 0, ev, _ => (ev, .error .fuelErr)
  | fuel + 1, ev, node =>
    match node.kind with
    | .text => (ev, .ok (node_text ev node))
    | .space => (ev, .ok (node_text ev node))
    | .ident => (ev, .ok (node_text ev node))
    | .var =>
      let var_name := node_text ev node
      (ev, .ok (ev.state.get_variable var_name))
    | .macroCall =>
      let name := node_text ev node
      evaluateMacroCallF fuel ev node name
    | .lineComment => (ev, .ok [])
    | .blockComment => (ev, .ok [])
    | _ => evalChildrenF fuel ev node.parts

/-- The `for child in &node.parts` concatenation loop of `evaluate`. -/
def evalChildrenF : Nat → Evaluator → List ASTNode → EvalRes
  | 0, ev, _ => (ev, .error .fuelErr)
  | _ + 1, ev, [] => (ev, .ok [])
  | fuel + 1, ev, c :: rest =>
    match evaluateF fuel ev c with
    | (ev1, .error e) => (ev1, .error e)
    | (ev1, .ok s) =>
      match evalChildrenF fuel ev1 rest with
      | (ev2, .error e) => (ev2, .error e)
      | (ev2, .ok t) => (ev2, .ok (s ++ t))

/-- `Evaluator::evaluate_macro_call`: builtins first; then user macro
with scope push, frozen-arg injection, positional binding, body
evaluation, optional Python post-processing, scope pop on success. -/
def evaluateMacroCallF : Nat → Evaluator → ASTNode → Bytes → EvalRes
  | 0, ev, _, _ => (ev, .error .fuelErr)
  | fuel + 1, ev, node, name =>
    if isBuiltin name then runBuiltinF fuel name ev node
    else
      match ev.state.get_macro name with
      | none => (ev, .error (.undefinedMacro name))
      | some mac =>
        let param_nodes := node.parts.filter (fun p => p.kind == .param)
        let ev := { ev with state := ev.state.push_scope }
        -- frozen_args: HashMap iteration; keys are distinct, so the
        -- resulting bindings are order-independent
        let ev := mac.frozen_args.foldl
          (fun ev kv => { ev with state := ev.state.set_variable kv.1 kv.2 }) ev
        match bindParamsF fuel ev mac.params param_nodes 0 with
        | (ev1, .error e) => (ev1, .error e)
        | (ev1, .ok _) =>
          match evaluateF fuel ev1 mac.body with
          | (ev2, .error e) => (ev2, .error e)
          | (ev2, .ok result) =>
            if mac.is_python && ev2.state.config.python.enabled then
              match ev2.python_evaluator with
              | some f =>
                match f result (currentScopeVars ev2) with
                | .error e => (ev2, .error e)
                | .ok result2 =>
                  ({ ev2 with state := ev2.state.pop_scope }, .ok result2)
              | none =>
                (ev2, .error (.runtime (str2b "Python evaluator not configured")))
            else
              ({ ev2 with state := ev2.state.pop_scope }, .ok result)

/-- The positional-parameter binding loop of `evaluate_macro_call`. -/
def bindParamsF : Nat → Evaluator → List Bytes → List ASTNode → Nat →
    Evaluator × Except EvalErr Unit
  | 0, ev, _, _, _ => (ev, .error .fuelErr)
  | _ + 1, ev, [], _, _ => (ev, .ok ())
  | fuel + 1, ev, pname :: prest, pnodes, i =>
    match pnodes.get? i with
    | some pn =>
      match evaluateF fuel ev pn with
      | (ev1, .error e) => (ev1, .error e)
      | (ev1, .ok v) =>
        bindParamsF fuel { ev1 with state := ev1.state.set_variable pname v }
          prest pnodes (i + 1)
    | none =>
      bindParamsF fuel { ev with state := ev.state.set_variable pname [] }
        prest pnodes (i + 1)

/-- Dispatch over the builtin table. -/
def runBuiltinF : Nat → Bytes → Evaluator → ASTNode → EvalRes
  | 0, _, ev, _ => (ev, .error .fuelErr)
  | fuel + 1, name, ev, node =>
    if name == str2b "def" then builtin_def_b ev node
    else if name == str2b "pydef" then builtin_pydef_b ev node
    else if name == str2b "include" then process_include_fileF fuel ev node
    else if name == str2b "include_silent" then
      match process_include_fileF fuel ev node with
      | (ev1, .error e) => (ev1, .error e)
      | (ev1, .ok _) => (ev1, .ok [])
    else if name == str2b "if" then builtin_ifF fuel ev node
    else if name == str2b "equal" then builtin_equalF fuel ev node
    else if name == str2b "set" then builtin_setF fuel ev node
    else if name == str2b "export" then builtin_exportF fuel ev node
    else if name == str2b "eval" then builtin_evalF fuel ev node
    else if name == str2b "here" then builtin_hereF fuel ev node
    else if name == str2b "capitalize" then builtin_capitalizeF fuel ev node
    else if name == str2b "decapitalize" then builtin_decapitalizeF fuel ev node
    else if name == str2b "convert_case" then builtin_convert_caseF fuel ev node
    else if name == str2b "to_snake_case" then builtin_to_caseF fuel ev node "snake"
    else if name == str2b "to_camel_case" then builtin_to_caseF fuel ev node "camel"
    else if name == str2b "to_pascal_case" then builtin_to_caseF fuel ev node "pascal"
    else builtin_to_caseF fuel ev node "screaming"

/-- `process_include_file`. -/
def process_include_fileF : Nat → Evaluator → ASTNode → EvalRes
  | 0, ev, _ => (ev, .error .fuelErr)
  | fuel + 1, ev, node =>
    match node.parts with
    | [] => (ev, .ok [])
    | p0 :: _ =>
      match evaluateF fuel ev p0 with
      | (ev1, .error e) => (ev1, .error e)
      | (ev1, .ok filename) =>
        if trimB filename = [] then (ev1, .ok [])
        else do_includeF fuel ev1 filename

/-- `Evaluator::do_include`: resolve, cycle-check on the *resolved*
path, insert, read, parse, evaluate, remove on success. -/
def do_includeF : Nat → Evaluator → Bytes → EvalRes
  | 0, ev, _ => (ev, .error .fuelErr)
  | fuel + 1, ev, filename =>
    match find_file ev filename with
    | .error e => (ev, .error e)
    | .ok path =>
      if ev.state.open_includes.any (fun q => pathEq q path) then
        (ev, .error (.circularInclude path))
      else
        let ev := { ev with state :=
          { ev.state with open_includes := ev.state.open_includes ++ [path] } }
        match readFile ev.fs path with
        | none => (ev, .error (.includeNotFound filename))
        | some content =>
          match parse_string_m ev content path with
          | (ev1, .error e) => (ev1, .error e)
          | (ev1, .ok ast) =>
            match evaluateF fuel ev1 ast with
            | (ev2, .error e) => (ev2, .error e)
            | (ev2, .ok out) =>
              let oi := ev2.state.open_includes.filter (fun q => !(pathEq q path))
              ({ ev2 with state := { ev2.state with open_includes := oi } }, .ok out)

/-- `builtin_if`. -/
def builtin_ifF : Nat → Evaluator → ASTNode → EvalRes
  | 0, ev, _ => (ev, .error .fuelErr)
  | fuel + 1, ev, node =>
    match node.parts with
    | [] => (ev, .ok [])
    | p0 :: _ =>
      match evaluateF fuel ev p0 with
      | (ev1, .error e) => (ev1, .error e)
      | (ev1, .ok cond) =>
        if !(trimB cond == []) then
          match node.parts.get? 1 with
          | some p1 => evaluateF fuel ev1 p1
          | none => (ev1, .ok [])
        else
          match node.parts.get? 2 with
          | some p2 => evaluateF fuel ev1 p2
          | none => (ev1, .ok [])

/-- `builtin_equal`: exact (non-trimmed) equality of evaluated args. -/
def builtin_equalF : Nat → Evaluator → ASTNode → EvalRes
  | 0, ev, _ => (ev, .error .fuelErr)
  | fuel + 1, ev, node =>
    match node.parts with
    | [pa, pb] =>
      match evaluateF fuel ev pa with
      | (ev1, .error e) => (ev1, .error e)
      | (ev1, .ok a) =>
        match evaluateF fuel ev1 pb with
        | (ev2, .error e) => (ev2, .error e)
        | (ev2, .ok b) => if a = b then (ev2, .ok a) else (ev2, .ok [])
    | _ => (ev, .error (.invalidUsage (str2b "equal: exactly 2 args")))

/-- `builtin_set`. -/
def builtin_setF : Nat → Evaluator → ASTNode → EvalRes
  | 0, ev, _ => (ev, .error .fuelErr)
  | fuel + 1, ev, node =>
    match node.parts with
    | [p0, p1] =>
      match single_ident_param ev p0 "var name" with
      | .error e => (ev, .error e)
      | .ok var_name =>
        match evaluateF fuel ev p1 with
        | (ev1, .error e) => (ev1, .error e)
        | (ev1, .ok value) =>
          ({ ev1 with state := ev1.state.set_variable var_name value }, .ok [])
    | _ => (ev, .error (.invalidUsage (str2b "set: exactly 2 args")))

/-- `builtin_export`. -/
def builtin_exportF : Nat → Evaluator → ASTNode → EvalRes
  | 0, ev, _ => (ev, .error .fuelErr)
  | fuel + 1, ev, node =>
    match node.parts with
    | [p0] =>
      match single_ident_param ev p0 "var name" with
      | .error e => (ev, .error e)
      | .ok name => (exportF fuel ev name, .ok [])
    | _ => (ev, .error (.invalidUsage (str2b "export: exactly 1 arg")))

/-- `Evaluator::export`: copy a variable and/or a frozen macro of that
name from the innermost scope into its parent. -/
def exportF : Nat → Evaluator → Bytes → Evaluator
  | 0, ev, _ => ev
  | fuel + 1, ev, name =>
    let stack_len := ev.state.scope_stack.length
    if stack_len ≤ 1 then ev
    else
      let parent_index := stack_len - 2
      let ev :=
        match ev.state.scope_stack.getLast? with
        | some top =>
          match alookup top.vars name with
          | some val =>
            let ss := ev.state.scope_stack.mapIdx (fun i (fr : ScopeFrame) =>
              if i = parent_index then { fr with vars := ainsert fr.vars name val }
              else fr)
            { ev with state := { ev.state with scope_stack := ss } }
          | none => ev
        | none => ev
      match ev.state.scope_stack.getLast? with
      | some top =>
        match alookup top.macros name with
        | some mac =>
          let (ev1, frozen_mac) := freezeF fuel ev mac
          let ss := ev1.state.scope_stack.mapIdx (fun i (fr : ScopeFrame) =>
            if i = parent_index then
              { fr with macros := ainsert fr.macros name frozen_mac }
            else fr)
          { ev1 with state := { ev1.state with scope_stack := ss } }
        | none => ev
      | none => ev

/-- `Evaluator::freeze_macro_definition`. -/
def freezeF : Nat → Evaluator → MacroDefinition → Evaluator × MacroDefinition
  | 0, ev, mac => (ev, mac)
  | fuel + 1, ev, mac =>
    let (ev1, frozen) := collectF fuel ev mac.body mac.params []
    (ev1, { mac with frozen_args := frozen })

/-- `Evaluator::collect_freeze_vars`: record each free `Var`'s value
(errors map to the empty string), then recurse into children. -/
def collectF : Nat → Evaluator → ASTNode → List Bytes → List (Bytes × Bytes) →
    Evaluator × List (Bytes × Bytes)
  | 0, ev, _, _, frozen => (ev, frozen)
  | fuel + 1, ev, node, keep, frozen =>
    if node.kind == .var then
      let var_name := trimB (node_text ev node)
      if !(keep.contains var_name) && (alookup frozen var_name).isNone then
        match evaluateF fuel ev node with
        | (ev1, .ok value) =>
          collectChildrenF fuel ev1 node.parts keep (frozen ++ [(var_name, value)])
        | (ev1, .error _) =>
          collectChildrenF fuel ev1 node.parts keep (frozen ++ [(var_name, [])])
      else collectChildrenF fuel ev node.parts keep frozen
    else collectChildrenF fuel ev node.parts keep frozen

/-- The child loop of `collect_freeze_vars`. -/
def collectChildrenF : Nat → Evaluator → List ASTNode → List Bytes →
    List (Bytes × Bytes) → Evaluator × List (Bytes × Bytes)
  | 0, ev, _, _, frozen => (ev, frozen)
  | _ + 1, ev, [], _, frozen => (ev, frozen)
  | fuel + 1, ev, c :: rest, keep, frozen =>
    let (ev1, frozen1) := collectF fuel ev c keep frozen
    collectChildrenF fuel ev1 rest keep frozen1

/-- `builtin_eval`: evaluate the first argument to a macro name, then
call it with the remaining arguments. -/
def builtin_evalF : Nat → Evaluator → ASTNode → EvalRes
  | 0, ev, _ => (ev, .error .fuelErr)
  | fuel + 1, ev, node =>
    match node.parts with
    | [] => (ev, .error (.invalidUsage (str2b "eval requires macroName")))
    | p0 :: restParts =>
      match evaluateF fuel ev p0 with
      | (ev1, .error e) => (ev1, .error e)
      | (ev1, .ok macro_name_raw) =>
        let macro_name := trimB macro_name_raw
        if macro_name = [] then (ev1, .ok [])
        else
          let call_node : ASTNode :=
            ⟨.macroCall, node.src, node.token, node.end_pos, restParts, none⟩
          evaluateMacroCallF fuel ev1 call_node macro_name

/-- `builtin_here`: evaluate as an `eval` call, splice the special char
at the call start and the expansion after its end into the current file
(with a backup), then signal `Terminate`. -/
def builtin_hereF : Nat → Evaluator → ASTNode → EvalRes
  | 0, ev, _ => (ev, .error .fuelErr)
  | fuel + 1, ev, node =>
    match node.parts with
    | [] => (ev, .ok [])
    | _ :: _ =>
      match builtin_evalF fuel ev node with
      | (ev1, .error e) => (ev1, .error e)
      | (ev1, .ok expansion) =>
        let path := ev1.state.current_file
        let start_pos := node.token.pos
        let prepend := (start_pos, ev1.state.get_special_char, false)
        let append := (node.end_pos, expansion, true)
        match modify_source ev1.fs path [prepend, append]
            (some ev1.state.config.backup_dir) with
        | .error e => (ev1, .error (.ioError e))
        | .ok fs1 => ({ ev1 with fs := fs1 }, .error .terminate)

/-- `builtin_capitalize`. -/
def builtin_capitalizeF : Nat → Evaluator → ASTNode → EvalRes
  | 0, ev, _ => (ev, .error .fuelErr)
  | fuel + 1, ev, node =>
    match node.parts with
    | [] => (ev, .ok [])
    | p0 :: _ =>
      match evaluateF fuel ev p0 with
      | (ev1, .error e) => (ev1, .error e)
      | (ev1, .ok original) =>
        if original = [] then (ev1, .ok []) else (ev1, .ok (capFirst original))

/-- `builtin_decapitalize`. -/
def builtin_decapitalizeF : Nat → Evaluator → ASTNode → EvalRes
  | 0, ev, _ => (ev, .error .fuelErr)
  | fuel + 1, ev, node =>
    match node.parts with
    | [] => (ev, .ok [])
    | p0 :: _ =>
      match evaluateF fuel ev p0 with
      | (ev1, .error e) => (ev1, .error e)
      | (ev1, .ok original) =>
        if original = [] then (ev1, .ok []) else (ev1, .ok (decapFirst original))

/-- `builtin_convert_case`. -/
def builtin_convert_caseF : Nat → Evaluator → ASTNode → EvalRes
  | 0, ev, _ => (ev, .error .fuelErr)
  | fuel + 1, ev, node =>
    match node.parts with
    | [pa, pb] =>
      match evaluateF fuel ev pa with
      | (ev1, .error e) => (ev1, .error e)
      | (ev1, .ok original) =>
        if original = [] then (ev1, .ok [])
        else
          match evaluateF fuel ev1 pb with
          | (ev2, .error e) => (ev2, .error e)
          | (ev2, .ok case) =>
            match convert_case_str original case with
            | .error e => (ev2, .error (.runtime e))
            | .ok s => (ev2, .ok s)
    | _ => (ev, .error (.invalidUsage (str2b "convert_case: exactly 2 args")))

/-- `builtin_to_snake_case` and friends (the four differ only in the
fixed style string). -/
def builtin_to_caseF : Nat → Evaluator → ASTNode → String → EvalRes
  | 0, ev, _, _ => (ev, .error .fuelErr)
  | fuel + 1, ev, node, style =>
    match node.parts with
    | [] => (ev, .ok [])
    | p0 :: _ =>
      match evaluateF fuel ev p0 with
      | (ev1, .error e) => (ev1, .error e)
      | (ev1, .ok original) =>
        if original = [] then (ev1, .ok [])
        else
          match convert_case_str original (str2b style) with
          | .error e => (ev1, .error (.runtime e))
          | .ok s => (ev1, .ok s)

end

/-- The evaluate step of `process_string` (split out so that staged
pipeline proofs can rewrite the parse result). -/
def evalStage (real_path : Option Bytes) (fuel : Nat) :
    Evaluator × Except EvalErr ASTNode → EvalRes
  | (ev1, .error e) => (ev1, .error e)
  | (ev1, .ok ast) =>
    let ev1 :=
      match real_path with
      | some rp => { ev1 with state := { ev1.state with current_file := rp } }
      | none => ev1
    evaluateF fuel ev1 ast

/-- `eval_string` / `process_string` (macro_api.rs): parse then
evaluate; the synthetic path is used when no real path is given. -/
def process_string (fuel : Nat) (ev : Evaluator) (source : Bytes)
    (real_path : Option Bytes) : EvalRes :=
  let path_for_parsing :=
    match real_path with
    | some rp => rp
    | none =>
      str2b ("<string-" ++ toString ev.state.source_manager.source_files.length ++ ">")
  evalStage real_path fuel (parse_string_m ev source path_for_parsing)

/-- `process_string_defaults`: default config, empty filesystem. -/
def process_string_defaults (fuel : Nat) (source : Bytes) : Except EvalErr Bytes :=
  (process_string fuel (Evaluator.new EvalConfig.default []) source none).2

/-! ### Claim C5

The full pipeline on the claimed input.  Kernel evaluation of the
composed pipeline is staged through literal intermediate values (token
stream, parser arena, cleaned AST), each stage checked by `decide`/`rfl`
on closed inputs, and glued by rewriting. -/

/-- The C5 input text. -/
def INc5 : Bytes := str2b "%def(greet, name, Hello, %(name)!)\n%greet(World)"

/-- The token stream the lexer produces for `INc5`. -/
def TOKSc5 : List Token :=
  [⟨.macroStart, 0, 0, 5⟩, ⟨.ident, 0, 5, 5⟩, ⟨.comma, 0, 10, 1⟩, ⟨.space, 0, 11, 1⟩,
   ⟨.ident, 0, 12, 4⟩, ⟨.comma, 0, 16, 1⟩, ⟨.space, 0, 17, 1⟩, ⟨.ident, 0, 18, 5⟩,
   ⟨.comma, 0, 23, 1⟩, ⟨.space, 0, 24, 1⟩, ⟨.var, 0, 25, 7⟩, ⟨.text, 0, 32, 1⟩,
   ⟨.closeParen, 0, 33, 1⟩, ⟨.text, 0, 34, 1⟩, ⟨.macroStart, 0, 35, 7⟩,
   ⟨.ident, 0, 42, 5⟩, ⟨.closeParen, 0, 47, 1⟩, ⟨.eof, 0, 48, 0⟩]

/-- The parser arena for `TOKSc5`. -/
def NODESc5 : List ParseNode :=
  [⟨.block, 0, ⟨.text, 0, 0, 0⟩, 0, [1, 14, 15, 18]⟩,
   ⟨.macroCall, 0, ⟨.macroStart, 0, 0, 5⟩, 34, [2, 4, 7, 10]⟩,
   ⟨.param, 0, ⟨.text, 0, 0, 0⟩, 11, [3]⟩,
   ⟨.ident, 0, ⟨.ident, 0, 5, 5⟩, 0, []⟩,
   ⟨.param, 0, ⟨.comma, 0, 10, 1⟩, 17, [5, 6]⟩,
   ⟨.space, 0, ⟨.space, 0, 11, 1⟩, 0, []⟩,
   ⟨.ident, 0, ⟨.ident, 0, 12, 4⟩, 0, []⟩,
   ⟨.param, 0, ⟨.comma, 0, 16, 1⟩, 24, [8, 9]⟩,
   ⟨.space, 0, ⟨.space, 0, 17, 1⟩, 0, []⟩,
   ⟨.ident, 0, ⟨.ident, 0, 18, 5⟩, 0, []⟩,
   ⟨.param, 0, ⟨.comma, 0, 23, 1⟩, 34, [11, 12, 13]⟩,
   ⟨.space, 0, ⟨.space, 0, 24, 1⟩, 0, []⟩,
   ⟨.var, 0, ⟨.var, 0, 25, 7⟩, 0, []⟩,
   ⟨.text, 0, ⟨.text, 0, 32, 1⟩, 0, []⟩,
   ⟨.text, 0, ⟨.text, 0, 34, 1⟩, 0, []⟩,
   ⟨.macroCall, 0, ⟨.macroStart, 0, 35, 7⟩, 48, [16]⟩,
   ⟨.param, 0, ⟨.text, 0, 35, 0⟩, 48, [17]⟩,
   ⟨.ident, 0, ⟨.ident, 0, 42, 5⟩, 0, []⟩,
   ⟨.text, 0, ⟨.eof, 0, 48, 0⟩, 0, []⟩]

/-- The cleaned AST built from `NODESc5`. -/
def ASTc5 : ASTNode :=
  ⟨.block, 0, ⟨.text, 0, 0, 0⟩, 0,
   [⟨.macroCall, 0, ⟨.macroStart, 0, 0, 5⟩, 34,
     [⟨.param, 0, ⟨.text, 0, 0, 0⟩, 11, [⟨.ident, 0, ⟨.ident, 0, 5, 5⟩, 0, [], none⟩], none⟩,
      ⟨.param, 0, ⟨.comma, 0, 10, 1⟩, 17, [⟨.ident, 0, ⟨.ident, 0, 12, 4⟩, 0, [], none⟩], none⟩,
      ⟨.param, 0, ⟨.comma, 0, 16, 1⟩, 24, [⟨.ident, 0, ⟨.ident, 0, 18, 5⟩, 0, [], none⟩], none⟩,
      ⟨.param, 0, ⟨.comma, 0, 23, 1⟩, 34,
       [⟨.var, 0, ⟨.var, 0, 25, 7⟩, 0, [], none⟩,
        ⟨.text, 0, ⟨.text, 0, 32, 1⟩, 0, [], none⟩], none⟩], none⟩,
    ⟨.text, 0, ⟨.text, 0, 34, 1⟩, 0, [], none⟩,
    ⟨.macroCall, 0, ⟨.macroStart, 0, 35, 7⟩, 48,
     [⟨.param, 0, ⟨.text, 0, 35, 0⟩, 48,
       [⟨.ident, 0, ⟨.ident, 0, 42, 5⟩, 0, [], none⟩], none⟩], none⟩,
    ⟨.text, 0, ⟨.eof, 0, 48, 0⟩, 0, [], none⟩], none⟩

/-- The synthetic parse path `process_string` invents for `INc5`. -/
def p0c5 : Bytes := str2b "<string-0>"

/-- The default evaluator `process_string_defaults` starts from. -/
def ev0c5 : Evaluator := Evaluator.new EvalConfig.default []

/-- `ev0c5` after `parse_string` registers the source text. -/
def ev2c5 : Evaluator :=
  { ev0c5 with state := { ev0c5.state with
      source_manager := (ev0c5.state.source_manager.add_source_bytes INc5 p0c5).1 } }

theorem c5_lex_tokens : (lexRun INc5 37 0).tokens = TOKSc5 := by decide

theorem c5_lex_errors : (lexRun INc5 37 0).errors = [] := by decide

theorem c5_parse : parserParse TOKSc5 = NODESc5 := by decide

theorem c5_build : build_ast NODESc5 = .ok ASTc5 := rfl

set_option maxHeartbeats 2000000 in
theorem c5_eval : (evaluateF 200 ev2c5 ASTc5).2 = .ok (str2b "\nWorld!") := by decide

set_option maxHeartbeats 1000000 in
theorem c5_lpc : lex_parse_content INc5 37 0 = .ok ASTc5 := by
  unfold lex_parse_content
  show (if (!(lexRun INc5 37 0).errors.isEmpty) = true
        then Except.error ("Lexer errors: " ++ String.intercalate "; " (lexRun INc5 37 0).errors)
        else buildStage (lexRun INc5 37 0).tokens) = .ok ASTc5
  rw [c5_lex_errors, c5_lex_tokens, if_neg (by decide)]
  unfold buildStage
  rw [c5_parse, c5_build]

theorem c5_psm : parse_string_m ev0c5 INc5 p0c5 = (ev2c5, .ok ASTc5) := by
  have h1 : parse_string_m ev0c5 INc5 p0c5
      = lexParseStage ev2c5 (lex_parse_content INc5 37 0) := rfl
  rw [h1, c5_lpc]
  rfl

theorem c5_pipeline : process_string_defaults 200 INc5 = .ok (str2b "\nWorld!") := by
  have h1 : process_string_defaults 200 INc5
      = (evalStage none 200 (parse_string_m ev0c5 INc5 p0c5)).2 := rfl
  rw [h1, c5_psm]
  exact c5_eval

/-- Counterexample to C5 as stated: the third argument `Hello` of the
`def` becomes a *formal parameter* (bound to the empty string at the
call), not part of the body — only the last argument is the body.  The
pipeline therefore does not produce `\nHello, World!`.  (The repo's own
`test_def_macro_with_params` documents this binding for the analogous
input.) -/
theorem def_greet_scenario_counterexample :
    process_string_defaults 200 (str2b "%def(greet, name, Hello, %(name)!)\n%greet(World)")
      ≠ .ok (str2b "\nHello, World!") := by
  have h : process_string_defaults 200 (str2b "%def(greet, name, Hello, %(name)!)\n%greet(World)")
      = .ok (str2b "\nWorld!") := c5_pipeline
  rw [h]
  decide

/-- C5 amended: the same input evaluates to `\nWorld!` — `greet` gets
formal parameters `name` and `Hello` and body `%(name)!`, and the call
binds `name` to `World` and `Hello` to the empty string. -/
theorem def_greet_scenario_amended :
    process_string_defaults 200 (str2b "%def(greet, name, Hello, %(name)!)\n%greet(World)")
      = .ok (str2b "\nWorld!") :=
  c5_pipeline

/-! ### Claim C7 -/

/-- Counterexample to C7 as stated: `do_include` stores *resolved*
paths, not canonical ones.  With include path `inc`, open-include set
`{inc/a.m}` and the file `inc/a.m` present: including `sub/../a.m`
resolves to `inc/sub/../a.m`, whose canonical path is `inc/a.m` — an
already-open include — yet the call succeeds and emits the file text;
only the structurally identical spelling `a.m` is rejected. -/
theorem include_canonicalization_counterexample :
    (pathEq (normalizePath (pjoin (str2b "inc") (str2b "sub/../a.m"))) (str2b "inc/a.m")
        = true) ∧
    ((do_includeF 100
        { state :=
            { EvaluatorState.new
                { EvalConfig.default with include_paths := [str2b "inc"] } with
              open_includes := [str2b "inc/a.m"] }
          fs := [(str2b "inc/a.m", str2b "x")]
          python_evaluator := none }
        (str2b "sub/../a.m")).2 = .ok (str2b "x")) ∧
    ((do_includeF 100
        { state :=
            { EvaluatorState.new
                { EvalConfig.default with include_paths := [str2b "inc"] } with
              open_includes := [str2b "inc/a.m"] }
          fs := [(str2b "inc/a.m", str2b "x")]
          python_evaluator := none }
        (str2b "a.m")).2 = .error (.circularInclude (str2b "inc/a.m"))) := by
  decide

/-- C7 amended: the open-include set holds the paths exactly as
resolved by `find_file` (not canonicalized), and an `include` whose
resolved path is already in that set fails with `CircularInclude`
immediately; two spellings resolving to the same file are *not*
identified. -/
theorem do_include_circular_on_resolved_path (fuel : Nat) (ev : Evaluator)
    (filename path : Bytes)
    (hfind : find_file ev filename = .ok path)
    (hopen : ev.state.open_includes.any (fun q => pathEq q path) = true) :
    do_includeF (fuel + 1) ev filename = (ev, .error (.circularInclude path)) := by
  unfold do_includeF
  rw [hfind]
  simp [hopen]

/-- Witness for the amended C7 at the concrete state of the
counterexample: the structurally equal spelling is rejected. -/
theorem do_include_circular_on_resolved_path_witness :
    (find_file
        { state :=
            { EvaluatorState.new
                { EvalConfig.default with include_paths := [str2b "inc"] } with
              open_includes := [str2b "inc/a.m"] }
          fs := [(str2b "inc/a.m", str2b "x")]
          python_evaluator := none }
        (str2b "a.m") = .ok (str2b "inc/a.m")) ∧
    (([str2b "inc/a.m"].any (fun q => pathEq q (str2b "inc/a.m"))) = true) ∧
    (do_includeF 100
        { state :=
            { EvaluatorState.new
                { EvalConfig.default with include_paths := [str2b "inc"] } with
              open_includes := [str2b "inc/a.m"] }
          fs := [(str2b "inc/a.m", str2b "x")]
          python_evaluator := none }
        (str2b "a.m") =
      ({ state :=
            { EvaluatorState.new
                { EvalConfig.default with include_paths := [str2b "inc"] } with
              open_includes := [str2b "inc/a.m"] }
         fs := [(str2b "inc/a.m", str2b "x")]
         python_evaluator := none },
       .error (.circularInclude (str2b "inc/a.m")))) :=
  ⟨by decide, by decide,
   do_include_circular_on_resolved_path 99
     { state :=
         { EvaluatorState.new
             { EvalConfig.default with include_paths := [str2b "inc"] } with
           open_includes := [str2b "inc/a.m"] }
       fs := [(str2b "inc/a.m", str2b "x")]
       python_evaluator := none }
     (str2b "a.m") (str2b "inc/a.m") (by decide) (by decide)⟩

/-! ### Claim C9: scope-stack machinery -/

/-- The scope-stack depth of an evaluator. -/
def sl (ev : Evaluator) : Nat := ev.state.scope_stack.length

theorem sl_updTop (st : EvaluatorState) (f : ScopeFrame → ScopeFrame) :
    (st.updTop f).scope_stack.length = st.scope_stack.length := by
  unfold EvaluatorState.updTop
  cases h : st.scope_stack.getLast? with
  | none => rfl
  | some top =>
    have hne : st.scope_stack ≠ [] := by
      intro hnil; rw [hnil] at h; simp at h
    have hpos : 0 < st.scope_stack.length := List.length_pos.mpr hne
    simp only [List.length_append, List.length_dropLast, List.length_cons,
      List.length_nil]
    omega

theorem sl_set_variable (ev : Evaluator) (n v : Bytes) :
    sl { ev with state := ev.state.set_variable n v } = sl ev := by
  unfold sl EvaluatorState.set_variable
  exact sl_updTop _ _

theorem sl_define_macro (ev : Evaluator) (m : MacroDefinition) :
    sl { ev with state := ev.state.define_macro m } = sl ev := by
  unfold sl EvaluatorState.define_macro
  exact sl_updTop _ _

theorem sl_push (ev : Evaluator) :
    sl { ev with state := ev.state.push_scope } = sl ev + 1 := by
  unfold sl EvaluatorState.push_scope
  simp

theorem sl_pop_ge (ev : Evaluator) :
    sl ev - 1 ≤ sl { ev with state := ev.state.pop_scope } := by
  unfold sl EvaluatorState.pop_scope
  split
  · simp [List.length_dropLast]
  · omega

theorem sl_fold_set (l : List (Bytes × Bytes)) : ∀ ev : Evaluator,
    sl (l.foldl (fun ev kv => { ev with state := ev.state.set_variable kv.1 kv.2 }) ev)
      = sl ev := by
  induction l with
  | nil => intro ev; rfl
  | cons kv rest ih =>
    intro ev
    simp only [List.foldl_cons]
    rw [ih, sl_set_variable]

theorem sl_define_macro_b (ev : Evaluator) (node : ASTNode) (a b c d : String)
    (p : Bool) : sl (define_macro_b ev node a b c d p).1 = sl ev := by
  unfold define_macro_b
  split
  · rfl
  · split
    · rfl
    · split
      · rfl
      · split
        · rfl
        · split
          · rfl
          · exact sl_define_macro _ _

theorem sl_psm (ev : Evaluator) (t p : Bytes) :
    sl (parse_string_m ev t p).1 = sl ev := by
  cases hfe : fileExists ev.fs p with
  | true =>
    simp only [parse_string_m, lexParseStage, hfe, if_true]
    cases hadd : ev.state.source_manager.add_source_if_not_present ev.fs p with
    | error e => simp only [hadd]
    | ok pr =>
      obtain ⟨sm, idx⟩ := pr
      simp only [hadd]
      split <;> rfl
  | false =>
    simp only [parse_string_m, lexParseStage, hfe, Bool.false_eq_true, if_false]
    split <;> rfl

end Azadi

namespace Azadi

/-- Scope-stack monotonicity: no evaluator entry point ever shrinks the
scope stack below its entry depth (pops only undo pushes made inside). -/
theorem scope_mono : ∀ fuel : Nat,
    (∀ ev node, sl ev ≤ sl (evaluateF fuel ev node).1)
  ∧ (∀ ev cs, sl ev ≤ sl (evalChildrenF fuel ev cs).1)
  ∧ (∀ ev node name, sl ev ≤ sl (evaluateMacroCallF fuel ev node name).1)
  ∧ (∀ ev ps pns i, sl ev ≤ sl (bindParamsF fuel ev ps pns i).1)
  ∧ (∀ name ev node, sl ev ≤ sl (runBuiltinF fuel name ev node).1)
  ∧ (∀ ev node, sl ev ≤ sl (process_include_fileF fuel ev node).1)
  ∧ (∀ ev fn, sl ev ≤ sl (do_includeF fuel ev fn).1)
  ∧ (∀ ev node, sl ev ≤ sl (builtin_ifF fuel ev node).1)
  ∧ (∀ ev node, sl ev ≤ sl (builtin_equalF fuel ev node).1)
  ∧ (∀ ev node, sl ev ≤ sl (builtin_setF fuel ev node).1)
  ∧ (∀ ev node, sl ev ≤ sl (builtin_exportF fuel ev node).1)
  ∧ (∀ ev nm, sl ev ≤ sl (exportF fuel ev nm))
  ∧ (∀ ev mac, sl ev ≤ sl (freezeF fuel ev mac).1)
  ∧ (∀ ev node keep fz, sl ev ≤ sl (collectF fuel ev node keep fz).1)
  ∧ (∀ ev cs keep fz, sl ev ≤ sl (collectChildrenF fuel ev cs keep fz).1)
  ∧ (∀ ev node, sl ev ≤ sl (builtin_evalF fuel ev node).1)
  ∧ (∀ ev node, sl ev ≤ sl (builtin_hereF fuel ev node).1)
  ∧ (∀ ev node, sl ev ≤ sl (builtin_capitalizeF fuel ev node).1)
  ∧ (∀ ev node, sl ev ≤ sl (builtin_decapitalizeF fuel ev node).1)
  ∧ (∀ ev node, sl ev ≤ sl (builtin_convert_caseF fuel ev node).1)
  ∧ (∀ ev node st, sl ev ≤ sl (builtin_to_caseF fuel ev node st).1) := by
  intro fuel
  induction fuel with
  | zero =>
    exact ⟨fun _ _ => le_refl _, fun _ _ => le_refl _, fun _ _ _ => le_refl _,
      fun _ _ _ _ => le_refl _, fun _ _ _ => le_refl _, fun _ _ => le_refl _,
      fun _ _ => le_refl _, fun _ _ => le_refl _, fun _ _ => le_refl _,
      fun _ _ => le_refl _, fun _ _ => le_refl _, fun _ _ => le_refl _,
      fun _ _ => le_refl _, fun _ _ _ _ => le_refl _, fun _ _ _ _ => le_refl _,
      fun _ _ => le_refl _, fun _ _ => le_refl _, fun _ _ => le_refl _,
      fun _ _ => le_refl _, fun _ _ => le_refl _, fun _ _ _ => le_refl _⟩
  | succ n ih =>
    obtain ⟨ih1, ih2, ih3, ih4, ih5, ih6, ih7, ih8, ih9, ih10, ih11, ih12,
      ih13, ih14, ih15, ih16, ih17, ih18, ih19, ih20, ih21⟩ := ih
    refine ⟨?_, ?_, ?_, ?_, ?_, ?_, ?_, ?_, ?_, ?_, ?_, ?_, ?_, ?_, ?_, ?_,
      ?_, ?_, ?_, ?_, ?_⟩
    -- evaluateF
    · intro ev node
      simp only [evaluateF]
      cases hk : node.kind
      case text => exact le_refl _
      case space => exact le_refl _
      case ident => exact le_refl _
      case var => exact le_refl _
      case macroCall => exact ih3 ev node (node_text ev node)
      case lineComment => exact le_refl _
      case blockComment => exact le_refl _
      case block => exact ih2 ev node.parts
      case param => exact ih2 ev node.parts
      case equal => exact ih2 ev node.parts
      case composite => exact ih2 ev node.parts
      case punct => exact ih2 ev node.parts
      case notUsed => exact ih2 ev node.parts
    -- evalChildrenF
    · intro ev cs
      cases cs with
      | nil => exact le_refl _
      | cons c rest =>
        simp only [evalChildrenF]
        rcases hev : evaluateF n ev c with ⟨ev1, r1⟩
        have h1 := ih1 ev c
        rw [hev] at h1
        rcases r1 with e | v
        · exact h1
        · dsimp only
          rcases hrest : evalChildrenF n ev1 rest with ⟨ev2, r2⟩
          have h2 := ih2 ev1 rest
          rw [hrest] at h2
          rcases r2 with e | t
          · exact le_trans h1 h2
          · exact le_trans h1 h2
    -- evaluateMacroCallF
    · intro ev node name
      simp only [evaluateMacroCallF]
      cases hib : isBuiltin name with
      | true => simp only [if_true]; exact ih5 name ev node
      | false =>
        simp only [Bool.false_eq_true, if_false]
        cases hgm : ev.state.get_macro name with
        | none => exact le_refl _
        | some mac =>
          dsimp only
          set evp := mac.frozen_args.foldl
            (fun ev kv => { ev with state := ev.state.set_variable kv.1 kv.2 })
            { ev with state := ev.state.push_scope } with hevp
          have hslp : sl evp = sl ev + 1 := by
            rw [hevp, sl_fold_set, sl_push]
          rcases hbp : bindParamsF n evp mac.params
              (node.parts.filter (fun p => p.kind == .param)) 0 with ⟨ev1, r1⟩
          have h4 := ih4 evp mac.params
            (node.parts.filter (fun p => p.kind == .param)) 0
          rw [hbp] at h4
          dsimp only at h4
          rcases r1 with e | u
          · have : sl ev ≤ sl ev1 := by omega
            exact this
          · dsimp only
            rcases hbody : evaluateF n ev1 mac.body with ⟨ev2, r2⟩
            have hb := ih1 ev1 mac.body
            rw [hbody] at hb
            dsimp only at hb
            rcases r2 with e | result
            · have : sl ev ≤ sl ev2 := by omega
              exact this
            · have hle2 : sl ev ≤ sl ev2 := by omega
              have hpop := sl_pop_ge ev2
              dsimp only
              split
              · cases hpe : ev2.python_evaluator with
                | none => exact hle2
                | some f =>
                  dsimp only
                  rcases hf : f result (currentScopeVars ev2) with e | r2
                  · exact hle2
                  · have hd : sl ev ≤ sl ev2 - 1 ∨ sl ev ≤ sl ev2 := by omega
                    rcases hd with hd | hd
                    · exact le_trans hd hpop
                    · exact le_trans (by omega : sl ev ≤ sl ev2 - 1) hpop
              · exact le_trans (by omega : sl ev ≤ sl ev2 - 1) hpop
    -- bindParamsF
    · intro ev ps pns i
      cases ps with
      | nil => exact le_refl _
      | cons pname prest =>
        simp only [bindParamsF]
        cases hg : pns.get? i with
        | some pn =>
          dsimp only
          rcases hev : evaluateF n ev pn with ⟨ev1, r1⟩
          have h1 := ih1 ev pn
          rw [hev] at h1
          rcases r1 with e | v
          · exact h1
          · have h4 := ih4 { ev1 with state := ev1.state.set_variable pname v }
              prest pns (i + 1)
            rw [sl_set_variable] at h4
            exact le_trans h1 h4
        | none =>
          have h4 := ih4 { ev with state := ev.state.set_variable pname [] }
            prest pns (i + 1)
          rw [sl_set_variable] at h4
          exact h4
    -- runBuiltinF
    · intro name ev node
      unfold runBuiltinF
      cases hn0 : name == str2b "def" with
      | true =>
        simp only [eq_self_iff_true, if_true]
        exact le_of_eq (sl_define_macro_b ev node _ _ _ _ _).symm
      | false =>
        simp only [Bool.false_eq_true, if_false]
        cases hn1 : name == str2b "pydef" with
        | true =>
          simp only [eq_self_iff_true, if_true]
          exact le_of_eq (sl_define_macro_b ev node _ _ _ _ _).symm
        | false =>
          simp only [Bool.false_eq_true, if_false]
          cases hn2 : name == str2b "include" with
          | true =>
            simp only [eq_self_iff_true, if_true]
            exact ih6 ev node
          | false =>
            simp only [Bool.false_eq_true, if_false]
            cases hn3 : name == str2b "include_silent" with
            | true =>
              simp only [eq_self_iff_true, if_true]
              rcases hpi : process_include_fileF n ev node with ⟨ev1, r1⟩
              have h6 := ih6 ev node
              rw [hpi] at h6
              rcases r1 with e | v
              · exact h6
              · exact h6
            | false =>
              simp only [Bool.false_eq_true, if_false]
              cases hn4 : name == str2b "if" with
              | true =>
                simp only [eq_self_iff_true, if_true]
                exact ih8 ev node
              | false =>
                simp only [Bool.false_eq_true, if_false]
                cases hn5 : name == str2b "equal" with
                | true =>
                  simp only [eq_self_iff_true, if_true]
                  exact ih9 ev node
                | false =>
                  simp only [Bool.false_eq_true, if_false]
                  cases hn6 : name == str2b "set" with
                  | true =>
                    simp only [eq_self_iff_true, if_true]
                    exact ih10 ev node
                  | false =>
                    simp only [Bool.false_eq_true, if_false]
                    cases hn7 : name == str2b "export" with
                    | true =>
                      simp only [eq_self_iff_true, if_true]
                      exact ih11 ev node
                    | false =>
                      simp only [Bool.false_eq_true, if_false]
                      cases hn8 : name == str2b "eval" with
                      | true =>
                        simp only [eq_self_iff_true, if_true]
                        exact ih16 ev node
                      | false =>
                        simp only [Bool.false_eq_true, if_false]
                        cases hn9 : name == str2b "here" with
                        | true =>
                          simp only [eq_self_iff_true, if_true]
                          exact ih17 ev node
                        | false =>
                          simp only [Bool.false_eq_true, if_false]
                          cases hn10 : name == str2b "capitalize" with
                          | true =>
                            simp only [eq_self_iff_true, if_true]
                            exact ih18 ev node
                          | false =>
                            simp only [Bool.false_eq_true, if_false]
                            cases hn11 : name == str2b "decapitalize" with
                            | true =>
                              simp only [eq_self_iff_true, if_true]
                              exact ih19 ev node
                            | false =>
                              simp only [Bool.false_eq_true, if_false]
                              cases hn12 : name == str2b "convert_case" with
                              | true =>
                                simp only [eq_self_iff_true, if_true]
                                exact ih20 ev node
                              | false =>
                                simp only [Bool.false_eq_true, if_false]
                                cases hn13 : name == str2b "to_snake_case" with
                                | true =>
                                  simp only [eq_self_iff_true, if_true]
                                  exact ih21 ev node _
                                | false =>
                                  simp only [Bool.false_eq_true, if_false]
                                  cases hn14 : name == str2b "to_camel_case" with
                                  | true =>
                                    simp only [eq_self_iff_true, if_true]
                                    exact ih21 ev node _
                                  | false =>
                                    simp only [Bool.false_eq_true, if_false]
                                    cases hn15 : name == str2b "to_pascal_case" with
                                    | true =>
                                      simp only [eq_self_iff_true, if_true]
                                      exact ih21 ev node _
                                    | false =>
                                      simp only [Bool.false_eq_true, if_false]
                                      exact ih21 ev node _
    -- process_include_fileF
    · intro ev node
      obtain ⟨k, sr, tk, ep, parts, nm⟩ := node
      cases parts with
      | nil => exact le_refl _
      | cons p0 rest =>
        unfold process_include_fileF
        dsimp only
        rcases hev : evaluateF n ev p0 with ⟨ev1, r1⟩
        have h1 := ih1 ev p0
        rw [hev] at h1
        rcases r1 with e | filename
        · exact h1
        · dsimp only
          split
          · exact h1
          · exact le_trans h1 (ih7 ev1 filename)
    -- do_includeF
    · intro ev fn
      simp only [do_includeF]
      cases hff : find_file ev fn with
      | error e => exact le_refl _
      | ok path =>
        dsimp only
        split
        · exact le_refl _
        · set evo : Evaluator := { ev with state :=
            { ev.state with open_includes := ev.state.open_includes ++ [path] } }
            with hevo
          have hso : sl evo = sl ev := rfl
          cases hrf : readFile evo.fs path with
          | none => exact le_refl _
          | some content =>
            dsimp only
            rcases hpsm : parse_string_m evo content path with ⟨ev1, r1⟩
            have hps := sl_psm evo content path
            rw [hpsm] at hps
            dsimp only at hps
            rcases r1 with e | ast
            · exact le_trans (le_of_eq hso.symm) (le_of_eq hps.symm)
            · dsimp only
              rcases hev2 : evaluateF n ev1 ast with ⟨ev2, r2⟩
              have h1 := ih1 ev1 ast
              rw [hev2] at h1
              dsimp only at h1
              rcases r2 with e | out
              · have : sl ev ≤ sl ev2 := by omega
                exact this
              · have : sl ev ≤ sl ev2 := by omega
                exact this
    -- builtin_ifF
    · intro ev node
      obtain ⟨k, sr, tk, ep, parts, nm⟩ := node
      cases parts with
      | nil => exact le_refl _
      | cons p0 rest =>
        unfold builtin_ifF
        dsimp only
        rcases hev : evaluateF n ev p0 with ⟨ev1, r1⟩
        have h1 := ih1 ev p0
        rw [hev] at h1
        rcases r1 with e | cond
        · exact h1
        · dsimp only
          split
          · cases hg : (p0 :: rest).get? 1 with
            | some p1 => exact le_trans h1 (ih1 ev1 p1)
            | none => exact h1
          · cases hg : (p0 :: rest).get? 2 with
            | some p2 => exact le_trans h1 (ih1 ev1 p2)
            | none => exact h1
    -- builtin_equalF
    · intro ev node
      obtain ⟨k, sr, tk, ep, parts, nm⟩ := node
      rcases parts with _ | ⟨pa, _ | ⟨pb, _ | ⟨pc, t⟩⟩⟩
      · exact le_refl _
      · exact le_refl _
      · unfold builtin_equalF
        dsimp only
        rcases hev : evaluateF n ev pa with ⟨ev1, r1⟩
        have h1 := ih1 ev pa
        rw [hev] at h1
        rcases r1 with e | a
        · exact h1
        · dsimp only
          rcases hev2 : evaluateF n ev1 pb with ⟨ev2, r2⟩
          have h2 := ih1 ev1 pb
          rw [hev2] at h2
          rcases r2 with e | b
          · exact le_trans h1 h2
          · dsimp only
            split
            · exact le_trans h1 h2
            · exact le_trans h1 h2
      · exact le_refl _
    -- builtin_setF
    · intro ev node
      obtain ⟨k, sr, tk, ep, parts, nm⟩ := node
      rcases parts with _ | ⟨pa, _ | ⟨pb, _ | ⟨pc, t⟩⟩⟩
      · exact le_refl _
      · exact le_refl _
      · unfold builtin_setF
        dsimp only
        cases hsi : single_ident_param ev pa "var name" with
        | error e => exact le_refl _
        | ok var_name =>
          dsimp only
          rcases hev : evaluateF n ev pb with ⟨ev1, r1⟩
          have h1 := ih1 ev pb
          rw [hev] at h1
          rcases r1 with e | value
          · exact h1
          · exact le_trans h1 (le_of_eq (sl_set_variable ev1 var_name value).symm)
      · exact le_refl _
    -- builtin_exportF
    · intro ev node
      obtain ⟨k, sr, tk, ep, parts, nm⟩ := node
      rcases parts with _ | ⟨pa, _ | ⟨pb, t⟩⟩
      · exact le_refl _
      · unfold builtin_exportF
        dsimp only
        cases hsi : single_ident_param ev pa "var name" with
        | error e => exact le_refl _
        | ok nm2 => exact ih12 ev nm2
      · exact le_refl _
    -- exportF
    · intro ev nm
      simp only [exportF]
      split
      · exact le_refl _
      · cases hgl : ev.state.scope_stack.getLast? with
        | none =>
          dsimp only
          rw [hgl]
        | some top =>
          dsimp only
          cases hal : alookup top.vars nm with
          | none =>
            dsimp only
            rw [hgl]
            dsimp only
            cases hmac : alookup top.macros nm with
            | none => exact le_refl _
            | some mac =>
              dsimp only
              rcases hfz : freezeF n ev mac with ⟨ev1, fm⟩
              have h13 := ih13 ev mac
              rw [hfz] at h13
              dsimp only at h13
              have : sl { ev1 with state := { ev1.state with
                  scope_stack := ev1.state.scope_stack.mapIdx
                    (fun i (fr : ScopeFrame) =>
                      if i = ev.state.scope_stack.length - 2 then
                        { fr with macros := ainsert fr.macros nm fm }
                      else fr) } } = sl ev1 := by
                simp [sl, List.length_mapIdx]
              exact le_trans h13 (le_of_eq this.symm)
          | some val =>
            dsimp only
            set evp : Evaluator := { ev with state := { ev.state with
              scope_stack := ev.state.scope_stack.mapIdx (fun i (fr : ScopeFrame) =>
                if i = ev.state.scope_stack.length - 2 then
                  { fr with vars := ainsert fr.vars nm val }
                else fr) } } with hevp
            have hsp : sl evp = sl ev := by
              rw [hevp]; simp [sl, List.length_mapIdx]
            cases hgl2 : evp.state.scope_stack.getLast? with
            | none => exact le_of_eq hsp.symm
            | some top2 =>
              dsimp only
              cases hmac : alookup top2.macros nm with
              | none => exact le_of_eq hsp.symm
              | some mac =>
                dsimp only
                rcases hfz : freezeF n evp mac with ⟨ev1, fm⟩
                have h13 := ih13 evp mac
                rw [hfz] at h13
                dsimp only at h13
                have hm : sl { ev1 with state := { ev1.state with
                    scope_stack := ev1.state.scope_stack.mapIdx
                      (fun i (fr : ScopeFrame) =>
                        if i = ev.state.scope_stack.length - 2 then
                          { fr with macros := ainsert fr.macros nm fm }
                        else fr) } } = sl ev1 := by
                  simp [sl, List.length_mapIdx]
                have : sl ev ≤ sl ev1 := le_trans (le_of_eq hsp.symm) h13
                exact le_trans this (le_of_eq hm.symm)
    -- freezeF
    · intro ev mac
      simp only [freezeF]
      rcases hc : collectF n ev mac.body mac.params [] with ⟨ev1, fr⟩
      have h14 := ih14 ev mac.body mac.params []
      rw [hc] at h14
      exact h14
    -- collectF
    · intro ev node keep fz
      simp only [collectF]
      split
      · split
        · rcases hev : evaluateF n ev node with ⟨ev1, r1⟩
          have h1 := ih1 ev node
          rw [hev] at h1
          rcases r1 with e | value
          · exact le_trans h1 (ih15 ev1 node.parts keep _)
          · exact le_trans h1 (ih15 ev1 node.parts keep _)
        · exact ih15 ev node.parts keep fz
      · exact ih15 ev node.parts keep fz
    -- collectChildrenF
    · intro ev cs keep fz
      cases cs with
      | nil => exact le_refl _
      | cons c rest =>
        simp only [collectChildrenF]
        rcases hc : collectF n ev c keep fz with ⟨ev1, f1⟩
        have h14 := ih14 ev c keep fz
        rw [hc] at h14
        exact le_trans h14 (ih15 ev1 rest keep f1)
    -- builtin_evalF
    · intro ev node
      obtain ⟨k, sr, tk, ep, parts, nm⟩ := node
      cases parts with
      | nil => exact le_refl _
      | cons p0 restParts =>
        unfold builtin_evalF
        dsimp only
        rcases hev : evaluateF n ev p0 with ⟨ev1, r1⟩
        have h1 := ih1 ev p0
        rw [hev] at h1
        rcases r1 with e | raw
        · exact h1
        · dsimp only
          split
          · exact h1
          · exact le_trans h1 (ih3 ev1 _ _)
    -- builtin_hereF
    · intro ev node
      obtain ⟨k, sr, tk, ep, parts, nm⟩ := node
      cases parts with
      | nil => exact le_refl _
      | cons p0 rest =>
        unfold builtin_hereF
        dsimp only
        rcases hbe : builtin_evalF n ev ⟨k, sr, tk, ep, p0 :: rest, nm⟩
          with ⟨ev1, r1⟩
        have h16 := ih16 ev ⟨k, sr, tk, ep, p0 :: rest, nm⟩
        rw [hbe] at h16
        dsimp only at h16
        rcases r1 with e | expansion
        · exact h16
        · dsimp only
          split
          · exact h16
          · exact h16
    -- builtin_capitalizeF
    · intro ev node
      obtain ⟨k, sr, tk, ep, parts, nm⟩ := node
      cases parts with
      | nil => exact le_refl _
      | cons p0 rest =>
        unfold builtin_capitalizeF
        dsimp only
        rcases hev : evaluateF n ev p0 with ⟨ev1, r1⟩
        have h1 := ih1 ev p0
        rw [hev] at h1
        rcases r1 with e | original
        · exact h1
        · dsimp only
          split
          · exact h1
          · exact h1
    -- builtin_decapitalizeF
    · intro ev node
      obtain ⟨k, sr, tk, ep, parts, nm⟩ := node
      cases parts with
      | nil => exact le_refl _
      | cons p0 rest =>
        unfold builtin_decapitalizeF
        dsimp only
        rcases hev : evaluateF n ev p0 with ⟨ev1, r1⟩
        have h1 := ih1 ev p0
        rw [hev] at h1
        rcases r1 with e | original
        · exact h1
        · dsimp only
          split
          · exact h1
          · exact h1
    -- builtin_convert_caseF
    · intro ev node
      obtain ⟨k, sr, tk, ep, parts, nm⟩ := node
      rcases parts with _ | ⟨pa, _ | ⟨pb, _ | ⟨pc, t⟩⟩⟩
      · exact le_refl _
      · exact le_refl _
      · unfold builtin_convert_caseF
        dsimp only
        rcases hev : evaluateF n ev pa with ⟨ev1, r1⟩
        have h1 := ih1 ev pa
        rw [hev] at h1
        rcases r1 with e | original
        · exact h1
        · dsimp only
          split
          · exact h1
          · rcases hev2 : evaluateF n ev1 pb with ⟨ev2, r2⟩
            have h2 := ih1 ev1 pb
            rw [hev2] at h2
            rcases r2 with e | cs
            · exact le_trans h1 h2
            · dsimp only
              split
              · exact le_trans h1 h2
              · exact le_trans h1 h2
      · exact le_refl _
    -- builtin_to_caseF
    · intro ev node st
      obtain ⟨k, sr, tk, ep, parts, nm⟩ := node
      cases parts with
      | nil => exact le_refl _
      | cons p0 rest =>
        unfold builtin_to_caseF
        dsimp only
        rcases hev : evaluateF n ev p0 with ⟨ev1, r1⟩
        have h1 := ih1 ev p0
        rw [hev] at h1
        rcases r1 with e | original
        · exact h1
        · dsimp only
          split
          · exact h1
          · split
            · exact h1
            · exact h1


/-- C9 amended: a failed user-macro call leaves the scope stack at least
one frame deeper than at entry (the pushed frame is not popped on error,
and inner failures may leave further frames). -/
theorem macro_call_error_keeps_scope_frame (fuel : Nat) (ev : Evaluator)
    (node : ASTNode) (name : Bytes) (mac : MacroDefinition) (e : EvalErr)
    (hb : isBuiltin name = false)
    (hm : ev.state.get_macro name = some mac)
    (hr : (evaluateMacroCallF (fuel + 1) ev node name).2 = .error e) :
    sl ev + 1 ≤ sl (evaluateMacroCallF (fuel + 1) ev node name).1 := by
  obtain ⟨s1, s2, s3, s4, s5, s6, s7, s8, s9, s10, s11, s12,
    s13, s14, s15, s16, s17, s18, s19, s20, s21⟩ := scope_mono fuel
  simp only [evaluateMacroCallF, hb, Bool.false_eq_true, if_false, hm] at hr ⊢
  set evp := mac.frozen_args.foldl
    (fun ev kv => { ev with state := ev.state.set_variable kv.1 kv.2 })
    { ev with state := ev.state.push_scope } with hevp
  have hslp : sl evp = sl ev + 1 := by
    rw [hevp, sl_fold_set, sl_push]
  rcases hbp : bindParamsF fuel evp mac.params
      (node.parts.filter (fun p => p.kind == .param)) 0 with ⟨ev1, r1⟩
  rw [hbp] at hr
  have h4 := s4 evp mac.params (node.parts.filter (fun p => p.kind == .param)) 0
  rw [hbp] at h4
  dsimp only at h4
  rcases r1 with e1 | u
  · have : sl ev + 1 ≤ sl ev1 := by omega
    exact this
  · dsimp only at hr ⊢
    rcases hbody : evaluateF fuel ev1 mac.body with ⟨ev2, r2⟩
    rw [hbody] at hr
    have hb1 := s1 ev1 mac.body
    rw [hbody] at hb1
    dsimp only at hb1
    rcases r2 with e2 | result
    · have : sl ev + 1 ≤ sl ev2 := by omega
      exact this
    · dsimp only at hr ⊢
      cases hc : mac.is_python && ev2.state.config.python.enabled with
      | false =>
        rw [hc] at hr
        simp only [Bool.false_eq_true, if_false] at hr
        exact absurd hr (by simp)
      | true =>
        rw [hc] at hr
        simp only [eq_self_iff_true, if_true] at hr
        simp only [eq_self_iff_true, if_true]
        cases hpe : ev2.python_evaluator with
        | none =>
          have : sl ev + 1 ≤ sl ev2 := by omega
          exact this
        | some f =>
          rw [hpe] at hr
          dsimp only at hr
          dsimp only
          rcases hf : f result (currentScopeVars ev2) with ef | rf
          · rw [hf] at hr
            have : sl ev + 1 ≤ sl ev2 := by omega
            exact this
          · rw [hf] at hr
            exact absurd hr (by simp)

/-! ### Claim C9 concrete run (staged like C5) -/

/-- The C9 input: a user macro whose body fails through a nested call. -/
def INc9 : Bytes := str2b "%def(b, %nosuch())%def(a, %b())%a()"

/-- The token stream the lexer produces for `INc9`. -/
def TOKSc9 : List Token :=
  [⟨.macroStart, 0, 0, 5⟩, ⟨.ident, 0, 5, 1⟩, ⟨.comma, 0, 6, 1⟩, ⟨.space, 0, 7, 1⟩,
   ⟨.macroStart, 0, 8, 8⟩, ⟨.closeParen, 0, 16, 1⟩, ⟨.closeParen, 0, 17, 1⟩,
   ⟨.macroStart, 0, 18, 5⟩, ⟨.ident, 0, 23, 1⟩, ⟨.comma, 0, 24, 1⟩, ⟨.space, 0, 25, 1⟩,
   ⟨.macroStart, 0, 26, 3⟩, ⟨.closeParen, 0, 29, 1⟩, ⟨.closeParen, 0, 30, 1⟩,
   ⟨.macroStart, 0, 31, 3⟩, ⟨.closeParen, 0, 34, 1⟩, ⟨.eof, 0, 35, 0⟩]

/-- The parser arena for `TOKSc9`. -/
def NODESc9 : List ParseNode :=
  [⟨.block, 0, ⟨.text, 0, 0, 0⟩, 0, [1, 8, 15, 17]⟩,
   ⟨.macroCall, 0, ⟨.macroStart, 0, 0, 5⟩, 18, [2, 4]⟩,
   ⟨.param, 0, ⟨.text, 0, 0, 0⟩, 7, [3]⟩,
   ⟨.ident, 0, ⟨.ident, 0, 5, 1⟩, 0, []⟩,
   ⟨.param, 0, ⟨.comma, 0, 6, 1⟩, 18, [5, 6]⟩,
   ⟨.space, 0, ⟨.space, 0, 7, 1⟩, 0, []⟩,
   ⟨.macroCall, 0, ⟨.macroStart, 0, 8, 8⟩, 17, [7]⟩,
   ⟨.param, 0, ⟨.text, 0, 8, 0⟩, 17, []⟩,
   ⟨.macroCall, 0, ⟨.macroStart, 0, 18, 5⟩, 31, [9, 11]⟩,
   ⟨.param, 0, ⟨.text, 0, 18, 0⟩, 25, [10]⟩,
   ⟨.ident, 0, ⟨.ident, 0, 23, 1⟩, 0, []⟩,
   ⟨.param, 0, ⟨.comma, 0, 24, 1⟩, 31, [12, 13]⟩,
   ⟨.space, 0, ⟨.space, 0, 25, 1⟩, 0, []⟩,
   ⟨.macroCall, 0, ⟨.macroStart, 0, 26, 3⟩, 30, [14]⟩,
   ⟨.param, 0, ⟨.text, 0, 26, 0⟩, 30, []⟩,
   ⟨.macroCall, 0, ⟨.macroStart, 0, 31, 3⟩, 35, [16]⟩,
   ⟨.param, 0, ⟨.text, 0, 31, 0⟩, 35, []⟩,
   ⟨.text, 0, ⟨.eof, 0, 35, 0⟩, 0, []⟩]

/-- The cleaned AST built from `NODESc9`. -/
def ASTc9 : ASTNode :=
  ⟨.block, 0, ⟨.text, 0, 0, 0⟩, 0,
   [⟨.macroCall, 0, ⟨.macroStart, 0, 0, 5⟩, 18,
     [⟨.param, 0, ⟨.text, 0, 0, 0⟩, 7, [⟨.ident, 0, ⟨.ident, 0, 5, 1⟩, 0, [], none⟩], none⟩,
      ⟨.param, 0, ⟨.comma, 0, 6, 1⟩, 18,
       [⟨.macroCall, 0, ⟨.macroStart, 0, 8, 8⟩, 17,
         [⟨.param, 0, ⟨.text, 0, 8, 0⟩, 17, [], none⟩], none⟩], none⟩], none⟩,
    ⟨.macroCall, 0, ⟨.macroStart, 0, 18, 5⟩, 31,
     [⟨.param, 0, ⟨.text, 0, 18, 0⟩, 25, [⟨.ident, 0, ⟨.ident, 0, 23, 1⟩, 0, [], none⟩], none⟩,
      ⟨.param, 0, ⟨.comma, 0, 24, 1⟩, 31,
       [⟨.macroCall, 0, ⟨.macroStart, 0, 26, 3⟩, 30,
         [⟨.param, 0, ⟨.text, 0, 26, 0⟩, 30, [], none⟩], none⟩], none⟩], none⟩,
    ⟨.macroCall, 0, ⟨.macroStart, 0, 31, 3⟩, 35,
     [⟨.param, 0, ⟨.text, 0, 31, 0⟩, 35, [], none⟩], none⟩,
    ⟨.text, 0, ⟨.eof, 0, 35, 0⟩, 0, [], none⟩], none⟩

/-- `ev0c5` after `parse_string` registers the C9 source text. -/
def ev2c9 : Evaluator :=
  { ev0c5 with state := { ev0c5.state with
      source_manager := (ev0c5.state.source_manager.add_source_bytes INc9 p0c5).1 } }

theorem c9_lex_tokens : (lexRun INc9 37 0).tokens = TOKSc9 := by decide

theorem c9_lex_errors : (lexRun INc9 37 0).errors = [] := by decide

theorem c9_parse : parserParse TOKSc9 = NODESc9 := by decide

theorem c9_build : build_ast NODESc9 = .ok ASTc9 := rfl

set_option maxHeartbeats 1000000 in
theorem c9_lpc : lex_parse_content INc9 37 0 = .ok ASTc9 := by
  unfold lex_parse_content
  show (if (!(lexRun INc9 37 0).errors.isEmpty) = true
        then Except.error ("Lexer errors: " ++ String.intercalate "; " (lexRun INc9 37 0).errors)
        else buildStage (lexRun INc9 37 0).tokens) = .ok ASTc9
  rw [c9_lex_errors, c9_lex_tokens, if_neg (by decide)]
  unfold buildStage
  rw [c9_parse, c9_build]

set_option maxHeartbeats 1000000 in
theorem c9_psm : parse_string_m ev0c5 INc9 p0c5 = (ev2c9, .ok ASTc9) := by
  have h1 : parse_string_m ev0c5 INc9 p0c5
      = lexParseStage ev2c9 (lex_parse_content INc9 37 0) := rfl
  rw [h1, c9_lpc]
  rfl

set_option maxHeartbeats 2000000 in
theorem c9_eval_err : (evaluateF 200 ev2c9 ASTc9).2
    = .error (.undefinedMacro (str2b "nosuch")) := by decide

set_option maxHeartbeats 2000000 in
theorem c9_eval_len :
    (evaluateF 200 ev2c9 ASTc9).1.state.scope_stack.length = 3 := by decide

/-- Counterexample to C9 as stated ("holds one more frame"): evaluating
`INc9` starts from one scope frame; the single failed top-level call
`a()` (whose body fails through the nested `b()` call) leaves THREE
frames — each nested failed call leaks its own frame, so the increase
is not exactly one. -/
theorem macro_call_error_scope_counterexample :
    ((Evaluator.new EvalConfig.default []).state.scope_stack.length = 1)
    ∧ ((process_string 200 (Evaluator.new EvalConfig.default []) INc9 none).2
        = .error (.undefinedMacro (str2b "nosuch")))
    ∧ (((process_string 200 (Evaluator.new EvalConfig.default []) INc9 none).1).state.scope_stack.length = 3) := by
  have h1 : process_string 200 (Evaluator.new EvalConfig.default []) INc9 none
      = evalStage none 200 (parse_string_m ev0c5 INc9 p0c5) := rfl
  refine ⟨rfl, ?_, ?_⟩
  · rw [h1, c9_psm]
    exact c9_eval_err
  · rw [h1, c9_psm]
    exact c9_eval_len

/-- The body AST of the witness macro: the parse of `%nosuch()`. -/
def bodyW : ASTNode :=
  ⟨.block, 0, ⟨.text, 0, 0, 0⟩, 0,
   [⟨.macroCall, 0, ⟨.macroStart, 0, 0, 8⟩, 9,
     [⟨.param, 0, ⟨.text, 0, 0, 0⟩, 9, [], none⟩], none⟩,
    ⟨.text, 0, ⟨.eof, 0, 9, 0⟩, 0, [], none⟩], none⟩

/-- The witness macro `m`, whose body calls the undefined `nosuch`. -/
def macW : MacroDefinition := ⟨str2b "m", [], bodyW, false, []⟩

/-- A one-frame evaluator state with `m` defined and its body source
registered. -/
def evW : Evaluator :=
  { state := { EvaluatorState.new EvalConfig.default with
      scope_stack := [⟨[], [(str2b "m", macW)]⟩]
      source_manager := ⟨[str2b "%nosuch()"], [str2b "w"], [(str2b "w", 0)]⟩ }
    fs := []
    python_evaluator := none }

/-- A bare call node for `m` (the name is passed explicitly). -/
def nodeW : ASTNode := ⟨.macroCall, 0, ⟨.text, 0, 0, 0⟩, 0, [], none⟩

/-- Witness for the amended C9 at a concrete failing call. -/
theorem macro_call_error_keeps_scope_frame_witness :
    (isBuiltin (str2b "m") = false)
    ∧ (evW.state.get_macro (str2b "m") = some macW)
    ∧ ((evaluateMacroCallF 50 evW nodeW (str2b "m")).2
        = .error (.undefinedMacro (str2b "nosuch")))
    ∧ (sl evW + 1 ≤ sl (evaluateMacroCallF 50 evW nodeW (str2b "m")).1) :=
  ⟨by decide, rfl, by decide,
   macro_call_error_keeps_scope_frame 49 evW nodeW (str2b "m") macW
     (.undefinedMacro (str2b "nosuch")) (by decide) rfl (by decide)⟩


/-! ### Claim C8: comment-only inputs -/

/-- One comment item of a comment-only input (default special char `%`):
`%//body\n`, `%--body\n`, `%#body\n`, or `%/*body%*/`. -/
inductive CItem
  | lineSlash (body : Bytes)
  | lineDash (body : Bytes)
  | lineHash (body : Bytes)
  | blockC (body : Bytes)

/-- The byte encoding of one comment item. -/
def encItem : CItem → Bytes
  | .lineSlash body => str2b "%//" ++ body ++ [10]
  | .lineDash body => str2b "%--" ++ body ++ [10]
  | .lineHash body => str2b "%#" ++ body ++ [10]
  | .blockC body => str2b "%/*" ++ body ++ str2b "%*/"

/-- A comment-only input text. -/
def encItems (items : List CItem) : Bytes := (items.map encItem).join

/-- Well-formedness: a line-comment body has no newline; a block-comment
body is ASCII without the special char (so the comment scan cannot
misalign or stop early). -/
def itemOk : CItem → Prop
  | .lineSlash body => ∀ b ∈ body, b ≠ 10
  | .lineDash body => ∀ b ∈ body, b ≠ 10
  | .lineHash body => ∀ b ∈ body, b ≠ 10
  | .blockC body => ∀ b ∈ body, b < 128 ∧ b ≠ 37

theorem readUntilNl_append (body : Bytes) (tail : Bytes)
    (hb : ∀ b ∈ body, b ≠ 10) :
    readUntilNl (body ++ 10 :: tail) = body.length + 1 := by
  induction body with
  | nil => simp [readUntilNl]
  | cons b rest ih =>
    have hb0 : b ≠ 10 := hb b (List.mem_cons_self _ _)
    have hrest : ∀ x ∈ rest, x ≠ 10 := fun x hx => hb x (List.mem_cons_of_mem _ hx)
    simp only [List.cons_append, readUntilNl, if_neg hb0, List.append_eq]
    rw [ih hrest]
    simp only [List.length_cons]
    omega

theorem commentScanF_exits (body : Bytes) (hb : ∀ b ∈ body, b < 128 ∧ b ≠ 37) :
    ∀ (fuel : Nat), body.length < fuel → ∀ (tail : Bytes),
    commentScanF [37, 47, 42] [37, 42, 47] fuel (body ++ 37 :: 42 :: 47 :: tail)
      = (body.length, some false) := by
  induction body with
  | nil =>
    intro fuel hf tail
    obtain ⟨g, rfl⟩ : ∃ g, fuel = g + 1 := ⟨fuel - 1, by omega⟩
    simp [commentScanF, List.isPrefixOf]
  | cons b rest ih =>
    intro fuel hf tail
    obtain ⟨g, rfl⟩ : ∃ g, fuel = g + 1 := ⟨fuel - 1, by omega⟩
    have hb0 := hb b (List.mem_cons_self _ _)
    have hrest : ∀ x ∈ rest, x < 128 ∧ x ≠ 37 :=
      fun x hx => hb x (List.mem_cons_of_mem _ hx)
    have hg : rest.length < g := by
      simp only [List.length_cons] at hf; omega
    have hne : (b :: (rest ++ 37 :: 42 :: 47 :: tail)) ≠ [] := by simp
    have hbeq : ((37 : Nat) == b) = false :=
      beq_eq_false_iff_ne.mpr (fun h => hb0.2 h.symm)
    have hop : [37, 47, 42].isPrefixOf (b :: (rest ++ 37 :: 42 :: 47 :: tail))
        = false := by
      simp only [List.isPrefixOf, hbeq, Bool.false_and]
    have hcl : [37, 42, 47].isPrefixOf (b :: (rest ++ 37 :: 42 :: 47 :: tail))
        = false := by
      simp only [List.isPrefixOf, hbeq, Bool.false_and]
    have hdec : decodeChar (b :: (rest ++ 37 :: 42 :: 47 :: tail)) = some (b, 1) := by
      simp only [decodeChar]
      rw [if_pos (by omega : b < 0x80)]
    simp only [List.cons_append, commentScanF, if_neg hne, hop, hcl,
      Bool.false_eq_true, if_false, hdec]
    simp only [List.drop_succ_cons, List.drop_zero]
    rw [ih hrest g hg tail]
    simp only [List.length_cons]
    rw [Nat.add_comm 1 rest.length]

/-- The tokens the lexer emits for a comment-item list (`src` 0), with
`base` the byte offset of the first item. -/
def itemToks : Nat → List CItem → List Token
  | _, [] => []
  | base, .lineSlash body :: rest =>
    ⟨.lineComment, 0, base, body.length + 4⟩ :: itemToks (base + (body.length + 4)) rest
  | base, .lineDash body :: rest =>
    ⟨.lineComment, 0, base, body.length + 4⟩ :: itemToks (base + (body.length + 4)) rest
  | base, .lineHash body :: rest =>
    ⟨.lineComment, 0, base, body.length + 3⟩ :: itemToks (base + (body.length + 3)) rest
  | base, .blockC body :: rest =>
    ⟨.commentOpen, 0, base, 3⟩ ::
      ((if body.length = 0 then [] else [⟨.text, 0, base + 3, body.length⟩]) ++
       (⟨.commentClose, 0, base + 3 + body.length, 3⟩ ::
        itemToks (base + (body.length + 6)) rest))

/-- Fuel the lexer needs per item. -/
def lexCost : List CItem → Nat
  | [] => 0
  | .blockC _ :: rest => 2 + lexCost rest
  | _ :: rest => 1 + lexCost rest


theorem emit_token_pos (st : LexSt) (pos length : Nat) (kind : TokenKind)
    (h : length ≠ 0) : emit_token st pos length kind
      = { st with tokens := st.tokens ++ [⟨kind, st.src, pos, length⟩] } := by
  unfold emit_token
  rw [if_neg]
  simp [h]

theorem lexGo_eof (f : Nat) (inp : Bytes) (pos0 : Nat) (toks0 : List Token)
    (errs0 : List String) (hdrop : inp.drop pos0 = []) :
    lexGo (f + 1) ⟨inp, pos0, 0, 37, toks0, errs0⟩ [.block] pos0
      = lexGo f ⟨inp, pos0, 0, 37, toks0, errs0⟩ [] pos0 := by
  simp only [lexGo, hdrop]
  rw [show decodeChar [] = none from rfl]
  rw [if_neg (lt_irrefl pos0)]

theorem lexGo_emit_eof (f : Nat) (st : LexSt) (ts : Nat) :
    lexGo (f + 1) st [] ts
      = { st with tokens := st.tokens ++ [⟨.eof, st.src, st.pos, 0⟩] } := by
  simp only [lexGo]
  unfold emit_token
  simp

set_option maxHeartbeats 1000000 in
/-- The lexer turns a comment-only input into exactly one `LineComment`
token per line item and `CommentOpen`/`Text`/`CommentClose` per block
item, plus the final EOF token, with no errors. -/
theorem lexItems (items : List CItem) (hok : ∀ i ∈ items, itemOk i) :
    ∀ (fuel : Nat) (inp : Bytes) (pos0 : Nat) (toks0 : List Token)
      (errs0 : List String),
    inp.drop pos0 = encItems items →
    lexCost items + 2 ≤ fuel →
    lexGo fuel ⟨inp, pos0, 0, 37, toks0, errs0⟩ [.block] pos0 =
      ⟨inp, pos0 + (encItems items).length, 0, 37,
       toks0 ++ itemToks pos0 items
         ++ [⟨.eof, 0, pos0 + (encItems items).length, 0⟩],
       errs0⟩ := by
  induction items with
  | nil =>
    intro fuel inp pos0 toks0 errs0 hdrop hfuel
    have henc : encItems ([] : List CItem) = [] := rfl
    rw [henc] at hdrop
    obtain ⟨f, rfl⟩ : ∃ f, fuel = f + 1 + 1 := ⟨fuel - 2, by omega⟩
    rw [lexGo_eof (f + 1) inp pos0 toks0 errs0 hdrop]
    rw [lexGo_emit_eof f]
    simp [henc, itemToks]
  | cons item rest ih =>
    intro fuel inp pos0 toks0 errs0 hdrop hfuel
    have hokr : ∀ i ∈ rest, itemOk i := fun i hi => hok i (List.mem_cons_of_mem _ hi)
    have hoki : itemOk item := hok item (List.mem_cons_self _ _)
    have hdropn : ∀ (n : Nat), inp.drop (pos0 + n) = (inp.drop pos0).drop n := by
      intro n
      rw [List.drop_drop, Nat.add_comm]
    have hencc : encItems (item :: rest) = encItem item ++ encItems rest := by
      simp [encItems]
    rw [hencc] at hdrop
    cases item with
    | lineSlash body =>
      have hbody : ∀ b ∈ body, b ≠ 10 := hoki
      obtain ⟨f, rfl⟩ : ∃ f, fuel = f + 1 := ⟨fuel - 1, by omega⟩
      have hfr : lexCost rest + 2 ≤ f := by
        simp only [lexCost] at hfuel ⊢; omega
      have hdrop' : inp.drop pos0 = 37 :: 47 :: 47 :: (body ++ 10 :: encItems rest) := by
        rw [hdrop]; simp [encItem, str2b]
      have hd0 : decodeChar (inp.drop pos0) = some (37, 1) := by
        rw [hdrop']; simp only [decodeChar]; rw [if_pos (by omega : (37:Nat) < 0x80)]
      have hd1 : decodeChar (inp.drop (pos0 + 1)) = some (47, 1) := by
        rw [hdropn, hdrop']
        simp only [List.drop_succ_cons, List.drop_zero]
        simp only [decodeChar]; rw [if_pos (by omega : (47:Nat) < 0x80)]
      have hd2 : decodeChar (inp.drop (pos0 + 1 + 1)) = some (47, 1) := by
        rw [show pos0 + 1 + 1 = pos0 + 2 from rfl, hdropn, hdrop']
        simp only [List.drop_succ_cons, List.drop_zero]
        simp only [decodeChar]; rw [if_pos (by omega : (47:Nat) < 0x80)]
      have hrd : readUntilNl (inp.drop (pos0 + 1 + 1 + 1)) = body.length + 1 := by
        rw [show pos0 + 1 + 1 + 1 = pos0 + 3 from rfl, hdropn, hdrop']
        simp only [List.drop_succ_cons, List.drop_zero]
        exact readUntilNl_append body _ hbody
      have hdroprest : inp.drop (pos0 + (body.length + 4)) = encItems rest := by
        rw [hdropn, hdrop']
        rw [show (37 : Nat) :: 47 :: 47 :: (body ++ 10 :: encItems rest)
            = (37 :: 47 :: 47 :: (body ++ [10])) ++ encItems rest by simp]
        rw [show body.length + 4 = (37 :: 47 :: 47 :: (body ++ [10])).length by
          simp]
        exact List.drop_left _ _
      simp only [lexGo, hd0]
      rw [if_pos trivial]
      rw [if_neg (lt_irrefl pos0)]
      dsimp only
      rw [hd1]
      dsimp only
      rw [if_neg (by decide : ¬((47:Nat) = 40)), if_neg (by decide : ¬((47:Nat) = 123)),
        if_neg (by decide : ¬((47:Nat) = 125)), if_pos (rfl : (47:Nat) = 47)]
      rw [hd2]
      dsimp only
      rw [if_pos (rfl : (47:Nat) = 47)]
      rw [hrd]
      rw [show pos0 + 1 + 1 + 1 + (body.length + 1) = pos0 + (body.length + 4) by omega]
      rw [emit_token_pos _ _ _ _ (by omega)]
      dsimp only
      rw [show pos0 + (body.length + 4) - pos0 = body.length + 4 by omega]
      have hih := ih hokr f inp (pos0 + (body.length + 4))
        (toks0 ++ [(⟨TokenKind.lineComment, 0, pos0, body.length + 4⟩ : Token)])
        errs0 hdroprest hfr
      rw [hih]
      have hl4 : (encItem (CItem.lineSlash body)).length = body.length + 4 := by
        simp [encItem, str2b]
      simp only [hencc, itemToks, List.length_append, hl4, LexSt.mk.injEq]
      refine ⟨trivial, by omega, trivial, trivial, ?_, trivial⟩
      simp only [List.append_assoc, List.cons_append, List.nil_append]
      rw [Nat.add_assoc]
    | lineDash body =>
      have hbody : ∀ b ∈ body, b ≠ 10 := hoki
      obtain ⟨f, rfl⟩ : ∃ f, fuel = f + 1 := ⟨fuel - 1, by omega⟩
      have hfr : lexCost rest + 2 ≤ f := by
        simp only [lexCost] at hfuel ⊢; omega
      have hdrop' : inp.drop pos0 = 37 :: 45 :: 45 :: (body ++ 10 :: encItems rest) := by
        rw [hdrop]; simp [encItem, str2b]
      have hd0 : decodeChar (inp.drop pos0) = some (37, 1) := by
        rw [hdrop']; simp only [decodeChar]; rw [if_pos (by omega : (37:Nat) < 0x80)]
      have hd1 : decodeChar (inp.drop (pos0 + 1)) = some (45, 1) := by
        rw [hdropn, hdrop']
        simp only [List.drop_succ_cons, List.drop_zero]
        simp only [decodeChar]; rw [if_pos (by omega : (45:Nat) < 0x80)]
      have hd2 : decodeChar (inp.drop (pos0 + 1 + 1)) = some (45, 1) := by
        rw [show pos0 + 1 + 1 = pos0 + 2 from rfl, hdropn, hdrop']
        simp only [List.drop_succ_cons, List.drop_zero]
        simp only [decodeChar]; rw [if_pos (by omega : (45:Nat) < 0x80)]
      have hrd : readUntilNl (inp.drop (pos0 + 1 + 1 + 1)) = body.length + 1 := by
        rw [show pos0 + 1 + 1 + 1 = pos0 + 3 from rfl, hdropn, hdrop']
        simp only [List.drop_succ_cons, List.drop_zero]
        exact readUntilNl_append body _ hbody
      have hdroprest : inp.drop (pos0 + (body.length + 4)) = encItems rest := by
        rw [hdropn, hdrop']
        rw [show (37 : Nat) :: 45 :: 45 :: (body ++ 10 :: encItems rest)
            = (37 :: 45 :: 45 :: (body ++ [10])) ++ encItems rest by simp]
        rw [show body.length + 4 = (37 :: 45 :: 45 :: (body ++ [10])).length by
          simp]
        exact List.drop_left _ _
      simp only [lexGo, hd0]
      rw [if_pos trivial]
      rw [if_neg (lt_irrefl pos0)]
      dsimp only
      rw [hd1]
      dsimp only
      rw [if_neg (by decide : ¬((45:Nat) = 40)), if_neg (by decide : ¬((45:Nat) = 123)),
        if_neg (by decide : ¬((45:Nat) = 125)), if_neg (by decide : ¬((45:Nat) = 47)),
        if_pos (rfl : (45:Nat) = 45)]
      rw [hd2]
      dsimp only
      rw [if_pos (rfl : (45:Nat) = 45)]
      rw [hrd]
      rw [show pos0 + 1 + 1 + 1 + (body.length + 1) = pos0 + (body.length + 4) by omega]
      rw [emit_token_pos _ _ _ _ (by omega)]
      dsimp only
      rw [show pos0 + (body.length + 4) - pos0 = body.length + 4 by omega]
      have hih := ih hokr f inp (pos0 + (body.length + 4))
        (toks0 ++ [(⟨TokenKind.lineComment, 0, pos0, body.length + 4⟩ : Token)])
        errs0 hdroprest hfr
      rw [hih]
      have hl4 : (encItem (CItem.lineDash body)).length = body.length + 4 := by
        simp [encItem, str2b]
      simp only [hencc, itemToks, List.length_append, hl4, LexSt.mk.injEq]
      refine ⟨trivial, by omega, trivial, trivial, ?_, trivial⟩
      simp only [List.append_assoc, List.cons_append, List.nil_append]
      rw [Nat.add_assoc]
    | lineHash body =>
      have hbody : ∀ b ∈ body, b ≠ 10 := hoki
      obtain ⟨f, rfl⟩ : ∃ f, fuel = f + 1 := ⟨fuel - 1, by omega⟩
      have hfr : lexCost rest + 2 ≤ f := by
        simp only [lexCost] at hfuel ⊢; omega
      have hdrop' : inp.drop pos0 = 37 :: 35 :: (body ++ 10 :: encItems rest) := by
        rw [hdrop]; simp [encItem, str2b]
      have hd0 : decodeChar (inp.drop pos0) = some (37, 1) := by
        rw [hdrop']; simp only [decodeChar]; rw [if_pos (by omega : (37:Nat) < 0x80)]
      have hd1 : decodeChar (inp.drop (pos0 + 1)) = some (35, 1) := by
        rw [hdropn, hdrop']
        simp only [List.drop_succ_cons, List.drop_zero]
        simp only [decodeChar]; rw [if_pos (by omega : (35:Nat) < 0x80)]
      have hrd : readUntilNl (inp.drop (pos0 + 1 + 1)) = body.length + 1 := by
        rw [show pos0 + 1 + 1 = pos0 + 2 from rfl, hdropn, hdrop']
        simp only [List.drop_succ_cons, List.drop_zero]
        exact readUntilNl_append body _ hbody
      have hdroprest : inp.drop (pos0 + (body.length + 3)) = encItems rest := by
        rw [hdropn, hdrop']
        rw [show (37 : Nat) :: 35 :: (body ++ 10 :: encItems rest)
            = (37 :: 35 :: (body ++ [10])) ++ encItems rest by simp]
        rw [show body.length + 3 = (37 :: 35 :: (body ++ [10])).length by
          simp]
        exact List.drop_left _ _
      simp only [lexGo, hd0]
      rw [if_pos trivial]
      rw [if_neg (lt_irrefl pos0)]
      dsimp only
      rw [hd1]
      dsimp only
      rw [if_neg (by decide : ¬((35:Nat) = 40)), if_neg (by decide : ¬((35:Nat) = 123)),
        if_neg (by decide : ¬((35:Nat) = 125)), if_neg (by decide : ¬((35:Nat) = 47)),
        if_neg (by decide : ¬((35:Nat) = 45)), if_pos (rfl : (35:Nat) = 35)]
      rw [hrd]
      rw [show pos0 + 1 + 1 + (body.length + 1) = pos0 + (body.length + 3) by omega]
      rw [emit_token_pos _ _ _ _ (by omega)]
      dsimp only
      rw [show pos0 + (body.length + 3) - pos0 = body.length + 3 by omega]
      have hih := ih hokr f inp (pos0 + (body.length + 3))
        (toks0 ++ [(⟨TokenKind.lineComment, 0, pos0, body.length + 3⟩ : Token)])
        errs0 hdroprest hfr
      rw [hih]
      have hl3 : (encItem (CItem.lineHash body)).length = body.length + 3 := by
        simp [encItem, str2b]
      simp only [hencc, itemToks, List.length_append, hl3, LexSt.mk.injEq]
      refine ⟨trivial, by omega, trivial, trivial, ?_, trivial⟩
      simp only [List.append_assoc, List.cons_append, List.nil_append]
      rw [Nat.add_assoc]
    | blockC body =>
      have hbody : ∀ b ∈ body, b < 128 ∧ b ≠ 37 := hoki
      obtain ⟨f, rfl⟩ : ∃ f, fuel = f + 1 := ⟨fuel - 1, by omega⟩
      have hf1 : lexCost rest + 3 ≤ f := by
        simp only [lexCost] at hfuel ⊢; omega
      have hdrop' : inp.drop pos0
          = 37 :: 47 :: 42 :: (body ++ 37 :: 42 :: 47 :: encItems rest) := by
        rw [hdrop]; simp [encItem, str2b]
      have hd0 : decodeChar (inp.drop pos0) = some (37, 1) := by
        rw [hdrop']; simp only [decodeChar]; rw [if_pos (by omega : (37:Nat) < 0x80)]
      have hd1 : decodeChar (inp.drop (pos0 + 1)) = some (47, 1) := by
        rw [hdropn, hdrop']
        simp only [List.drop_succ_cons, List.drop_zero]
        simp only [decodeChar]; rw [if_pos (by omega : (47:Nat) < 0x80)]
      have hd2 : decodeChar (inp.drop (pos0 + 1 + 1)) = some (42, 1) := by
        rw [show pos0 + 1 + 1 = pos0 + 2 from rfl, hdropn, hdrop']
        simp only [List.drop_succ_cons, List.drop_zero]
        simp only [decodeChar]; rw [if_pos (by omega : (42:Nat) < 0x80)]
      have hdropc : inp.drop (pos0 + 3) = body ++ 37 :: 42 :: 47 :: encItems rest := by
        rw [hdropn, hdrop']
        simp only [List.drop_succ_cons, List.drop_zero]
      have hlenb : body.length < inp.length := by
        have hc := congrArg List.length hdrop'
        simp only [List.length_drop, List.length_cons, List.length_append] at hc
        omega
      have hdroprest : inp.drop (pos0 + (body.length + 6)) = encItems rest := by
        rw [hdropn, hdrop']
        rw [show (37 : Nat) :: 47 :: 42 :: (body ++ 37 :: 42 :: 47 :: encItems rest)
            = (37 :: 47 :: 42 :: (body ++ [37, 42, 47])) ++ encItems rest by simp]
        rw [show body.length + 6 = (37 :: 47 :: 42 :: (body ++ [37, 42, 47])).length by
          simp]
        exact List.drop_left _ _
      simp only [lexGo, hd0]
      rw [if_pos trivial]
      rw [if_neg (lt_irrefl pos0)]
      dsimp only
      rw [hd1]
      dsimp only
      rw [if_neg (by decide : ¬((47:Nat) = 40)), if_neg (by decide : ¬((47:Nat) = 123)),
        if_neg (by decide : ¬((47:Nat) = 125)), if_pos (rfl : (47:Nat) = 47)]
      rw [hd2]
      dsimp only
      rw [if_neg (by decide : ¬((42:Nat) = 47)), if_pos (rfl : (42:Nat) = 42)]
      rw [show pos0 + 1 + 1 + 1 = pos0 + 3 by omega]
      rw [show pos0 + 3 - pos0 = 3 by omega]
      rw [emit_token_pos _ _ _ _ (by decide : (3:Nat) ≠ 0)]
      dsimp only
      obtain ⟨g, rfl⟩ : ∃ g, f = g + 1 := ⟨f - 1, by omega⟩
      have hfr : lexCost rest + 2 ≤ g := by omega
      simp only [lexGo]
      rw [show utf8Encode (37:Nat) ++ str2b "/*" = ([37, 47, 42] : Bytes) from rfl,
        show utf8Encode (37:Nat) ++ str2b "*/" = ([37, 42, 47] : Bytes) from rfl]
      have hscan : commentScanF [37, 47, 42] [37, 42, 47] inp.length
          (inp.drop (pos0 + 3)) = (body.length, some false) := by
        rw [hdropc]
        exact commentScanF_exits body hbody inp.length hlenb _
      rw [hscan]
      dsimp only
      rcases Nat.eq_zero_or_pos body.length with hb0 | hbpos
      · rw [if_neg (by omega : ¬(pos0 + 3 + body.length > pos0 + 3))]
        rw [show ([37, 42, 47] : Bytes).length = 3 from rfl]
        rw [show pos0 + 3 + body.length + 3 - (pos0 + 3 + body.length) = 3 by omega]
        rw [emit_token_pos _ _ _ _ (by decide : (3:Nat) ≠ 0)]
        dsimp only
        rw [show pos0 + 3 + body.length + 3 = pos0 + (body.length + 6) by omega]
        have hih := ih hokr g inp (pos0 + (body.length + 6))
          (toks0 ++ [(⟨TokenKind.commentOpen, 0, pos0, 3⟩ : Token)]
            ++ [(⟨TokenKind.commentClose, 0, pos0 + 3 + body.length, 3⟩ : Token)])
          errs0 hdroprest hfr
        rw [hih]
        have hl6 : (encItem (CItem.blockC body)).length = body.length + 6 := by
          simp [encItem, str2b]
        simp only [hencc, itemToks, List.length_append, hl6, LexSt.mk.injEq,
          if_pos hb0]
        refine ⟨trivial, by omega, trivial, trivial, ?_, trivial⟩
        simp only [List.append_assoc, List.cons_append, List.nil_append]
        simp only [Nat.add_assoc]
      · rw [if_pos (by omega : pos0 + 3 + body.length > pos0 + 3)]
        rw [show pos0 + 3 + body.length - (pos0 + 3) = body.length by omega]
        rw [emit_token_pos _ _ _ _ (by omega : body.length ≠ 0)]
        dsimp only
        rw [show ([37, 42, 47] : Bytes).length = 3 from rfl]
        rw [show pos0 + 3 + body.length + 3 - (pos0 + 3 + body.length) = 3 by omega]
        rw [emit_token_pos _ _ _ _ (by decide : (3:Nat) ≠ 0)]
        dsimp only
        rw [show pos0 + 3 + body.length + 3 = pos0 + (body.length + 6) by omega]
        have hih := ih hokr g inp (pos0 + (body.length + 6))
          (toks0 ++ [(⟨TokenKind.commentOpen, 0, pos0, 3⟩ : Token)]
            ++ [(⟨TokenKind.text, 0, pos0 + 3, body.length⟩ : Token)]
            ++ [(⟨TokenKind.commentClose, 0, pos0 + 3 + body.length, 3⟩ : Token)])
          errs0 hdroprest hfr
        rw [hih]
        have hl6 : (encItem (CItem.blockC body)).length = body.length + 6 := by
          simp [encItem, str2b]
        simp only [hencc, itemToks, List.length_append, hl6, LexSt.mk.injEq,
          if_neg (by omega : ¬(body.length = 0))]
        refine ⟨trivial, by omega, trivial, trivial, ?_, trivial⟩
        simp only [List.append_assoc, List.cons_append, List.nil_append]
        simp only [Nat.add_assoc]

theorem mapIdx_id_of {α : Type} (l : List α) :
    ∀ (f : Nat → α → α), (∀ i a, f i a = a) → l.mapIdx f = l := by
  induction l with
  | nil => intro f h; rfl
  | cons a as ih =>
    intro f h
    rw [List.mapIdx_cons, h 0 a, ih (fun i => f (i + 1)) (fun i a => h (i + 1) a)]

theorem mapIdx_update_zero {α : Type} (r : α) (tl : List α) (g : α → α) :
    (r :: tl).mapIdx (fun i a => if i = 0 then g a else a) = g r :: tl := by
  rw [List.mapIdx_cons]
  rw [mapIdx_id_of tl _ (fun i a => by simp)]
  simp

theorem mapIdx_update_last {α : Type} (xs : List α) (x : α) (g : α → α) :
    (xs ++ [x]).mapIdx (fun i a => if i = xs.length then g a else a)
      = xs ++ [g x] := by
  induction xs with
  | nil => simp [List.mapIdx_cons]
  | cons a as iha =>
    rw [List.cons_append, List.mapIdx_cons]
    simp only [List.length_cons]
    rw [if_neg (by omega : ¬(0 = as.length + 1))]
    rw [List.cons_append]
    congr 1
    have hfe : (fun i (a : α) => if i + 1 = as.length + 1 then g a else a)
        = (fun i (a : α) => if i = as.length then g a else a) := by
      funext i a
      by_cases h : i = as.length
      · rw [if_pos (by omega), if_pos h]
      · rw [if_neg (by omega), if_neg h]
    rw [hfe, iha]

theorem addChild_root (r : ParseNode) (tl : List ParseNode) (c : Nat) :
    addChild (r :: tl) 0 c = { r with parts := r.parts ++ [c] } :: tl := by
  unfold addChild
  exact mapIdx_update_zero r tl _

theorem closeNode_last (l : List ParseNode) (x : ParseNode) (st : PState)
    (stk : List (PState × Nat)) (t : Token) :
    closeNode (l ++ [x]) ((st, l.length) :: stk) t
      = l ++ [{ x with end_pos := t.pos + t.length }] := by
  unfold closeNode
  exact mapIdx_update_last l x _

/-- The parser arena nodes a comment-item list contributes (one node per
item; block-comment text is ignored inside the comment state). -/
def itemNodes : Nat → List CItem → List ParseNode
  | _, [] => []
  | base, .lineSlash body :: rest =>
    ⟨.lineComment, 0, ⟨.lineComment, 0, base, body.length + 4⟩, 0, []⟩ ::
      itemNodes (base + (body.length + 4)) rest
  | base, .lineDash body :: rest =>
    ⟨.lineComment, 0, ⟨.lineComment, 0, base, body.length + 4⟩, 0, []⟩ ::
      itemNodes (base + (body.length + 4)) rest
  | base, .lineHash body :: rest =>
    ⟨.lineComment, 0, ⟨.lineComment, 0, base, body.length + 3⟩, 0, []⟩ ::
      itemNodes (base + (body.length + 3)) rest
  | base, .blockC body :: rest =>
    ⟨.blockComment, 0, ⟨.commentOpen, 0, base, 3⟩, base + (body.length + 6), []⟩ ::
      itemNodes (base + (body.length + 6)) rest

theorem itemNodes_length (items : List CItem) :
    ∀ base, (itemNodes base items).length = items.length := by
  induction items with
  | nil => intro base; rfl
  | cons i rest ih =>
    intro base
    cases i <;> simp only [itemNodes, List.length_cons, ih]

theorem itemNodes_kinds (items : List CItem) :
    ∀ base nd, nd ∈ itemNodes base items →
      nd.kind = .lineComment ∨ nd.kind = .blockComment := by
  induction items with
  | nil => intro base nd h; exact absurd h (List.not_mem_nil nd)
  | cons i rest ih =>
    intro base nd h
    cases i <;>
      (simp only [itemNodes, List.mem_cons] at h
       rcases h with h | h
       · subst h; simp
       · exact ih _ nd h)

theorem parseGo_open (toks : List Token) (r : ParseNode) (done : List ParseNode)
    (t : Token) (hk : t.kind = .commentOpen) :
    parseGo (t :: toks) (r :: done) [(.block, 0)]
      = parseGo toks
          ({ r with parts := r.parts ++ [done.length + 1] }
            :: (done ++ [⟨.blockComment, t.src, t, 0, []⟩]))
          [(.comment, done.length + 1), (.block, 0)] := by
  simp only [parseGo, hk]
  rw [show (TokenKind.commentOpen == TokenKind.blockClose) = false from rfl]
  simp only [Bool.false_eq_true, if_false]
  unfold parseNewToken
  rw [hk]
  dsimp only
  unfold createAddNode createNode
  dsimp only
  rw [List.cons_append, addChild_root]
  rw [show (r :: done).length = done.length + 1 from rfl]

theorem parseGo_comment_skip (toks : List Token) (nodes : List ParseNode)
    (k : Nat) (stk : List (PState × Nat)) (t : Token) (hk : t.kind = .text) :
    parseGo (t :: toks) nodes ((.comment, k) :: stk)
      = parseGo toks nodes ((.comment, k) :: stk) := by
  simp only [parseGo, hk]

theorem parseGo_comment_close (toks : List Token) (l : List ParseNode)
    (x : ParseNode) (stk : List (PState × Nat)) (t : Token)
    (hk : t.kind = .commentClose) :
    parseGo (t :: toks) (l ++ [x]) ((.comment, l.length) :: stk)
      = parseGo toks (l ++ [{ x with end_pos := t.pos + t.length }]) stk := by
  simp only [parseGo, hk]
  rw [closeNode_last]

theorem parseGo_comment_close2 (toks : List Token) (r0 : ParseNode)
    (dl : List ParseNode) (x : ParseNode) (stk : List (PState × Nat))
    (t : Token) (hk : t.kind = .commentClose) :
    parseGo (t :: toks) (r0 :: (dl ++ [x])) ((.comment, dl.length + 1) :: stk)
      = parseGo toks (r0 :: (dl ++ [{ x with end_pos := t.pos + t.length }])) stk := by
  have h1 : r0 :: (dl ++ [x]) = (r0 :: dl) ++ [x] := rfl
  have h2 : dl.length + 1 = (r0 :: dl).length := rfl
  rw [h1, h2, parseGo_comment_close _ _ _ _ _ hk]
  rfl

set_option maxHeartbeats 2000000 in
/-- The parser turns the comment-item token stream into the root block
(children in order) plus one arena node per item and the final text
leaf carrying the EOF token. -/
theorem parseItems (items : List CItem) :
    ∀ (base : Nat) (r : ParseNode) (done : List ParseNode) (p : Nat),
    parseGo (itemToks base items ++ [⟨.eof, 0, p, 0⟩]) (r :: done) [(.block, 0)]
      = ({ r with parts := r.parts
            ++ List.range' (done.length + 1) (items.length + 1) }
          :: (done ++ itemNodes base items
              ++ [⟨.text, 0, ⟨.eof, 0, p, 0⟩, 0, []⟩]),
         [(.block, 0)]) := by
  induction items with
  | nil =>
    intro base r done p
    simp only [itemToks, List.nil_append, itemNodes, List.length_nil]
    simp only [parseGo]
    rw [show (TokenKind.eof == TokenKind.blockClose) = false from rfl]
    simp only [Bool.false_eq_true, if_false]
    unfold parseNewToken
    dsimp only
    unfold createAddNode createNode
    dsimp only
    rw [List.cons_append, addChild_root]
    rw [show (r :: done).length = done.length + 1 from rfl]
    simp [List.range']
  | cons item rest ih =>
    intro base r done p
    cases item with
    | lineSlash body =>
      simp only [itemToks, List.cons_append, itemNodes]
      simp only [parseGo]
      rw [show (TokenKind.lineComment == TokenKind.blockClose) = false from rfl]
      simp only [Bool.false_eq_true, if_false]
      unfold parseNewToken
      dsimp only
      unfold createAddNode createNode
      dsimp only
      rw [List.cons_append, addChild_root]
      rw [show (r :: done).length = done.length + 1 from rfl]
      have hih := ih (base + (body.length + 4))
        { r with parts := r.parts ++ [done.length + 1] }
        (done ++ [(⟨NodeKind.lineComment, 0, ⟨TokenKind.lineComment, 0, base, body.length + 4⟩, 0, []⟩ : ParseNode)]) p
      rw [List.length_append, List.length_cons, List.length_nil] at hih
      rw [hih]
      simp only [List.append_assoc, List.cons_append, List.nil_append,
        List.length_cons]
      rw [show done.length + 0 + 1 + 1 = done.length + 1 + 1 by omega]
      rw [show List.range' (done.length + 1) (rest.length + 1 + 1)
          = (done.length + 1) :: List.range' (done.length + 1 + 1) (rest.length + 1)
          from rfl]
    | lineDash body =>
      simp only [itemToks, List.cons_append, itemNodes]
      simp only [parseGo]
      rw [show (TokenKind.lineComment == TokenKind.blockClose) = false from rfl]
      simp only [Bool.false_eq_true, if_false]
      unfold parseNewToken
      dsimp only
      unfold createAddNode createNode
      dsimp only
      rw [List.cons_append, addChild_root]
      rw [show (r :: done).length = done.length + 1 from rfl]
      have hih := ih (base + (body.length + 4))
        { r with parts := r.parts ++ [done.length + 1] }
        (done ++ [(⟨NodeKind.lineComment, 0, ⟨TokenKind.lineComment, 0, base, body.length + 4⟩, 0, []⟩ : ParseNode)]) p
      rw [List.length_append, List.length_cons, List.length_nil] at hih
      rw [hih]
      simp only [List.append_assoc, List.cons_append, List.nil_append,
        List.length_cons]
      rw [show done.length + 0 + 1 + 1 = done.length + 1 + 1 by omega]
      rw [show List.range' (done.length + 1) (rest.length + 1 + 1)
          = (done.length + 1) :: List.range' (done.length + 1 + 1) (rest.length + 1)
          from rfl]
    | lineHash body =>
      simp only [itemToks, List.cons_append, itemNodes]
      simp only [parseGo]
      rw [show (TokenKind.lineComment == TokenKind.blockClose) = false from rfl]
      simp only [Bool.false_eq_true, if_false]
      unfold parseNewToken
      dsimp only
      unfold createAddNode createNode
      dsimp only
      rw [List.cons_append, addChild_root]
      rw [show (r :: done).length = done.length + 1 from rfl]
      have hih := ih (base + (body.length + 3))
        { r with parts := r.parts ++ [done.length + 1] }
        (done ++ [(⟨NodeKind.lineComment, 0, ⟨TokenKind.lineComment, 0, base, body.length + 3⟩, 0, []⟩ : ParseNode)]) p
      rw [List.length_append, List.length_cons, List.length_nil] at hih
      rw [hih]
      simp only [List.append_assoc, List.cons_append, List.nil_append,
        List.length_cons]
      rw [show done.length + 0 + 1 + 1 = done.length + 1 + 1 by omega]
      rw [show List.range' (done.length + 1) (rest.length + 1 + 1)
          = (done.length + 1) :: List.range' (done.length + 1 + 1) (rest.length + 1)
          from rfl]
    | blockC body =>
      rcases Nat.eq_zero_or_pos body.length with hb0 | hbpos
      · simp only [itemToks, if_pos hb0, List.nil_append, List.cons_append,
          itemNodes]
        rw [parseGo_open _ _ _ _ rfl]
        rw [parseGo_comment_close2
          (itemToks (base + (body.length + 6)) rest ++ [(⟨TokenKind.eof, 0, p, 0⟩ : Token)])
          { r with parts := r.parts ++ [done.length + 1] }
          done
          (⟨NodeKind.blockComment, 0, (⟨TokenKind.commentOpen, 0, base, 3⟩ : Token), 0, []⟩ : ParseNode)
          [(PState.block, 0)]
          (⟨TokenKind.commentClose, 0, base + 3 + body.length, 3⟩ : Token)
          rfl]
        dsimp only
        rw [show base + 3 + body.length + 3 = base + (body.length + 6) by omega]
        have hih := ih (base + (body.length + 6))
          { r with parts := r.parts ++ [done.length + 1] }
          (done ++ [(⟨NodeKind.blockComment, 0, ⟨TokenKind.commentOpen, 0, base, 3⟩,
            base + (body.length + 6), []⟩ : ParseNode)]) p
        rw [List.length_append, List.length_cons, List.length_nil] at hih
        rw [hih]
        simp only [List.append_assoc, List.cons_append, List.nil_append,
          List.length_cons]
        rw [show done.length + 0 + 1 + 1 = done.length + 1 + 1 by omega]
        rw [show List.range' (done.length + 1) (rest.length + 1 + 1)
            = (done.length + 1) :: List.range' (done.length + 1 + 1) (rest.length + 1)
            from rfl]
      · simp only [itemToks, if_neg (by omega : ¬(body.length = 0)),
          List.cons_append, List.nil_append, itemNodes]
        rw [parseGo_open _ _ _ _ rfl]
        rw [parseGo_comment_skip _ _ _ _
          (⟨TokenKind.text, 0, base + 3, body.length⟩ : Token) rfl]
        rw [parseGo_comment_close2
          (itemToks (base + (body.length + 6)) rest ++ [(⟨TokenKind.eof, 0, p, 0⟩ : Token)])
          { r with parts := r.parts ++ [done.length + 1] }
          done
          (⟨NodeKind.blockComment, 0, (⟨TokenKind.commentOpen, 0, base, 3⟩ : Token), 0, []⟩ : ParseNode)
          [(PState.block, 0)]
          (⟨TokenKind.commentClose, 0, base + 3 + body.length, 3⟩ : Token)
          rfl]
        dsimp only
        rw [show base + 3 + body.length + 3 = base + (body.length + 6) by omega]
        have hih := ih (base + (body.length + 6))
          { r with parts := r.parts ++ [done.length + 1] }
          (done ++ [(⟨NodeKind.blockComment, 0, ⟨TokenKind.commentOpen, 0, base, 3⟩,
            base + (body.length + 6), []⟩ : ParseNode)]) p
        rw [List.length_append, List.length_cons, List.length_nil] at hih
        rw [hih]
        simp only [List.append_assoc, List.cons_append, List.nil_append,
          List.length_cons]
        rw [show done.length + 0 + 1 + 1 = done.length + 1 + 1 by omega]
        rw [show List.range' (done.length + 1) (rest.length + 1 + 1)
            = (done.length + 1) :: List.range' (done.length + 1 + 1) (rest.length + 1)
            from rfl]

theorem lexCost_le (items : List CItem) : lexCost items ≤ (encItems items).length := by
  induction items with
  | nil => simp [lexCost, encItems]
  | cons i rest ih =>
    have h : encItems (i :: rest) = encItem i ++ encItems rest := by
      simp [encItems, List.join]
    cases i <;> (simp [lexCost, h, encItem, str2b]; omega)

/-- `lexRun` on a comment-only input: the item tokens plus EOF, no
errors, default special char. -/
theorem lexRun_items (items : List CItem) (hok : ∀ i ∈ items, itemOk i) :
    lexRun (encItems items) 37 0
      = ⟨encItems items, (encItems items).length, 0, 37,
         itemToks 0 items ++ [⟨.eof, 0, (encItems items).length, 0⟩], []⟩ := by
  unfold lexRun
  have h := lexItems items hok (2 * (encItems items).length + 8) (encItems items)
    0 [] [] (by simp) (by have := lexCost_le items; omega)
  simpa using h

theorem parserParse_run (t0 : Token) (rest : List Token)
    (hsrc : t0.src = 0) (nodes : List ParseNode) (last : Token)
    (hgo : parseGo (t0 :: rest) [⟨.block, 0, ⟨.text, 0, 0, 0⟩, 0, []⟩] [(.block, 0)]
        = (nodes, [(.block, 0)]))
    (hlast : (t0 :: rest).getLast? = some last) :
    parserParse (t0 :: rest) = nodes := by
  unfold parserParse
  dsimp only
  rw [hsrc]
  rw [hgo]
  dsimp only
  rw [hlast]
  rfl

/-- The full parse of the comment-only token stream. -/
theorem parserParse_items (items : List CItem) (p : Nat) :
    parserParse (itemToks 0 items ++ [⟨.eof, 0, p, 0⟩])
      = ⟨.block, 0, ⟨.text, 0, 0, 0⟩, 0, List.range' 1 (items.length + 1)⟩
          :: (itemNodes 0 items ++ [⟨.text, 0, ⟨.eof, 0, p, 0⟩, 0, []⟩]) := by
  obtain ⟨t0, rest, hts, hsrc⟩ :
      ∃ t0 rest, itemToks 0 items ++ [(⟨.eof, 0, p, 0⟩ : Token)] = t0 :: rest
        ∧ t0.src = 0 := by
    cases items with
    | nil => exact ⟨_, _, rfl, rfl⟩
    | cons i r => cases i <;> exact ⟨_, _, rfl, rfl⟩
  have hgo := parseItems items 0 ⟨.block, 0, ⟨.text, 0, 0, 0⟩, 0, []⟩ [] p
  simp only [List.length_nil, List.nil_append, Nat.zero_add] at hgo
  have hlast : (itemToks 0 items ++ [(⟨.eof, 0, p, 0⟩ : Token)]).getLast?
      = some ⟨.eof, 0, p, 0⟩ := List.getLast?_concat _
  rw [hts] at hgo hlast ⊢
  rw [parserParse_run t0 rest hsrc _ _ hgo hlast]

theorem cleanParts_cons_none (nodes : List ParseNode) (fuel i : Nat)
    (rest : List Nat) (h : clean_node_f nodes fuel i = .ok none) :
    cleanParts nodes (fuel + 1) (i :: rest) = cleanParts nodes fuel rest := by
  simp only [cleanParts, h]
  cases hr : cleanParts nodes fuel rest <;> rfl

/-- `cleanParts` drops a run of comment nodes and keeps a final
zero-length text leaf. -/
theorem cleanParts_comments_then_leaf (nodes : List ParseNode) (leafTok : Token) :
    ∀ (k s fuel : Nat),
    (∀ j, j < k → ∃ nd, nodes.get? (s + j) = some nd
      ∧ (nd.kind = NodeKind.lineComment ∨ nd.kind = NodeKind.blockComment)) →
    nodes.get? (s + k) = some ⟨.text, 0, leafTok, 0, []⟩ →
    k + 3 ≤ fuel →
    cleanParts nodes fuel (List.range' s (k + 1))
      = .ok [⟨.text, 0, leafTok, 0, [], none⟩] := by
  intro k
  induction k with
  | zero =>
    intro s fuel h hleaf hf
    obtain ⟨g, rfl⟩ : ∃ g, fuel = g + 3 := ⟨fuel - 3, by omega⟩
    rw [show s + 0 = s from rfl] at hleaf
    rw [show List.range' s 1 = [s] from rfl]
    simp only [cleanParts, clean_node_f, hleaf]
    rfl
  | succ k ih =>
    intro s fuel h hleaf hf
    obtain ⟨g, rfl⟩ : ∃ g, fuel = g + 2 := ⟨fuel - 2, by omega⟩
    obtain ⟨nd, hnd, hkind⟩ := h 0 (by omega)
    rw [show s + 0 = s from rfl] at hnd
    rw [show List.range' s (k + 1 + 1) = s :: List.range' (s + 1) (k + 1) from rfl]
    have hstep : clean_node_f nodes (g + 1) s = .ok none := by
      simp only [clean_node_f, hnd]
      have hc : (nd.kind == NodeKind.lineComment || nd.kind == NodeKind.blockComment)
          = true := by
        rcases hkind with h | h <;> simp [h]
      rw [if_pos hc]
    rw [cleanParts_cons_none _ _ _ _ hstep]
    rw [ih (s + 1) (g + 1)
      (fun j hj => by
        have := h (j + 1) (by omega)
        rwa [show s + (j + 1) = s + 1 + j by omega] at this)
      (by rwa [show s + 1 + k = s + (k + 1) by omega])
      (by omega)]

/-- The cleaned AST of a comment-only input: a block whose only child is
the text leaf carrying the EOF token. -/
def astC8 (L : Nat) : ASTNode :=
  ⟨.block, 0, ⟨.text, 0, 0, 0⟩, 0, [⟨.text, 0, ⟨.eof, 0, L, 0⟩, 0, [], none⟩], none⟩

theorem build_ast_items (items : List CItem) (p : Nat) :
    build_ast
      ((⟨.block, 0, ⟨.text, 0, 0, 0⟩, 0, List.range' 1 (items.length + 1)⟩ : ParseNode)
        :: (itemNodes 0 items ++ [⟨.text, 0, ⟨.eof, 0, p, 0⟩, 0, []⟩]))
      = .ok (astC8 p) := by
  have hlen : ((⟨.block, 0, ⟨.text, 0, 0, 0⟩, 0,
        List.range' 1 (items.length + 1)⟩ : ParseNode)
      :: (itemNodes 0 items ++ [(⟨.text, 0, ⟨.eof, 0, p, 0⟩, 0, []⟩ : ParseNode)])).length
      = items.length + 2 := by
    simp [itemNodes_length]
  unfold build_ast
  rw [if_neg (by simp)]
  rw [hlen]
  rw [show 2 * (items.length + 2) + 4 = (2 * items.length + 7) + 1 by omega]
  simp only [clean_node_f, List.get?_cons_zero]
  rw [if_neg (by decide)]
  rw [if_neg (by decide)]
  rw [cleanParts_comments_then_leaf _ (⟨TokenKind.eof, 0, p, 0⟩ : Token) items.length 1 _
    (fun j hj => by
      rw [show (1 : Nat) + j = j + 1 by omega, List.get?_cons_succ]
      have hjl : j < (itemNodes 0 items).length := by rw [itemNodes_length]; omega
      rw [List.get?_append hjl]
      rw [List.get?_eq_get hjl]
      exact ⟨_, rfl, itemNodes_kinds items 0 _ (List.get_mem _ _ _)⟩)
    (by
      rw [show (1 : Nat) + items.length = items.length + 1 by omega, List.get?_cons_succ]
      rw [List.get?_append_right (by rw [itemNodes_length])]
      rw [itemNodes_length]
      simp)
    (by omega)]
  rfl

/-- `buildStage` on the comment-only token stream. -/
theorem buildStage_items (items : List CItem) (p : Nat) :
    buildStage (itemToks 0 items ++ [⟨.eof, 0, p, 0⟩]) = .ok (astC8 p) := by
  unfold buildStage
  rw [parserParse_items, build_ast_items]

/-- `lex_parse_content` on a comment-only input. -/
theorem c8_lpc (items : List CItem) (hok : ∀ i ∈ items, itemOk i) :
    lex_parse_content (encItems items) 37 0
      = .ok (astC8 (encItems items).length) := by
  unfold lex_parse_content
  show (if (!(lexRun (encItems items) 37 0).errors.isEmpty) = true
        then Except.error ("Lexer errors: "
          ++ String.intercalate "; " (lexRun (encItems items) 37 0).errors)
        else buildStage (lexRun (encItems items) 37 0).tokens)
      = .ok (astC8 (encItems items).length)
  rw [lexRun_items items hok]
  dsimp only
  rw [if_neg (by decide)]
  exact buildStage_items items (encItems items).length


/-- `node_text` of a zero-length token is empty, whatever the source
manager holds. -/
theorem node_text_len_zero (ev : Evaluator) (node : ASTNode)
    (h : node.token.length = 0) : node_text ev node = [] := by
  unfold node_text
  rw [h]
  split
  · rfl
  · split
    · rfl
    · split <;>
        (simp only [Nat.add_zero]
         split
         · rfl
         · first
             | simp [Nat.sub_self]
             | (rw [if_neg (by omega)] ; simp [Nat.sub_self]))

/-- Evaluating the comment-only AST yields the empty string and leaves
the evaluator untouched. -/
theorem evaluateF_astC8 (fuel : Nat) (ev : Evaluator) (L : Nat) (hf : 3 ≤ fuel) :
    evaluateF fuel ev (astC8 L) = (ev, .ok []) := by
  obtain ⟨f, rfl⟩ : ∃ f, fuel = f + 3 := ⟨fuel - 3, by omega⟩
  have h1 : evaluateF (f + 3) ev (astC8 L)
      = evalChildrenF (f + 2) ev [⟨.text, 0, ⟨.eof, 0, L, 0⟩, 0, [], none⟩] := rfl
  rw [h1]
  have h2 : evalChildrenF (f + 2) ev [(⟨.text, 0, ⟨.eof, 0, L, 0⟩, 0, [], none⟩ : ASTNode)]
      = (ev, .ok (node_text ev ⟨.text, 0, ⟨.eof, 0, L, 0⟩, 0, [], none⟩ ++ [])) := rfl
  rw [h2, node_text_len_zero ev _ rfl]
  rfl

/-- `ev0c5` after `parse_string` registers a comment-only source. -/
def evC8 (source : Bytes) : Evaluator :=
  { ev0c5 with state := { ev0c5.state with
      source_manager := (ev0c5.state.source_manager.add_source_bytes source p0c5).1 } }

theorem c8_psm (items : List CItem) (hok : ∀ i ∈ items, itemOk i) :
    parse_string_m ev0c5 (encItems items) p0c5
      = (evC8 (encItems items), .ok (astC8 (encItems items).length)) := by
  have h1 : parse_string_m ev0c5 (encItems items) p0c5
      = lexParseStage (evC8 (encItems items))
          (lex_parse_content (encItems items) 37 0) := rfl
  rw [h1, c8_lpc items hok]
  rfl

/-- Counterexample to C8 as stated: a whitespace-only input is *not*
erased.  Outside macro arguments the lexer emits whitespace as a plain
`Text` token, `clean_node` keeps text nodes, and the evaluator echoes
them - only comment nodes vanish.  The one-byte input `" "` (which
consists only of whitespace, hence satisfies the claim hypothesis)
evaluates to `" "`, not to the empty string. -/
theorem whitespace_only_input_is_not_erased :
    process_string_defaults 200 (str2b " ") = .ok (str2b " ")
      ∧ str2b " " ≠ [] := by
  constructor
  · decide
  · decide

/-- C8 amended (comment-only inputs): for every input that is a
sequence of well-formed comments (line comments `S//…\n`, `S--…\n`,
`S#…\n` with no newline in the body, or block comments `S/*…S*/` with
an ASCII, special-char-free body), the full default pipeline returns
the empty string, for every evaluation fuel of at least 3. -/
theorem comments_only_input_evaluates_to_empty (items : List CItem)
    (hok : ∀ i ∈ items, itemOk i) (fuel : Nat) (hf : 3 ≤ fuel) :
    process_string_defaults fuel (encItems items) = .ok [] := by
  have h1 : process_string_defaults fuel (encItems items)
      = (evalStage none fuel (parse_string_m ev0c5 (encItems items) p0c5)).2 := rfl
  rw [h1, c8_psm items hok]
  have h2 : evalStage none fuel
        (evC8 (encItems items), .ok (astC8 (encItems items).length))
      = evaluateF fuel (evC8 (encItems items)) (astC8 (encItems items).length) := rfl
  rw [h2, evaluateF_astC8 fuel _ _ hf]

instance decItemOk : (i : CItem) → Decidable (itemOk i)
  | .lineSlash body => inferInstanceAs (Decidable (∀ b ∈ body, b ≠ 10))
  | .lineDash body => inferInstanceAs (Decidable (∀ b ∈ body, b ≠ 10))
  | .lineHash body => inferInstanceAs (Decidable (∀ b ∈ body, b ≠ 10))
  | .blockC body => inferInstanceAs (Decidable (∀ b ∈ body, b < 128 ∧ b ≠ 37))

/-- Witness for the amended C8 at a concrete three-comment input
`%//hi\n%/*x%*/%#\n`. -/
theorem comments_only_input_evaluates_to_empty_witness :
    (∀ i ∈ ([CItem.lineSlash (str2b "hi"), CItem.blockC (str2b "x"),
        CItem.lineHash []] : List CItem), itemOk i)
    ∧ 3 ≤ (10 : Nat)
    ∧ process_string_defaults 10
        (encItems [CItem.lineSlash (str2b "hi"), CItem.blockC (str2b "x"),
          CItem.lineHash []]) = .ok [] :=
  ⟨by decide, by decide,
    comments_only_input_evaluates_to_empty
      [CItem.lineSlash (str2b "hi"), CItem.blockC (str2b "x"), CItem.lineHash []]
      (by decide) 10 (by decide)⟩


/-! ### Claim C6

The two pipeline runs differ only in where the exported macro is
called: inside its defining scope (input a) or after that scope has
been popped (input b).  Staged literals as for C5. -/

/-- The C6 in-scope-call input text. -/
def INc6a : Bytes := str2b "%def(outer, %set(x, 1)%def(m, %(x))%export(m)%set(x, 2)%m())%outer()"

/-- The token stream the lexer produces for `INc6a`. -/
def TOKSc6a : List Token :=
  [⟨.macroStart, 0, 0, 5⟩,
  ⟨.ident, 0, 5, 5⟩,
  ⟨.comma, 0, 10, 1⟩,
  ⟨.space, 0, 11, 1⟩,
  ⟨.macroStart, 0, 12, 5⟩,
  ⟨.ident, 0, 17, 1⟩,
  ⟨.comma, 0, 18, 1⟩,
  ⟨.space, 0, 19, 1⟩,
  ⟨.text, 0, 20, 1⟩,
  ⟨.closeParen, 0, 21, 1⟩,
  ⟨.macroStart, 0, 22, 5⟩,
  ⟨.ident, 0, 27, 1⟩,
  ⟨.comma, 0, 28, 1⟩,
  ⟨.space, 0, 29, 1⟩,
  ⟨.var, 0, 30, 4⟩,
  ⟨.closeParen, 0, 34, 1⟩,
  ⟨.macroStart, 0, 35, 8⟩,
  ⟨.ident, 0, 43, 1⟩,
  ⟨.closeParen, 0, 44, 1⟩,
  ⟨.macroStart, 0, 45, 5⟩,
  ⟨.ident, 0, 50, 1⟩,
  ⟨.comma, 0, 51, 1⟩,
  ⟨.space, 0, 52, 1⟩,
  ⟨.text, 0, 53, 1⟩,
  ⟨.closeParen, 0, 54, 1⟩,
  ⟨.macroStart, 0, 55, 3⟩,
  ⟨.closeParen, 0, 58, 1⟩,
  ⟨.closeParen, 0, 59, 1⟩,
  ⟨.macroStart, 0, 60, 7⟩,
  ⟨.closeParen, 0, 67, 1⟩,
  ⟨.eof, 0, 68, 0⟩]

/-- The parser arena for `TOKSc6a`. -/
def NODESc6a : List ParseNode :=
  [⟨.block, 0, ⟨.text, 0, 0, 0⟩, 0, [1, 29, 31]⟩,
  ⟨.macroCall, 0, ⟨.macroStart, 0, 0, 5⟩, 60, [2, 4]⟩,
  ⟨.param, 0, ⟨.text, 0, 0, 0⟩, 11, [3]⟩,
  ⟨.ident, 0, ⟨.ident, 0, 5, 5⟩, 0, []⟩,
  ⟨.param, 0, ⟨.comma, 0, 10, 1⟩, 60, [5, 6, 12, 18, 21, 27]⟩,
  ⟨.space, 0, ⟨.space, 0, 11, 1⟩, 0, []⟩,
  ⟨.macroCall, 0, ⟨.macroStart, 0, 12, 5⟩, 22, [7, 9]⟩,
  ⟨.param, 0, ⟨.text, 0, 12, 0⟩, 19, [8]⟩,
  ⟨.ident, 0, ⟨.ident, 0, 17, 1⟩, 0, []⟩,
  ⟨.param, 0, ⟨.comma, 0, 18, 1⟩, 22, [10, 11]⟩,
  ⟨.space, 0, ⟨.space, 0, 19, 1⟩, 0, []⟩,
  ⟨.text, 0, ⟨.text, 0, 20, 1⟩, 0, []⟩,
  ⟨.macroCall, 0, ⟨.macroStart, 0, 22, 5⟩, 35, [13, 15]⟩,
  ⟨.param, 0, ⟨.text, 0, 22, 0⟩, 29, [14]⟩,
  ⟨.ident, 0, ⟨.ident, 0, 27, 1⟩, 0, []⟩,
  ⟨.param, 0, ⟨.comma, 0, 28, 1⟩, 35, [16, 17]⟩,
  ⟨.space, 0, ⟨.space, 0, 29, 1⟩, 0, []⟩,
  ⟨.var, 0, ⟨.var, 0, 30, 4⟩, 0, []⟩,
  ⟨.macroCall, 0, ⟨.macroStart, 0, 35, 8⟩, 45, [19]⟩,
  ⟨.param, 0, ⟨.text, 0, 35, 0⟩, 45, [20]⟩,
  ⟨.ident, 0, ⟨.ident, 0, 43, 1⟩, 0, []⟩,
  ⟨.macroCall, 0, ⟨.macroStart, 0, 45, 5⟩, 55, [22, 24]⟩,
  ⟨.param, 0, ⟨.text, 0, 45, 0⟩, 52, [23]⟩,
  ⟨.ident, 0, ⟨.ident, 0, 50, 1⟩, 0, []⟩,
  ⟨.param, 0, ⟨.comma, 0, 51, 1⟩, 55, [25, 26]⟩,
  ⟨.space, 0, ⟨.space, 0, 52, 1⟩, 0, []⟩,
  ⟨.text, 0, ⟨.text, 0, 53, 1⟩, 0, []⟩,
  ⟨.macroCall, 0, ⟨.macroStart, 0, 55, 3⟩, 59, [28]⟩,
  ⟨.param, 0, ⟨.text, 0, 55, 0⟩, 59, []⟩,
  ⟨.macroCall, 0, ⟨.macroStart, 0, 60, 7⟩, 68, [30]⟩,
  ⟨.param, 0, ⟨.text, 0, 60, 0⟩, 68, []⟩,
  ⟨.text, 0, ⟨.eof, 0, 68, 0⟩, 0, []⟩]

/-- The cleaned AST of `INc6a`. -/
def ASTc6a : ASTNode :=
  ⟨.block, 0, ⟨.text, 0, 0, 0⟩, 0, [⟨.macroCall, 0, ⟨.macroStart, 0, 0, 5⟩, 60, [⟨.param, 0, ⟨.text, 0, 0, 0⟩, 11, [⟨.ident, 0, ⟨.ident, 0, 5, 5⟩, 0, [], none⟩], none⟩, ⟨.param, 0, ⟨.comma, 0, 10, 1⟩, 60, [⟨.macroCall, 0, ⟨.macroStart, 0, 12, 5⟩, 22, [⟨.param, 0, ⟨.text, 0, 12, 0⟩, 19, [⟨.ident, 0, ⟨.ident, 0, 17, 1⟩, 0, [], none⟩], none⟩, ⟨.param, 0, ⟨.comma, 0, 18, 1⟩, 22, [⟨.text, 0, ⟨.text, 0, 20, 1⟩, 0, [], none⟩], none⟩], none⟩, ⟨.macroCall, 0, ⟨.macroStart, 0, 22, 5⟩, 35, [⟨.param, 0, ⟨.text, 0, 22, 0⟩, 29, [⟨.ident, 0, ⟨.ident, 0, 27, 1⟩, 0, [], none⟩], none⟩, ⟨.param, 0, ⟨.comma, 0, 28, 1⟩, 35, [⟨.var, 0, ⟨.var, 0, 30, 4⟩, 0, [], none⟩], none⟩], none⟩, ⟨.macroCall, 0, ⟨.macroStart, 0, 35, 8⟩, 45, [⟨.param, 0, ⟨.text, 0, 35, 0⟩, 45, [⟨.ident, 0, ⟨.ident, 0, 43, 1⟩, 0, [], none⟩], none⟩], none⟩, ⟨.macroCall, 0, ⟨.macroStart, 0, 45, 5⟩, 55, [⟨.param, 0, ⟨.text, 0, 45, 0⟩, 52, [⟨.ident, 0, ⟨.ident, 0, 50, 1⟩, 0, [], none⟩], none⟩, ⟨.param, 0, ⟨.comma, 0, 51, 1⟩, 55, [⟨.text, 0, ⟨.text, 0, 53, 1⟩, 0, [], none⟩], none⟩], none⟩, ⟨.macroCall, 0, ⟨.macroStart, 0, 55, 3⟩, 59, [⟨.param, 0, ⟨.text, 0, 55, 0⟩, 59, [], none⟩], none⟩], none⟩], none⟩, ⟨.macroCall, 0, ⟨.macroStart, 0, 60, 7⟩, 68, [⟨.param, 0, ⟨.text, 0, 60, 0⟩, 68, [], none⟩], none⟩, ⟨.text, 0, ⟨.eof, 0, 68, 0⟩, 0, [], none⟩], none⟩

/-- `ev0c5` after `parse_string` registers `INc6a`. -/
def ev2c6a : Evaluator :=
  { ev0c5 with state := { ev0c5.state with
      source_manager := (ev0c5.state.source_manager.add_source_bytes INc6a p0c5).1 } }

theorem c6a_lex_tokens : (lexRun INc6a 37 0).tokens = TOKSc6a := by decide

theorem c6a_lex_errors : (lexRun INc6a 37 0).errors = [] := by decide

theorem c6a_parse : parserParse TOKSc6a = NODESc6a := by decide

theorem c6a_build : build_ast NODESc6a = .ok ASTc6a := rfl

set_option maxHeartbeats 2000000 in
theorem c6a_eval : (evaluateF 300 ev2c6a ASTc6a).2 = .ok (str2b "2") := by
  decide

set_option maxHeartbeats 1000000 in
theorem c6a_lpc : lex_parse_content INc6a 37 0 = .ok ASTc6a := by
  unfold lex_parse_content
  show (if (!(lexRun INc6a 37 0).errors.isEmpty) = true
        then Except.error ("Lexer errors: " ++ String.intercalate "; " (lexRun INc6a 37 0).errors)
        else buildStage (lexRun INc6a 37 0).tokens) = .ok ASTc6a
  rw [c6a_lex_errors, c6a_lex_tokens, if_neg (by decide)]
  unfold buildStage
  rw [c6a_parse, c6a_build]

theorem c6a_psm : parse_string_m ev0c5 INc6a p0c5 = (ev2c6a, .ok ASTc6a) := by
  have h1 : parse_string_m ev0c5 INc6a p0c5
      = lexParseStage ev2c6a (lex_parse_content INc6a 37 0) := rfl
  rw [h1, c6a_lpc]
  rfl

theorem c6a_pipeline : process_string_defaults 300 INc6a = .ok (str2b "2") := by
  have h1 : process_string_defaults 300 INc6a
      = (evalStage none 300 (parse_string_m ev0c5 INc6a p0c5)).2 := rfl
  rw [h1, c6a_psm]
  exact c6a_eval

/-- The C6 after-pop-call input text. -/
def INc6b : Bytes := str2b "%def(outer, %set(x, 1)%def(m, %(x))%export(m)%set(x, 2))%outer()%m()"

/-- The token stream the lexer produces for `INc6b`. -/
def TOKSc6b : List Token :=
  [⟨.macroStart, 0, 0, 5⟩,
  ⟨.ident, 0, 5, 5⟩,
  ⟨.comma, 0, 10, 1⟩,
  ⟨.space, 0, 11, 1⟩,
  ⟨.macroStart, 0, 12, 5⟩,
  ⟨.ident, 0, 17, 1⟩,
  ⟨.comma, 0, 18, 1⟩,
  ⟨.space, 0, 19, 1⟩,
  ⟨.text, 0, 20, 1⟩,
  ⟨.closeParen, 0, 21, 1⟩,
  ⟨.macroStart, 0, 22, 5⟩,
  ⟨.ident, 0, 27, 1⟩,
  ⟨.comma, 0, 28, 1⟩,
  ⟨.space, 0, 29, 1⟩,
  ⟨.var, 0, 30, 4⟩,
  ⟨.closeParen, 0, 34, 1⟩,
  ⟨.macroStart, 0, 35, 8⟩,
  ⟨.ident, 0, 43, 1⟩,
  ⟨.closeParen, 0, 44, 1⟩,
  ⟨.macroStart, 0, 45, 5⟩,
  ⟨.ident, 0, 50, 1⟩,
  ⟨.comma, 0, 51, 1⟩,
  ⟨.space, 0, 52, 1⟩,
  ⟨.text, 0, 53, 1⟩,
  ⟨.closeParen, 0, 54, 1⟩,
  ⟨.closeParen, 0, 55, 1⟩,
  ⟨.macroStart, 0, 56, 7⟩,
  ⟨.closeParen, 0, 63, 1⟩,
  ⟨.macroStart, 0, 64, 3⟩,
  ⟨.closeParen, 0, 67, 1⟩,
  ⟨.eof, 0, 68, 0⟩]

/-- The parser arena for `TOKSc6b`. -/
def NODESc6b : List ParseNode :=
  [⟨.block, 0, ⟨.text, 0, 0, 0⟩, 0, [1, 27, 29, 31]⟩,
  ⟨.macroCall, 0, ⟨.macroStart, 0, 0, 5⟩, 56, [2, 4]⟩,
  ⟨.param, 0, ⟨.text, 0, 0, 0⟩, 11, [3]⟩,
  ⟨.ident, 0, ⟨.ident, 0, 5, 5⟩, 0, []⟩,
  ⟨.param, 0, ⟨.comma, 0, 10, 1⟩, 56, [5, 6, 12, 18, 21]⟩,
  ⟨.space, 0, ⟨.space, 0, 11, 1⟩, 0, []⟩,
  ⟨.macroCall, 0, ⟨.macroStart, 0, 12, 5⟩, 22, [7, 9]⟩,
  ⟨.param, 0, ⟨.text, 0, 12, 0⟩, 19, [8]⟩,
  ⟨.ident, 0, ⟨.ident, 0, 17, 1⟩, 0, []⟩,
  ⟨.param, 0, ⟨.comma, 0, 18, 1⟩, 22, [10, 11]⟩,
  ⟨.space, 0, ⟨.space, 0, 19, 1⟩, 0, []⟩,
  ⟨.text, 0, ⟨.text, 0, 20, 1⟩, 0, []⟩,
  ⟨.macroCall, 0, ⟨.macroStart, 0, 22, 5⟩, 35, [13, 15]⟩,
  ⟨.param, 0, ⟨.text, 0, 22, 0⟩, 29, [14]⟩,
  ⟨.ident, 0, ⟨.ident, 0, 27, 1⟩, 0, []⟩,
  ⟨.param, 0, ⟨.comma, 0, 28, 1⟩, 35, [16, 17]⟩,
  ⟨.space, 0, ⟨.space, 0, 29, 1⟩, 0, []⟩,
  ⟨.var, 0, ⟨.var, 0, 30, 4⟩, 0, []⟩,
  ⟨.macroCall, 0, ⟨.macroStart, 0, 35, 8⟩, 45, [19]⟩,
  ⟨.param, 0, ⟨.text, 0, 35, 0⟩, 45, [20]⟩,
  ⟨.ident, 0, ⟨.ident, 0, 43, 1⟩, 0, []⟩,
  ⟨.macroCall, 0, ⟨.macroStart, 0, 45, 5⟩, 55, [22, 24]⟩,
  ⟨.param, 0, ⟨.text, 0, 45, 0⟩, 52, [23]⟩,
  ⟨.ident, 0, ⟨.ident, 0, 50, 1⟩, 0, []⟩,
  ⟨.param, 0, ⟨.comma, 0, 51, 1⟩, 55, [25, 26]⟩,
  ⟨.space, 0, ⟨.space, 0, 52, 1⟩, 0, []⟩,
  ⟨.text, 0, ⟨.text, 0, 53, 1⟩, 0, []⟩,
  ⟨.macroCall, 0, ⟨.macroStart, 0, 56, 7⟩, 64, [28]⟩,
  ⟨.param, 0, ⟨.text, 0, 56, 0⟩, 64, []⟩,
  ⟨.macroCall, 0, ⟨.macroStart, 0, 64, 3⟩, 68, [30]⟩,
  ⟨.param, 0, ⟨.text, 0, 64, 0⟩, 68, []⟩,
  ⟨.text, 0, ⟨.eof, 0, 68, 0⟩, 0, []⟩]

/-- The cleaned AST of `INc6b`. -/
def ASTc6b : ASTNode :=
  ⟨.block, 0, ⟨.text, 0, 0, 0⟩, 0, [⟨.macroCall, 0, ⟨.macroStart, 0, 0, 5⟩, 56, [⟨.param, 0, ⟨.text, 0, 0, 0⟩, 11, [⟨.ident, 0, ⟨.ident, 0, 5, 5⟩, 0, [], none⟩], none⟩, ⟨.param, 0, ⟨.comma, 0, 10, 1⟩, 56, [⟨.macroCall, 0, ⟨.macroStart, 0, 12, 5⟩, 22, [⟨.param, 0, ⟨.text, 0, 12, 0⟩, 19, [⟨.ident, 0, ⟨.ident, 0, 17, 1⟩, 0, [], none⟩], none⟩, ⟨.param, 0, ⟨.comma, 0, 18, 1⟩, 22, [⟨.text, 0, ⟨.text, 0, 20, 1⟩, 0, [], none⟩], none⟩], none⟩, ⟨.macroCall, 0, ⟨.macroStart, 0, 22, 5⟩, 35, [⟨.param, 0, ⟨.text, 0, 22, 0⟩, 29, [⟨.ident, 0, ⟨.ident, 0, 27, 1⟩, 0, [], none⟩], none⟩, ⟨.param, 0, ⟨.comma, 0, 28, 1⟩, 35, [⟨.var, 0, ⟨.var, 0, 30, 4⟩, 0, [], none⟩], none⟩], none⟩, ⟨.macroCall, 0, ⟨.macroStart, 0, 35, 8⟩, 45, [⟨.param, 0, ⟨.text, 0, 35, 0⟩, 45, [⟨.ident, 0, ⟨.ident, 0, 43, 1⟩, 0, [], none⟩], none⟩], none⟩, ⟨.macroCall, 0, ⟨.macroStart, 0, 45, 5⟩, 55, [⟨.param, 0, ⟨.text, 0, 45, 0⟩, 52, [⟨.ident, 0, ⟨.ident, 0, 50, 1⟩, 0, [], none⟩], none⟩, ⟨.param, 0, ⟨.comma, 0, 51, 1⟩, 55, [⟨.text, 0, ⟨.text, 0, 53, 1⟩, 0, [], none⟩], none⟩], none⟩], none⟩], none⟩, ⟨.macroCall, 0, ⟨.macroStart, 0, 56, 7⟩, 64, [⟨.param, 0, ⟨.text, 0, 56, 0⟩, 64, [], none⟩], none⟩, ⟨.macroCall, 0, ⟨.macroStart, 0, 64, 3⟩, 68, [⟨.param, 0, ⟨.text, 0, 64, 0⟩, 68, [], none⟩], none⟩, ⟨.text, 0, ⟨.eof, 0, 68, 0⟩, 0, [], none⟩], none⟩

/-- `ev0c5` after `parse_string` registers `INc6b`. -/
def ev2c6b : Evaluator :=
  { ev0c5 with state := { ev0c5.state with
      source_manager := (ev0c5.state.source_manager.add_source_bytes INc6b p0c5).1 } }

theorem c6b_lex_tokens : (lexRun INc6b 37 0).tokens = TOKSc6b := by decide

theorem c6b_lex_errors : (lexRun INc6b 37 0).errors = [] := by decide

theorem c6b_parse : parserParse TOKSc6b = NODESc6b := by decide

theorem c6b_build : build_ast NODESc6b = .ok ASTc6b := rfl

set_option maxHeartbeats 2000000 in
theorem c6b_eval : (evaluateF 300 ev2c6b ASTc6b).2 = .ok (str2b "1") := by
  decide

set_option maxHeartbeats 1000000 in
theorem c6b_lpc : lex_parse_content INc6b 37 0 = .ok ASTc6b := by
  unfold lex_parse_content
  show (if (!(lexRun INc6b 37 0).errors.isEmpty) = true
        then Except.error ("Lexer errors: " ++ String.intercalate "; " (lexRun INc6b 37 0).errors)
        else buildStage (lexRun INc6b 37 0).tokens) = .ok ASTc6b
  rw [c6b_lex_errors, c6b_lex_tokens, if_neg (by decide)]
  unfold buildStage
  rw [c6b_parse, c6b_build]

theorem c6b_psm : parse_string_m ev0c5 INc6b p0c5 = (ev2c6b, .ok ASTc6b) := by
  have h1 : parse_string_m ev0c5 INc6b p0c5
      = lexParseStage ev2c6b (lex_parse_content INc6b 37 0) := rfl
  rw [h1, c6b_lpc]
  rfl

theorem c6b_pipeline : process_string_defaults 300 INc6b = .ok (str2b "1") := by
  have h1 : process_string_defaults 300 INc6b
      = (evalStage none 300 (parse_string_m ev0c5 INc6b p0c5)).2 := rfl
  rw [h1, c6b_psm]
  exact c6b_eval

/-- Counterexample to C6 as stated: the two inputs define and export
the same macro `m` (free variable `x`, no parameters) from the same
defining scope and call it once with the same (empty) argument list;
only the call site differs.  Inside the defining scope the call reads
the *live* value of `x` (set to `2` after the export) and yields `2`;
after the scope has been popped the exported copy substitutes the
value `1` that `export` froze, and yields `1`.  The two outputs are
not identical. -/
theorem exported_macro_call_scope_counterexample :
    process_string_defaults 300 INc6a = .ok (str2b "2")
    ∧ process_string_defaults 300 INc6b = .ok (str2b "1")
    ∧ str2b "2" ≠ str2b "1" :=
  ⟨c6a_pipeline, c6b_pipeline, by decide⟩

/-- `node_text` depends on the evaluator only through its source
manager. -/
theorem node_text_congr_sm (ev1 ev2 : Evaluator) (n : ASTNode)
    (h : ev1.state.source_manager = ev2.state.source_manager) :
    node_text ev1 n = node_text ev2 n := by
  unfold node_text
  rw [h]

/-- `updTop` leaves the source manager alone. -/
theorem updTop_sm (st : EvaluatorState) (f : ScopeFrame → ScopeFrame) :
    (st.updTop f).source_manager = st.source_manager := by
  unfold EvaluatorState.updTop
  cases st.scope_stack.getLast? <;> rfl

/-- One step of `evaluate` on a `Var` node. -/
theorem evaluateF_var (f : Nat) (ev : Evaluator) (node : ASTNode)
    (hk : node.kind = .var) :
    evaluateF (f + 1) ev node
      = (ev, .ok (ev.state.get_variable (node_text ev node))) := by
  simp only [evaluateF, hk]

/-- Reading a variable right after `push_scope` + `set_variable` finds
the value just set, whatever the surrounding stack holds. -/
theorem get_variable_after_push_set (st : EvaluatorState) (v val : Bytes) :
    ((st.push_scope).set_variable v val).get_variable v = val := by
  unfold EvaluatorState.push_scope EvaluatorState.set_variable EvaluatorState.updTop
  dsimp only
  rw [List.getLast?_concat]
  dsimp only
  rw [List.dropLast_concat]
  unfold EvaluatorState.get_variable
  dsimp only
  rw [List.reverse_append]
  simp [alookup, ainsert, List.findSome?, List.find?, ScopeFrame.empty]

/-- C6 amended: a call of an *exported* macro reads the value its free
variable was frozen with at export time, not the live environment.  If
`name` resolves to a non-python macro with no formal parameters, one
frozen binding `v := val`, and whose body is a variable node spelling
`v`, then the call returns `val` - for every evaluator state, i.e. also
after the defining scope has been popped and whatever the live scopes
currently bind `v` to. -/
theorem exported_macro_call_reads_frozen_value (fuel : Nat) (ev : Evaluator)
    (node : ASTNode) (name v val : Bytes) (mac : MacroDefinition)
    (hb : isBuiltin name = false)
    (hmac : ev.state.get_macro name = some mac)
    (hparams : mac.params = [])
    (hfrozen : mac.frozen_args = [(v, val)])
    (hkind : mac.body.kind = .var)
    (hpy : mac.is_python = false)
    (htext : node_text ev mac.body = v) :
    (evaluateMacroCallF (fuel + 2) ev node name).2 = .ok val := by
  have hstep : evaluateMacroCallF (fuel + 2) ev node name
      = (match evaluateF (fuel + 1)
            (mac.frozen_args.foldl
              (fun ev kv => { ev with state := ev.state.set_variable kv.1 kv.2 })
              { ev with state := ev.state.push_scope }) mac.body with
         | (ev2, .error e) => (ev2, .error e)
         | (ev2, .ok result) =>
           if mac.is_python && ev2.state.config.python.enabled then
             match ev2.python_evaluator with
             | some f =>
               match f result (currentScopeVars ev2) with
               | .error e => (ev2, .error e)
               | .ok result2 =>
                 ({ ev2 with state := ev2.state.pop_scope }, .ok result2)
             | none =>
               (ev2, .error (.runtime (str2b "Python evaluator not configured")))
           else
             ({ ev2 with state := ev2.state.pop_scope }, .ok result)) := by
    simp only [evaluateMacroCallF, hb, Bool.false_eq_true, if_false, hmac]
    rw [hparams]
    rfl
  rw [hstep, hfrozen]
  simp only [List.foldl_cons, List.foldl_nil]
  rw [evaluateF_var fuel _ _ hkind]
  have hsm :
      ({ state := ev.state.push_scope.set_variable v val, fs := ev.fs,
         python_evaluator := ev.python_evaluator } : Evaluator).state.source_manager
      = ev.state.source_manager := by
    show ((ev.state.push_scope).set_variable v val).source_manager
      = ev.state.source_manager
    unfold EvaluatorState.set_variable
    rw [updTop_sm]
    rfl
  have hnt : node_text
      ({ state := ev.state.push_scope.set_variable v val, fs := ev.fs,
         python_evaluator := ev.python_evaluator } : Evaluator) mac.body = v := by
    rw [node_text_congr_sm _ ev _ hsm]
    exact htext
  rw [hnt]
  rw [get_variable_after_push_set]
  simp only [hpy, Bool.false_and, Bool.false_eq_true, if_false]

/-- The frozen-`x` macro of the C6 witness: body `%(x)` (source index
0), no parameters, frozen binding `x := 1`. -/
def macW6 : MacroDefinition :=
  ⟨str2b "m", [], ⟨.var, 0, ⟨.var, 0, 0, 4⟩, 0, [], none⟩, false,
   [(str2b "x", str2b "1")]⟩

/-- A witness evaluator: single (global) frame holding the exported
`m`, live binding `x := 2`, source 0 = `%(x)`. -/
def evW6 : Evaluator :=
  { state :=
      { EvaluatorState.new EvalConfig.default with
        scope_stack := [⟨[(str2b "x", str2b "2")], [(str2b "m", macW6)]⟩],
        source_manager := ⟨[str2b "%(x)"], [str2b "s"], []⟩ }
    fs := []
    python_evaluator := none }

/-- Witness for the amended C6: in `evW6` the live `x` is `2`, yet the
exported `m` substitutes its frozen `1`. -/
theorem exported_macro_call_reads_frozen_value_witness :
    (isBuiltin (str2b "m") = false)
    ∧ (evW6.state.get_macro (str2b "m") = some macW6)
    ∧ (macW6.params = [])
    ∧ (macW6.frozen_args = [(str2b "x", str2b "1")])
    ∧ (macW6.body.kind = .var)
    ∧ (macW6.is_python = false)
    ∧ (node_text evW6 macW6.body = str2b "x")
    ∧ ((evaluateMacroCallF 12
          evW6 ⟨.macroCall, 0, ⟨.macroStart, 0, 0, 3⟩, 0, [], none⟩
          (str2b "m")).2 = .ok (str2b "1")) := by
  refine ⟨by decide, rfl, rfl, rfl, rfl, rfl, by decide, ?_⟩
  exact exported_macro_call_reads_frozen_value 10 evW6
    ⟨.macroCall, 0, ⟨.macroStart, 0, 0, 3⟩, 0, [], none⟩
    (str2b "m") (str2b "x") (str2b "1") macW6
    (by decide) rfl rfl rfl rfl rfl (by decide)

end Azadi
